import Mathlib

/-!
Verification of the slinky linker-script generator core.

The development shallowly embeds the Rust sources:
* `file_info.rs` — the file-descriptor validator (`FileInfoSerial.unserialize`);
* `linker_writer.rs` — the stateful script emission engine (`LinkerWriter`).

Support modules that are not part of the provided sources
(`absent_nullable.rs`, `file_kind.rs`, `script_buffer.rs`, `runtime_settings.rs`,
the symbol-naming style and the document loader) are modelled from the
specification; each such definition carries a doc comment starting with
`Modelled from the spec:`.
-/

namespace Slinky

/-- Structured error kinds, mirroring `error.rs` as described by the spec
(§7): every error carries the offending field identity. -/
inductive SlinkyError where
  | missingValue (name : String)
  | emptyValue (name : String)
  | invalidFieldCombo (field1 field2 : String)
  | missingVramClassForSegment (seg vramClass : String)
deriving DecidableEq, Repr

/-- Modelled from the spec: `absent_nullable.rs` is absent from the sources.
The spec (§9) requires a three-state "absent vs. explicit-null vs. present"
wrapper used while reading raw fields. -/
inductive AbsentNullable (α : Type) where
  | absent
  | null
  | value (v : α)
deriving DecidableEq, Repr

namespace AbsentNullable

/-- Modelled from the spec: true exactly when the raw field carries a value. -/
def hasValue : AbsentNullable α → Bool
  | .value _ => true
  | _ => false

/-- Modelled from the spec: read a required field; a missing (absent or null)
field yields `MissingValue(name)`. -/
def get (a : AbsentNullable α) (name : String) : Except SlinkyError α :=
  match a with
  | .value v => .ok v
  | _ => .error (.missingValue name)

/-- Modelled from the spec: read an optional field with a default for an
absent key; an explicit null is rejected. -/
def getNonNull (a : AbsentNullable α) (name : String) (d : α) :
    Except SlinkyError α :=
  match a with
  | .value v => .ok v
  | .absent => .ok d
  | .null => .error (.missingValue name)

/-- Modelled from the spec: read an optional field with no default. -/
def getNonNullNoDefault (a : AbsentNullable α) (name : String) :
    Except SlinkyError (Option α) :=
  match a with
  | .value v => .ok (some v)
  | .absent => .ok none
  | .null => .error (.missingValue name)

end AbsentNullable

/-- File-descriptor kind tag, as matched by `file_info.rs`. -/
inductive FileKind where
  | object
  | archive
  | pad
  | linkerOffset
deriving DecidableEq, Repr

/-- Suffix test on strings by character list (used instead of
`String.endsWith` so that concrete instances evaluate). -/
def strEndsWith (p sfx : String) : Bool :=
  sfx.data.isSuffixOf p.data

/-- Modelled from the spec: `file_kind.rs` is absent from the sources. The
spec (§4.1, §8) requires kind inference from the path's extension via a fixed
suffix table: a known archive suffix infers Archive, otherwise Object. -/
def FileKind.fromPath (p : String) : FileKind :=
  if strEndsWith p ".a" then .archive else .object

/-- The validated descriptor produced by `FileInfoSerial::unserialize`,
mirroring the `FileInfo` struct of `file_info.rs`. -/
structure FileInfo where
  path : String
  kind : FileKind
  subfile : String
  padAmount : Nat
  sectionF : String
  linkerOffsetName : String
  sectionOrder : List (String × String)
deriving DecidableEq, Repr

/-- The raw, optionally-populated input record, mirroring `FileInfoSerial`
of `file_info.rs`. The `HashMap` field `section_order` is embedded as an
association list in the record's iteration order. -/
structure FileInfoSerial where
  path : AbsentNullable String
  kind : AbsentNullable FileKind
  subfile : AbsentNullable String
  padAmount : AbsentNullable Nat
  sectionF : AbsentNullable String
  linkerOffsetName : AbsentNullable String
  sectionOrder : AbsentNullable (List (String × String))
deriving DecidableEq, Repr

/-- Mirrors `FileInfoSerial::unserialize` of `file_info.rs`: resolves
kind/path together, then `subfile`, `pad_amount`, `section`,
`linker_offset_name`, `section_order`, failing on the first violation. -/
def FileInfoSerial.unserialize (self : FileInfoSerial) :
    Except SlinkyError FileInfo := do
  let pk ← self.kind.getNonNullNoDefault "kind"
  let pathKind : Except SlinkyError (String × FileKind) :=
    match pk with
    | some k =>
      match k with
      | .object | .archive => do
        let p ← self.path.get "path"
        if p = "" then
          throw (.emptyValue "path")
        else
          pure (p, k)
      | .pad | .linkerOffset =>
        if self.path.hasValue then
          throw (.invalidFieldCombo "kind: pad or kind: linker_offset" "path")
        else
          pure ("", k)
    | none => do
      let p ← self.path.get "path"
      if p = "" then
        throw (.emptyValue "path")
      else
        pure (p, FileKind.fromPath p)
  let (path, kind) ← pathKind
  let subfile ←
    match kind with
    | .object | .linkerOffset | .pad =>
      if self.subfile.hasValue then
        throw (.invalidFieldCombo "subfile" "non `kind: archive`")
      else
        pure "*"
    | .archive => self.subfile.getNonNull "subfile" "*"
  let padAmount ←
    match kind with
    | .object | .linkerOffset | .archive =>
      if self.padAmount.hasValue then
        throw (.invalidFieldCombo "pad_amount" "non `kind: pad`")
      else
        pure 0
    | .pad => self.padAmount.get "pad_amount"
  let sectionV ←
    match kind with
    | .object | .archive =>
      if self.sectionF.hasValue then
        throw (.invalidFieldCombo "section" "non `kind: pad or kind: linker_offset`")
      else
        pure ""
    | .pad | .linkerOffset => self.sectionF.get "section"
  let linkerOffsetName ←
    match kind with
    | .object | .pad | .archive =>
      if self.linkerOffsetName.hasValue then
        throw (.invalidFieldCombo "linker_offset_name" "non `kind: linker_offset`")
      else
        pure ""
    | .linkerOffset => self.linkerOffsetName.get "linker_offset_name"
  let sectionOrder ←
    match kind with
    | .pad | .linkerOffset =>
      if self.sectionOrder.hasValue then
        throw (.invalidFieldCombo "section_order" "non `kind: object` or `kind: archive`")
      else
        pure []
    | .object | .archive => self.sectionOrder.getNonNull "section_order" []
  pure { path := path, kind := kind, subfile := subfile,
         padAmount := padAmount, sectionF := sectionV,
         linkerOffsetName := linkerOffsetName, sectionOrder := sectionOrder }

/-- A raw record with every field absent. -/
def FileInfoSerial.empty : FileInfoSerial :=
  { path := .absent, kind := .absent, subfile := .absent,
    padAmount := .absent, sectionF := .absent,
    linkerOffsetName := .absent, sectionOrder := .absent }

/-! ## Symbol names

Modelled from the spec: the symbol naming strategy (§2) is a set of pure
functions mapping segment / section / address-class identifiers to canonical
(distinct) output symbol strings.  The style is embedded as a structured name
type, rendered to text when a line is written. -/

/-- Structured linker symbol names produced by the naming style. -/
inductive SymName where
  | segmentRomStart (s : String)
  | segmentRomEnd (s : String)
  | segmentRomSize (s : String)
  | segmentVramStart (s : String)
  | segmentVramEnd (s : String)
  | segmentVramSize (s : String)
  | segmentSectionStart (seg sect : String)
  | segmentSectionEnd (seg sect : String)
  | segmentSectionSize (seg sect : String)
  | vramClassStart (c : String)
  | vramClassEnd (c : String)
  | vramClassSize (c : String)
  | linkerOffset (n : String)
deriving DecidableEq, Repr

/-- Modelled from the spec: canonical rendering of a structured symbol name. -/
def render : SymName → String
  | .segmentRomStart s => s ++ "_ROM_START"
  | .segmentRomEnd s => s ++ "_ROM_END"
  | .segmentRomSize s => s ++ "_ROM_SIZE"
  | .segmentVramStart s => s ++ "_VRAM"
  | .segmentVramEnd s => s ++ "_VRAM_END"
  | .segmentVramSize s => s ++ "_VRAM_SIZE"
  | .segmentSectionStart seg sect => seg ++ sect ++ "_START"
  | .segmentSectionEnd seg sect => seg ++ sect ++ "_END"
  | .segmentSectionSize seg sect => seg ++ sect ++ "_SIZE"
  | .vramClassStart c => c ++ "_CLASS_VRAM"
  | .vramClassEnd c => c ++ "_CLASS_VRAM_END"
  | .vramClassSize c => c ++ "_CLASS_VRAM_SIZE"
  | .linkerOffset n => n ++ "_OFFSET"

/-- One recorded symbol write: a plain definition `name = value;` or a
self-raising assignment `name = MAX(name, operand);`. -/
inductive SymEvent where
  | define (name : SymName) (value : String)
  | maxSelf (name : SymName) (operand : SymName)
deriving DecidableEq, Repr

/-- The symbol name an event writes to. -/
def SymEvent.name : SymEvent → SymName
  | .define n _ => n
  | .maxSelf n _ => n

/-! ## Hexadecimal rendering helpers (for `{:X}` / `{:08X}` format strings) -/

/-- Uppercase hexadecimal digits of `n` (mirrors Rust's `{:X}`). -/
def hexStr (n : Nat) : String :=
  String.mk ((Nat.toDigits 16 n).map Char.toUpper)

/-- Uppercase hexadecimal digits of `n`, zero-padded to width 8 (mirrors
Rust's `{:08X}`). -/
def hex8 (n : Nat) : String :=
  let ds := (Nat.toDigits 16 n).map Char.toUpper
  String.mk (List.replicate (8 - ds.length) '0' ++ ds)

/-! ## Script buffer

Modelled from the spec: `script_buffer.rs` is absent from the sources.  The
spec (§2) describes it as an indentation-aware line accumulator that also
records, in first-seen order, every distinct symbol name emitted as an
address/size marker.  The `events` field is the exact trace of symbol
writes, one entry per written symbol line, in order. -/

structure ScriptBuffer where
  lines : List String
  indent : Nat
  linkerSymbols : List SymName
  events : List SymEvent
deriving DecidableEq, Repr

namespace ScriptBuffer

def new : ScriptBuffer := ⟨[], 0, [], []⟩

/-- Indentation prefix: four spaces per level. -/
def indentStr (n : Nat) : String := String.join (List.replicate n "    ")

def writeln (b : ScriptBuffer) (s : String) : ScriptBuffer :=
  { b with lines := b.lines ++ [indentStr b.indent ++ s] }

def writeEmptyLine (b : ScriptBuffer) : ScriptBuffer :=
  { b with lines := b.lines ++ [""] }

def beginBlock (b : ScriptBuffer) : ScriptBuffer :=
  { b.writeln "\x7b" with indent := b.indent + 1 }

def endBlock (b : ScriptBuffer) : ScriptBuffer :=
  ScriptBuffer.writeln { b with indent := b.indent - 1 } "\x7d"

/-- Register a symbol name in first-seen order (the header registry). -/
def addLinkerSymbol (b : ScriptBuffer) (n : SymName) : ScriptBuffer :=
  if n ∈ b.linkerSymbols then b
  else { b with linkerSymbols := b.linkerSymbols ++ [n] }

/-- Write `name = value;` and record the event (no registry entry). -/
def writeSymbol (b : ScriptBuffer) (n : SymName) (v : String) : ScriptBuffer :=
  let b' := b.writeln (render n ++ " = " ++ v ++ ";")
  { b' with events := b'.events ++ [SymEvent.define n v] }

/-- Write `name = value;`, record the event and register the name. -/
def writeLinkerSymbol (b : ScriptBuffer) (n : SymName) (v : String) :
    ScriptBuffer :=
  (b.addLinkerSymbol n).writeSymbol n v

/-- Write `name = MAX(name, other);` and record the event. -/
def writeSymbolMaxSelf (b : ScriptBuffer) (n other : SymName) : ScriptBuffer :=
  let b' := b.writeln
    (render n ++ " = MAX(" ++ render n ++ ", " ++ render other ++ ");")
  { b' with events := b'.events ++ [SymEvent.maxSelf n other] }

/-- Write `sym = ALIGN(sym, 0x..);` for a raw counter symbol. -/
def alignSymbol (b : ScriptBuffer) (sym : String) (n : Nat) : ScriptBuffer :=
  b.writeln (sym ++ " = ALIGN(" ++ sym ++ ", 0x" ++ hexStr n ++ ");")

/-- Write a user symbol assignment with optional PROVIDE / HIDDEN wrapping. -/
def writeSymbolAssignment (b : ScriptBuffer) (name value : String)
    (provide hidden : Bool) : ScriptBuffer :=
  b.writeln
    ((if hidden then "HIDDEN(" else "")
      ++ (if provide then "PROVIDE(" else "")
      ++ name ++ " = " ++ value
      ++ (if provide then ")" else "")
      ++ (if hidden then ")" else "") ++ ";")

def writeRequiredSymbol (b : ScriptBuffer) (name : String) : ScriptBuffer :=
  b.writeln ("EXTERN(" ++ name ++ ");")

def writeAssert (b : ScriptBuffer) (check msg : String) : ScriptBuffer :=
  b.writeln ("ASSERT((" ++ check ++ "), \"" ++ msg ++ "\");")

/-- Placeholder single-entry output section used for allow-listed sections. -/
def writeSingleEntrySection (b : ScriptBuffer) (sect value : String) :
    ScriptBuffer :=
  b.writeln (sect ++ " " ++ value ++ " : \x7b *(" ++ sect ++ "); \x7d")

/-- Modelled from the spec: closing hook of the text buffer; no further
observable behaviour is specified. -/
def finish (b : ScriptBuffer) : ScriptBuffer := b

def isEmpty (b : ScriptBuffer) : Bool := b.lines.isEmpty

end ScriptBuffer

/-! ## Document model (mirroring the structs consumed by `linker_writer.rs`) -/

/-- An address class (`vram_class.rs`), including its per-run `emitted` flag. -/
structure VramClass where
  name : String
  fixedVram : Option Nat
  fixedSymbol : Option String
  followsClasses : List String
  emitted : Bool
deriving DecidableEq, Repr

/-- Global-pointer placement directive carried by a segment. -/
structure GpInfo where
  sectionF : String
  offset : Nat
  provide : Bool
  hidden : Bool
  excludeIfAny : List String
  excludeIfAll : List String
  includeIfAny : List String
  includeIfAll : List String
deriving DecidableEq, Repr

/-- Keep policy of a file descriptor, as matched by `emit_file`. -/
inductive KeepSections where
  | absent
  | all (b : Bool)
  | whichOnes (l : List String)
deriving DecidableEq, Repr

/-- File-descriptor kind as matched by `emit_file` (includes `Group`). -/
inductive WFileKind where
  | object
  | archive
  | pad
  | linkerOffset
  | group
deriving DecidableEq, Repr

/-- The file descriptor consumed by the emission engine, mirroring the
fields of `FileInfo` that `linker_writer.rs` reads (`kind`, `path`,
`subfile`, `pad_amount`, `section`, `linker_offset_name`, `section_order`,
`keep_sections`, `dir`, `files`, and the four conditional-inclusion sets). -/
inductive WFile where
  | mk (kind : WFileKind) (path : String) (subfile : String)
      (padAmount : Nat) (sectionF : String) (linkerOffsetName : String)
      (sectionOrder : List (String × String)) (keepSections : KeepSections)
      (dir : String) (files : List WFile)
      (excludeIfAny excludeIfAll includeIfAny includeIfAll : List String)

namespace WFile

def kind : WFile → WFileKind
  | .mk k _ _ _ _ _ _ _ _ _ _ _ _ _ => k

def path : WFile → String
  | .mk _ p _ _ _ _ _ _ _ _ _ _ _ _ => p

def subfile : WFile → String
  | .mk _ _ s _ _ _ _ _ _ _ _ _ _ _ => s

def padAmount : WFile → Nat
  | .mk _ _ _ a _ _ _ _ _ _ _ _ _ _ => a

def sectionF : WFile → String
  | .mk _ _ _ _ s _ _ _ _ _ _ _ _ _ => s

def linkerOffsetName : WFile → String
  | .mk _ _ _ _ _ n _ _ _ _ _ _ _ _ => n

def sectionOrder : WFile → List (String × String)
  | .mk _ _ _ _ _ _ so _ _ _ _ _ _ _ => so

def keepSections : WFile → KeepSections
  | .mk _ _ _ _ _ _ _ ks _ _ _ _ _ _ => ks

def dir : WFile → String
  | .mk _ _ _ _ _ _ _ _ d _ _ _ _ _ => d

def files : WFile → List WFile
  | .mk _ _ _ _ _ _ _ _ _ fs _ _ _ _ => fs

def excludeIfAny : WFile → List String
  | .mk _ _ _ _ _ _ _ _ _ _ a _ _ _ => a

def excludeIfAll : WFile → List String
  | .mk _ _ _ _ _ _ _ _ _ _ _ a _ _ => a

def includeIfAny : WFile → List String
  | .mk _ _ _ _ _ _ _ _ _ _ _ _ a _ => a

def includeIfAll : WFile → List String
  | .mk _ _ _ _ _ _ _ _ _ _ _ _ _ a => a

end WFile

/-- A segment (`segment.rs`), with the fields read by `linker_writer.rs`. -/
structure Segment where
  name : String
  fixedVram : Option Nat
  fixedSymbol : Option String
  followsSegment : Option String
  vramClass : Option String
  dir : String
  allocSections : List String
  noloadSections : List String
  subalign : Option Nat
  segmentStartAlign : Option Nat
  segmentEndAlign : Option Nat
  sectionStartAlign : Option Nat
  sectionEndAlign : Option Nat
  sectionsStartAlignment : List (String × Nat)
  sectionsEndAlignment : List (String × Nat)
  fillValue : Option Nat
  wildcardSections : Bool
  sectionsSubgroups : List (String × List String)
  gpInfo : Option GpInfo
  files : List WFile
  excludeIfAny : List String
  excludeIfAll : List String
  includeIfAny : List String
  includeIfAll : List String

/-- A flat symbol assignment directive. -/
structure SymbolAssignment where
  name : String
  value : String
  provide : Bool
  hidden : Bool
  excludeIfAny : List String
  excludeIfAll : List String
  includeIfAny : List String
  includeIfAll : List String
deriving DecidableEq, Repr

/-- A required-symbol directive. -/
structure RequiredSymbol where
  name : String
  excludeIfAny : List String
  excludeIfAll : List String
  includeIfAny : List String
  includeIfAll : List String
deriving DecidableEq, Repr

/-- An assertion directive. -/
structure AssertEntry where
  check : String
  errorMessage : String
  excludeIfAny : List String
  excludeIfAll : List String
  includeIfAny : List String
  includeIfAll : List String
deriving DecidableEq, Repr

/-- Global settings (`settings.rs`), restricted to the fields the emission
engine and the exporters read. -/
structure Settings where
  basePath : String
  sectionsAllowlist : List String
  sectionsAllowlistExtra : List String
  sectionsDenylist : List String
  discardWildcardSection : Bool
  hardcodedGpValue : Option Nat
  singleSegmentMode : Bool
  dPath : Option String
  targetPath : Option String
  symbolsHeaderPath : Option String
  symbolsHeaderType : String
  symbolsHeaderAsArray : Bool

/-- The validated document. -/
structure Document where
  settings : Settings
  segments : List Segment
  vramClasses : List VramClass
  symbolAssignments : List SymbolAssignment
  requiredSymbols : List RequiredSymbol
  asserts : List AssertEntry
  entry : Option String

/-- Modelled from the spec: `runtime_settings.rs` is absent from the
sources.  Carries the active tag set for conditional inclusion (§4.6) and
the version-comment switch. -/
structure RuntimeSettings where
  activeTags : List String
  emitVersionComment : Bool
deriving DecidableEq, Repr

/-- Modelled from the spec (§4.6): a directive is emitted iff
(exclude_if_any is empty OR disjoint from active tags) AND
(exclude_if_all is empty OR not fully contained in active tags) AND
(include_if_any is empty OR intersects active tags) AND
(include_if_all is empty OR fully contained in active tags). -/
def RuntimeSettings.shouldEmitEntry (rs : RuntimeSettings)
    (exAny exAll incAny incAll : List String) : Bool :=
  (exAny.isEmpty || !(exAny.any (fun t => rs.activeTags.contains t)))
    && (exAll.isEmpty || !(exAll.all (fun t => rs.activeTags.contains t)))
    && (incAny.isEmpty || incAny.any (fun t => rs.activeTags.contains t))
    && (incAll.isEmpty || incAll.all (fun t => rs.activeTags.contains t))

/-! ## Writer state -/

/-- Modelled version constants (`version.rs` is out of the provided core). -/
def versionString : String := "0.1.0"

/-- The emission engine state, mirroring the `LinkerWriter` struct.  The
document and runtime settings (held by reference in Rust) are passed as
explicit arguments to each operation.  `referencedPaths` is the exact trace
of input-file references written into the script, in emission order, with
duplicates; `filesPaths` mirrors the de-duplicated `IndexSet`. -/
structure Writer where
  buffer : ScriptBuffer
  filesPaths : List String
  referencedPaths : List String
  vramClasses : List (String × VramClass)
  singleSegment : Bool
  referencePartialObjects : Bool
  emitSectionsKindSymbols : Bool
  emitSectionSymbols : Bool

/-- Apply a pure buffer operation to the writer. -/
def Writer.modBuf (st : Writer) (f : ScriptBuffer → ScriptBuffer) : Writer :=
  { st with buffer := f st.buffer }

/-- Insert-or-replace in an insertion-ordered association list (mirrors
`IndexMap::insert`, which keeps the original position on replacement). -/
def upsert (m : List (String × VramClass)) (k : String) (v : VramClass) :
    List (String × VramClass) :=
  if m.any (fun kv => kv.1 == k) then
    m.map (fun kv => if kv.1 == k then (kv.1, v) else kv)
  else
    m ++ [(k, v)]

/-- Set the `emitted` flag of class `k` (mirrors the `get_mut` update). -/
def setClassEmitted (m : List (String × VramClass)) (k : String) :
    List (String × VramClass) :=
  m.map (fun kv => if kv.1 == k then (kv.1, { kv.2 with emitted := true }) else kv)

/-- Mirrors `LinkerWriter::new`. -/
def Writer.new (d : Document) (rs : RuntimeSettings) : Writer :=
  let vcs := d.vramClasses.foldl (fun m c => upsert m c.name c) []
  let b := ScriptBuffer.new
  let b :=
    if rs.emitVersionComment then
      (b.writeln ("/* Generated by slinky " ++ versionString ++ " */")).writeEmptyLine
    else b
  { buffer := b, filesPaths := [], referencedPaths := [], vramClasses := vcs,
    singleSegment := false, referencePartialObjects := false,
    emitSectionsKindSymbols := true, emitSectionSymbols := true }

/-- Mirrors `LinkerWriter::new_reference_partial_objects`. -/
def Writer.newReferencePartialObjects (d : Document) (rs : RuntimeSettings) :
    Writer :=
  { Writer.new d rs with referencePartialObjects := true }

/-- Outcome of one engine operation: success, a recoverable structured
error, a fatal assertion failure (carrying the state at the failure point),
or fuel exhaustion standing for non-termination of the unguarded
recursion. -/
inductive RunResult where
  | ok (st : Writer)
  | err (e : SlinkyError)
  | fatal (st : Writer)
  | diverge

/-- Sequencing of engine operations. -/
def RunResult.andThen (r : RunResult) (f : Writer → RunResult) : RunResult :=
  match r with
  | .ok st => f st
  | r => r

/-- Run a step for each list element in order, stopping at the first
non-`ok` outcome (mirrors `for` loops over fallible operations). -/
def runList (step : α → Writer → RunResult) : List α → Writer → RunResult
  | [], st => .ok st
  | x :: xs, st =>
    match step x st with
    | .ok st' => runList step xs st'
    | r => r

/-- Join two path components (mirrors `PathBuf::push` for the relative
paths used by the engine; `EscapedPath` is modelled as a plain string). -/
def pathJoin (a b : String) : String :=
  if a = "" then b else if b = "" then a else a ++ "/" ++ b

/-! ## Section redirection resolution (`emit_section_for_file`) -/

/-- Sort key of a section for `sort_unstable_by_key`: Rust sorts by
`Option<usize>` positions in the canonical section list, where `None`
(section not in the list) orders before every `Some` position. -/
def posKey (sections : List String) (k : String) : Nat :=
  match sections.findIdx? (fun s => s == k) with
  | none => 0
  | some i => i + 1

/-- The unsorted candidate list of `sections_to_emit_here`: the current
section unless it is a redirection source (a key of the map), plus every
source key the map sends to the current section, in map iteration order. -/
def stehCands (so : List (String × String)) (curr : String) : List String :=
  (if so.any (fun kv => kv.1 == curr) then [] else [curr])
    ++ so.filterMap (fun kv => if kv.2 == curr then some kv.1 else none)

/-- The sections of a file that render under the current output section,
mirroring the `sections_to_emit_here` computation of
`emit_section_for_file`: the candidates sorted by position in the canonical
section list (`sort_unstable_by_key` over `Option<usize>` positions, with
absent sections ordering first). -/
def sectionsToEmitHere (so : List (String × String)) (curr : String)
    (sections : List String) : List String :=
  @List.insertionSort String
    (fun a b => posKey sections a ≤ posKey sections b)
    (fun a b => Nat.decLe (posKey sections a) (posKey sections b))
    (stehCands so curr)

/-! ## The recursive emission core

`emit_section_for_file` recurses through subgroup sections and (via
`emit_file` on Group descriptors) through nested file lists.  The Rust code
has no cycle guard; the embedding makes the recursion total with a fuel
parameter, consumed at every recursion step, and `RunResult.diverge` stands
for fuel exhaustion.  A run of the Rust code terminates exactly when some
fuel makes the embedded run not diverge. -/

/-- Mirrors `emit_file`: writes one input-section selector (Object /
Archive), a pad advance, a linker-offset symbol, or flattens a Group via
the supplied recursion callback. -/
def emitFile (rs : RuntimeSettings)
    (recurse : WFile → String → String → Writer → RunResult)
    (f : WFile) (seg : Segment) (curr : String) (bp : String)
    (st : Writer) : RunResult :=
  if !(rs.shouldEmitEntry f.excludeIfAny f.excludeIfAll f.includeIfAny
      f.includeIfAll) then
    .ok st
  else
    let wildcard := if seg.wildcardSections then "*" else ""
    let sides : String × String :=
      match f.keepSections with
      | .absent => ("", "")
      | .all b => if b then ("KEEP(", ")") else ("", "")
      | .whichOnes which =>
        if which.contains curr then ("KEEP(", ")") else ("", "")
    match f.kind with
    | .object =>
      let path := pathJoin bp f.path
      let st := st.modBuf (fun b => b.writeln
        (sides.1 ++ path ++ "(" ++ curr ++ wildcard ++ ")" ++ sides.2 ++ ";"))
      let st :=
        { st with
          referencedPaths := st.referencedPaths ++ [path],
          filesPaths :=
            if st.filesPaths.contains path then st.filesPaths
            else st.filesPaths ++ [path] }
      .ok st
    | .archive =>
      let path := pathJoin bp f.path
      let st := st.modBuf (fun b => b.writeln
        (sides.1 ++ path ++ ":" ++ f.subfile ++ "(" ++ curr ++ wildcard ++ ")"
          ++ sides.2 ++ ";"))
      let st :=
        { st with
          referencedPaths := st.referencedPaths ++ [path],
          filesPaths :=
            if st.filesPaths.contains path then st.filesPaths
            else st.filesPaths ++ [path] }
      .ok st
    | .pad =>
      if f.sectionF = curr then
        .ok (st.modBuf (fun b => b.writeln (". += 0x" ++ hexStr f.padAmount ++ ";")))
      else
        .ok st
    | .linkerOffset =>
      if f.sectionF = curr then
        .ok (st.modBuf (fun b =>
          b.writeLinkerSymbol (.linkerOffset f.linkerOffsetName) "."))
      else
        .ok st
    | .group =>
      let nbp := pathJoin bp f.dir
      runList (fun child st => recurse child curr nbp st) f.files st

/-- Mirrors `emit_section_for_file`, fuelled.  For a file with a non-empty
`section_order`, resolves the sections to emit here and, after each, walks
the declared subgroup sections; otherwise emits the file directly and walks
the subgroups of the current section. -/
def emitSectionForFile (rs : RuntimeSettings) (fuel : Nat) (f : WFile)
    (seg : Segment) (curr : String) (sections : List String) (bp : String)
    (st : Writer) : RunResult :=
  match fuel with
  | 0 => .diverge
  | fuel + 1 =>
    let recurse := fun child sect bp' st' =>
      emitSectionForFile rs fuel child seg sect sections bp' st'
    if !f.sectionOrder.isEmpty then
      let ks := sectionsToEmitHere f.sectionOrder curr sections
      runList (fun k st' =>
        match emitFile rs recurse f seg k bp st' with
        | .ok st'' =>
          if !st''.referencePartialObjects then
            match (seg.sectionsSubgroups).lookup k with
            | some others =>
              runList (fun o stI =>
                emitSectionForFile rs fuel f seg o sections bp stI) others st''
            | none => .ok st''
          else
            .ok st''
        | r => r) ks st
    else
      match emitFile rs recurse f seg curr bp st with
      | .ok st' =>
        if !st'.referencePartialObjects then
          match (seg.sectionsSubgroups).lookup curr with
          | some others =>
            runList (fun o stI =>
              emitSectionForFile rs fuel f seg o sections bp stI) others st'
          | none => .ok st'
        else
          .ok st'
      | r => r

/-- Mirrors `emit_section`: resolve the base path and walk every top-level
file descriptor of the segment. -/
def emitSection (d : Document) (rs : RuntimeSettings) (fuel : Nat)
    (seg : Segment) (curr : String) (sections : List String) (st : Writer) :
    RunResult :=
  let bp := d.settings.basePath
  let bp := if !st.referencePartialObjects then pathJoin bp seg.dir else bp
  runList (fun f st' => emitSectionForFile rs fuel f seg curr sections bp st')
    seg.files st

/-! ## Per-segment emission -/

/-- Mirrors `write_sym_end_size`. -/
def writeSymEndSize (b : ScriptBuffer) (start endN size : SymName)
    (value : String) : ScriptBuffer :=
  (b.writeLinkerSymbol endN value).writeLinkerSymbol size
    ("ABSOLUTE(" ++ render endN ++ " - " ++ render start ++ ")")

/-- Mirrors `write_sections_kind_start`. -/
def writeSectionsKindStart (seg : Segment) (noload : Bool) (st : Writer) :
    Writer :=
  if st.emitSectionsKindSymbols then
    let segSym := seg.name ++ "_" ++ (if noload then "noload" else "alloc")
    st.modBuf (fun b =>
      ((b.writeLinkerSymbol (.segmentVramStart segSym) ".").writeEmptyLine))
  else st

/-- Mirrors `write_sections_kind_end`. -/
def writeSectionsKindEnd (seg : Segment) (noload : Bool) (st : Writer) :
    Writer :=
  if st.emitSectionsKindSymbols then
    let segSym := seg.name ++ "_" ++ (if noload then "noload" else "alloc")
    st.modBuf (fun b =>
      writeSymEndSize b.writeEmptyLine (.segmentVramStart segSym)
        (.segmentVramEnd segSym) (.segmentVramSize segSym) ".")
  else st

/-- Mirrors `write_section_symbol_start`. -/
def writeSectionSymbolStart (rs : RuntimeSettings) (seg : Segment)
    (curr : String) (st : Writer) : Writer :=
  if st.emitSectionSymbols then
    st.modBuf (fun b =>
      let b :=
        match seg.sectionStartAlign with
        | some a => b.alignSymbol "." a
        | none => b
      let b :=
        match (seg.sectionsStartAlignment).lookup curr with
        | some a => b.alignSymbol "." a
        | none => b
      let b :=
        match seg.gpInfo with
        | some gp =>
          if rs.shouldEmitEntry gp.excludeIfAny gp.excludeIfAll gp.includeIfAny
              gp.includeIfAll && gp.sectionF == curr then
            b.writeSymbolAssignment "_gp" (". + 0x" ++ hexStr gp.offset)
              gp.provide gp.hidden
          else b
        | none => b
      b.writeLinkerSymbol (.segmentSectionStart seg.name curr) ".")
  else st

/-- Mirrors `write_section_symbol_end`. -/
def writeSectionSymbolEnd (seg : Segment) (curr : String) (st : Writer) :
    Writer :=
  if st.emitSectionSymbols then
    st.modBuf (fun b =>
      let b :=
        match seg.sectionEndAlign with
        | some a => b.alignSymbol "." a
        | none => b
      let b :=
        match (seg.sectionsEndAlignment).lookup curr with
        | some a => b.alignSymbol "." a
        | none => b
      writeSymEndSize b (.segmentSectionStart seg.name curr)
        (.segmentSectionEnd seg.name curr) (.segmentSectionSize seg.name curr)
        ".")
  else st

/-- Mirrors `write_segment_start`. -/
def writeSegmentStart (seg : Segment) (noload : Bool) (st : Writer) : Writer :=
  let st := writeSectionsKindStart seg noload st
  let nameSuffix := if noload then ".noload" else ""
  let line := "." ++ seg.name ++ nameSuffix
  let line :=
    if noload then
      line ++ " (NOLOAD) :"
    else
      let line :=
        match seg.fixedVram with
        | some fv => line ++ " 0x" ++ hex8 fv
        | none =>
          match seg.fixedSymbol with
          | some fs => line ++ " " ++ fs
          | none =>
            match seg.followsSegment with
            | some fseg => line ++ " " ++ render (.segmentVramEnd fseg)
            | none =>
              match seg.vramClass with
              | some vc => line ++ " " ++ render (.vramClassStart vc)
              | none => line
      line ++ " : AT(" ++ render (.segmentRomStart seg.name) ++ ")"
  let line :=
    match seg.subalign with
    | some sa => line ++ " SUBALIGN(" ++ toString sa ++ ")"
    | none => line
  st.modBuf (fun b => (b.writeln line).beginBlock)

/-- Mirrors `write_segment_end`. -/
def writeSegmentEnd (seg : Segment) (noload : Bool) (st : Writer) : Writer :=
  writeSectionsKindEnd seg noload (st.modBuf ScriptBuffer.endBlock)

/-- The per-section body of `write_segment`'s loop: section start symbols,
the section content, section end symbols, and a separating empty line
between consecutive sections. -/
def writeSegmentStep (d : Document) (rs : RuntimeSettings) (fuel : Nat)
    (seg : Segment) (sections : List String) (p : Nat × String)
    (st : Writer) : RunResult :=
  match emitSection d rs fuel seg p.2 sections
      (writeSectionSymbolStart rs seg p.2 st) with
  | .ok st'' =>
    .ok (if p.1 + 1 < sections.length then
        (writeSectionSymbolEnd seg p.2 st'').modBuf ScriptBuffer.writeEmptyLine
      else writeSectionSymbolEnd seg p.2 st'')
  | r => r

/-- Mirrors `write_segment`. -/
def writeSegment (d : Document) (rs : RuntimeSettings) (fuel : Nat)
    (seg : Segment) (sections : List String) (noload : Bool) (st : Writer) :
    RunResult :=
  let st := writeSegmentStart seg noload st
  let st :=
    match seg.fillValue with
    | some f => st.modBuf (fun b => b.writeln ("FILL(0x" ++ hex8 f ++ ");"))
    | none => st
  (runList (writeSegmentStep d rs fuel seg sections) sections.enum st).andThen
    (fun st' => .ok (writeSegmentEnd seg noload st'))

/-- The output-section header line of `write_single_segment`: the section
name, the NOLOAD marker and the optional SUBALIGN suffix. -/
def singleSectionLine (seg : Segment) (noload : Bool) (curr : String) :
    String :=
  match seg.subalign with
  | some sa =>
    curr ++ (if noload then " (NOLOAD)" else "") ++ " :"
      ++ " SUBALIGN(" ++ toString sa ++ ")"
  | none => curr ++ (if noload then " (NOLOAD)" else "") ++ " :"

/-- Opening of one output section in `write_single_segment`: section start
symbol, header line, block open and the optional FILL directive. -/
def writeSingleSectionOpen (rs : RuntimeSettings) (seg : Segment)
    (noload : Bool) (curr : String) (st : Writer) : Writer :=
  match seg.fillValue with
  | some f =>
    ((writeSectionSymbolStart rs seg curr st).modBuf (fun b =>
      (b.writeln (singleSectionLine seg noload curr)).beginBlock)).modBuf
        (fun b => b.writeln ("FILL(0x" ++ hex8 f ++ ");"))
  | none =>
    (writeSectionSymbolStart rs seg curr st).modBuf (fun b =>
      (b.writeln (singleSectionLine seg noload curr)).beginBlock)

/-- One per-section iteration of `write_single_segment`. -/
def writeSingleStep (d : Document) (rs : RuntimeSettings) (fuel : Nat)
    (seg : Segment) (sections : List String) (noload : Bool)
    (p : Nat × String) (st : Writer) : RunResult :=
  match emitSection d rs fuel seg p.2 sections
      (writeSingleSectionOpen rs seg noload p.2 st) with
  | .ok st'' =>
    .ok (if p.1 + 1 < sections.length then
        (writeSectionSymbolEnd seg p.2
          (st''.modBuf ScriptBuffer.endBlock)).modBuf
            ScriptBuffer.writeEmptyLine
      else writeSectionSymbolEnd seg p.2 (st''.modBuf ScriptBuffer.endBlock))
  | r => r

/-- Mirrors `write_single_segment`. -/
def writeSingleSegment (d : Document) (rs : RuntimeSettings) (fuel : Nat)
    (seg : Segment) (sections : List String) (noload : Bool) (st : Writer) :
    RunResult :=
  let st := writeSectionsKindStart seg noload st
  (runList (writeSingleStep d rs fuel seg sections noload) sections.enum
      st).andThen
    (fun st' => .ok (writeSectionsKindEnd seg noload st'))

/-! ## Adding segments -/

/-- Mirrors the address-class header block of `add_segment` (emitted the
first time a segment references a not-yet-emitted class). -/
def emitVramClassHeader (cn : String) (vc : VramClass) (st : Writer) : Writer :=
  let b := st.buffer
  let b :=
    match vc.fixedVram with
    | some fv => b.writeLinkerSymbol (.vramClassStart cn) ("0x" ++ hex8 fv)
    | none =>
      match vc.fixedSymbol with
      | some fs => b.writeLinkerSymbol (.vramClassStart cn) fs
      | none =>
        vc.followsClasses.foldl
          (fun b' oc => b'.writeSymbolMaxSelf (.vramClassStart cn) (.vramClassEnd oc))
          (b.writeLinkerSymbol (.vramClassStart cn) "0x00000000")
  let b := b.writeLinkerSymbol (.vramClassEnd cn) "0x00000000"
  let b := b.writeEmptyLine
  { st with buffer := b, vramClasses := setClassEmitted st.vramClasses cn }

/-- The part of `add_segment` following the address-class header: the
rom/vram start symbols, both section-kind blocks, the rom advance, the
end/size symbol triples and the class end raise. -/
def addSegmentBody (d : Document) (rs : RuntimeSettings) (fuel : Nat)
    (seg : Segment) (st : Writer) : RunResult :=
  let b := st.buffer
  let b :=
    match seg.segmentStartAlign with
    | some a => (b.alignSymbol "__romPos" a).alignSymbol "." a
    | none => b
  let b := b.writeLinkerSymbol (.segmentRomStart seg.name) "__romPos"
  let b := b.writeLinkerSymbol (.segmentVramStart seg.name)
    ("ADDR(." ++ seg.name ++ ")")
  let st := { st with buffer := b }
  (writeSegment d rs fuel seg seg.allocSections false st).andThen (fun st =>
    let st := st.modBuf ScriptBuffer.writeEmptyLine
    (writeSegment d rs fuel seg seg.noloadSections true st).andThen (fun st =>
      let b := st.buffer.writeEmptyLine
      let b := b.writeln ("__romPos += SIZEOF(." ++ seg.name ++ ");")
      let b :=
        match seg.segmentEndAlign with
        | some a => (b.alignSymbol "__romPos" a).alignSymbol "." a
        | none => b
      let b := writeSymEndSize b (.segmentVramStart seg.name)
        (.segmentVramEnd seg.name) (.segmentVramSize seg.name) "."
      let b := writeSymEndSize b (.segmentRomStart seg.name)
        (.segmentRomEnd seg.name) (.segmentRomSize seg.name) "__romPos"
      let b :=
        match seg.vramClass with
        | some cn =>
          (b.writeEmptyLine).writeSymbolMaxSelf (.vramClassEnd cn)
            (.segmentVramEnd seg.name)
        | none => b
      .ok { st with buffer := b.writeEmptyLine }))

/-- Mirrors `add_segment`. -/
def addSegment (d : Document) (rs : RuntimeSettings) (fuel : Nat)
    (seg : Segment) (st : Writer) : RunResult :=
  if !(rs.shouldEmitEntry seg.excludeIfAny seg.excludeIfAll seg.includeIfAny
      seg.includeIfAll) then
    .ok st
  else if st.singleSegment then
    .fatal st
  else
    let clsRes : RunResult :=
      match seg.vramClass with
      | some cn =>
        match (st.vramClasses).lookup cn with
        | none => .err (.missingVramClassForSegment seg.name cn)
        | some vc =>
          if vc.emitted then .ok st
          else .ok (emitVramClassHeader cn vc st)
      | none => .ok st
    clsRes.andThen (addSegmentBody d rs fuel seg)

/-- Mirrors `begin_sections`. -/
def beginSections (d : Document) (st : Writer) : Writer :=
  st.modBuf (fun b =>
    let b := (b.writeln "SECTIONS").beginBlock
    let b := b.writeln "__romPos = 0x0;"
    let b :=
      match d.settings.hardcodedGpValue with
      | some gp => b.writeln ("_gp = 0x" ++ hex8 gp ++ ";")
      | none => b
    b.writeEmptyLine)

/-- The vram-class size-symbol fold at the head of `end_sections`: one
`<class>_CLASS_VRAM_SIZE` definition per emitted class, with a flag noting
whether anything was written. -/
def vramClassSizesFold (m : List (String × VramClass))
    (acc : ScriptBuffer × Bool) : ScriptBuffer × Bool :=
  m.foldl
    (fun (acc : ScriptBuffer × Bool) kv =>
      if kv.2.emitted then
        (acc.1.writeLinkerSymbol (.vramClassSize kv.1)
          (render (.vramClassEnd kv.1) ++ " - "
            ++ render (.vramClassStart kv.1)),
          true)
      else acc)
    acc

/-- One allowlist pass of `end_sections`: placeholder single-entry output
sections for each listed name. -/
def singleEntryStep (acc : ScriptBuffer × Bool) (sects : List String) :
    ScriptBuffer × Bool :=
  if !sects.isEmpty then
    let b := if acc.2 then acc.1.writeEmptyLine else acc.1
    (sects.foldl (fun b' s => b'.writeSingleEntrySection s "0") b, true)
  else acc

/-- The `/DISCARD/` block of `end_sections`. -/
def discardStep (d : Document) (acc : ScriptBuffer × Bool) : ScriptBuffer :=
  if d.settings.discardWildcardSection
      || !d.settings.sectionsDenylist.isEmpty then
    let b := if acc.2 then acc.1.writeEmptyLine else acc.1
    let b := (b.writeln "/DISCARD/ :").beginBlock
    let b := d.settings.sectionsDenylist.foldl
      (fun b' s => b'.writeln ("*(" ++ s ++ ");")) b
    let b :=
      if d.settings.discardWildcardSection then b.writeln "*(*);" else b
    b.endBlock
  else acc.1

/-- Mirrors `end_sections`. -/
def endSections (d : Document) (st : Writer) : Writer :=
  st.modBuf (fun b0 =>
    let acc := vramClassSizesFold st.vramClasses (b0, false)
    let acc := singleEntryStep acc d.settings.sectionsAllowlist
    let acc := singleEntryStep acc d.settings.sectionsAllowlistExtra
    let b := discardStep d acc
    (b.endBlock).finish)

/-- Mirrors `add_single_segment`. -/
def addSingleSegment (d : Document) (rs : RuntimeSettings) (fuel : Nat)
    (seg : Segment) (st : Writer) : RunResult :=
  if st.singleSegment then
    .fatal st
  else
    let st := { st with singleSegment := true }
    let st := st.modBuf (fun b =>
      let b := (b.writeln "SECTIONS").beginBlock
      match seg.fixedVram with
      | some fv => ((b.writeln (". = 0x" ++ hex8 fv ++ ";")).writeEmptyLine)
      | none => b)
    (writeSingleSegment d rs fuel seg seg.allocSections false st).andThen (fun st =>
      let st := st.modBuf ScriptBuffer.writeEmptyLine
      (writeSingleSegment d rs fuel seg seg.noloadSections true st).andThen (fun st =>
        let st := st.modBuf ScriptBuffer.writeEmptyLine
        .ok (endSections d st)))

/-- Mirrors `add_all_segments` (the `ScriptImporter` entry point). -/
def addAllSegments (d : Document) (rs : RuntimeSettings) (fuel : Nat)
    (segments : List Segment) (st : Writer) : RunResult :=
  if d.settings.singleSegmentMode then
    match segments with
    | [seg] => addSingleSegment d rs fuel seg st
    | _ => .fatal st
  else
    let st := beginSections d st
    (runList (fun seg st' => addSegment d rs fuel seg st') segments st).andThen
      (fun st' => .ok (endSections d st'))

/-! ## Flat directives -/

/-- Mirrors `add_entry`. -/
def addEntry (entry : String) (st : Writer) : Writer :=
  let st :=
    if !st.buffer.isEmpty then st.modBuf ScriptBuffer.writeEmptyLine else st
  st.modBuf (fun b => b.writeln ("ENTRY(" ++ entry ++ ");"))

/-- Mirrors `add_symbol_assignment`. -/
def addSymbolAssignment (rs : RuntimeSettings) (sa : SymbolAssignment)
    (st : Writer) : RunResult :=
  if !(rs.shouldEmitEntry sa.excludeIfAny sa.excludeIfAll sa.includeIfAny
      sa.includeIfAll) then
    .ok st
  else
    .ok (st.modBuf (fun b =>
      b.writeSymbolAssignment sa.name sa.value sa.provide sa.hidden))

/-- Mirrors `add_all_symbol_assignments`. -/
def addAllSymbolAssignments (rs : RuntimeSettings)
    (sas : List SymbolAssignment) (st : Writer) : RunResult :=
  if sas.isEmpty then
    .ok st
  else
    let st :=
      if !st.buffer.isEmpty then st.modBuf ScriptBuffer.writeEmptyLine else st
    runList (fun sa st' => addSymbolAssignment rs sa st') sas st

/-- Mirrors `add_required_symbol`. -/
def addRequiredSymbol (rs : RuntimeSettings) (r : RequiredSymbol)
    (st : Writer) : RunResult :=
  if !(rs.shouldEmitEntry r.excludeIfAny r.excludeIfAll r.includeIfAny
      r.includeIfAll) then
    .ok st
  else
    .ok (st.modBuf (fun b => b.writeRequiredSymbol r.name))

/-- Mirrors `add_all_required_symbols`. -/
def addAllRequiredSymbols (rs : RuntimeSettings) (reqs : List RequiredSymbol)
    (st : Writer) : RunResult :=
  if reqs.isEmpty then
    .ok st
  else
    let st :=
      if !st.buffer.isEmpty then st.modBuf ScriptBuffer.writeEmptyLine else st
    runList (fun r st' => addRequiredSymbol rs r st') reqs st

/-- Mirrors `add_assert`. -/
def addAssert (rs : RuntimeSettings) (a : AssertEntry) (st : Writer) :
    RunResult :=
  if !(rs.shouldEmitEntry a.excludeIfAny a.excludeIfAll a.includeIfAny
      a.includeIfAll) then
    .ok st
  else
    .ok (st.modBuf (fun b => b.writeAssert a.check a.errorMessage))

/-- Mirrors `add_all_asserts`. -/
def addAllAsserts (rs : RuntimeSettings) (asserts : List AssertEntry)
    (st : Writer) : RunResult :=
  if asserts.isEmpty then
    .ok st
  else
    let st :=
      if !st.buffer.isEmpty then st.modBuf ScriptBuffer.writeEmptyLine else st
    runList (fun a st' => addAssert rs a st') asserts st

/-! ## Whole-document generation and the exporters -/

/-- Modelled from the spec: the `ScriptGenerator` pass feeds the document's
parts to the importer in the documented output order — placement block,
symbol assignments, required symbols, assertions, entry directive. -/
def generate (d : Document) (rs : RuntimeSettings) (fuel : Nat) : RunResult :=
  let st := Writer.new d rs
  (addAllSegments d rs fuel d.segments st).andThen (fun st =>
    (addAllSymbolAssignments rs d.symbolAssignments st).andThen (fun st =>
      (addAllRequiredSymbols rs d.requiredSymbols st).andThen (fun st =>
        (addAllAsserts rs d.asserts st).andThen (fun st =>
          match d.entry with
          | some e => .ok (addEntry e st)
          | none => .ok st))))

/-- Mirrors `export_linker_script` writing each buffered line. -/
def exportLinkerScript (st : Writer) : String :=
  String.join (st.buffer.lines.map (fun l => l ++ "\n"))

/-- Mirrors `export_dependencies_file`: one make rule for the target with
every referenced path as a prerequisite, then one dependency-free rule per
referenced path. -/
def exportDependenciesFile (rs : RuntimeSettings) (st : Writer)
    (targetPath : String) : String :=
  (if rs.emitVersionComment then
    "# Generated by slinky " ++ versionString ++ "\n\n"
  else "")
    ++ targetPath ++ ":"
    ++ String.join (st.filesPaths.map (fun p => " \\\n    " ++ p))
    ++ "\n\n"
    ++ String.join (st.filesPaths.map (fun p => p ++ ":\n"))

/-- Mirrors `export_symbol_header`. -/
def exportSymbolHeader (d : Document) (rs : RuntimeSettings) (st : Writer) :
    String :=
  (if rs.emitVersionComment then
    "/* Generated by slinky " ++ versionString ++ " */\n\n"
  else "")
    ++ "#ifndef HEADER_SYMBOLS_H\n#define HEADER_SYMBOLS_H\n\n"
    ++ String.join (st.buffer.linkerSymbols.map (fun s =>
        "extern " ++ d.settings.symbolsHeaderType ++ " " ++ render s
          ++ (if d.settings.symbolsHeaderAsArray then "[]" else "") ++ ";\n"))
    ++ "\n#endif\n"

/-- The three artifacts of one generation pass, or `none` when the pass does
not complete normally. -/
def generateAll (d : Document) (rs : RuntimeSettings) (fuel : Nat) :
    Option (String × String × String) :=
  match generate d rs fuel with
  | .ok st =>
    some (exportLinkerScript st,
      exportDependenciesFile rs st (d.settings.targetPath.getD ""),
      exportSymbolHeader d rs st)
  | _ => none

/-! ## Event-trace observations used by the class and dependency claims -/

/-- True exactly for the address-class start/end marker names. -/
def SymName.isClass : SymName → Bool
  | .vramClassStart _ => true
  | .vramClassEnd _ => true
  | _ => false

/-- The symbol events concerning class `cs`'s start or end symbol. -/
def classFilter (cs : String) (t : List SymEvent) : List SymEvent :=
  t.filter (fun e =>
    e.name == SymName.vramClassStart cs || e.name == SymName.vramClassEnd cs)

/-- The event sequence of the address-class header block of `add_segment`
(lines 518–543): start symbol from the fixed address, else the anchor
symbol, else literal zero followed by one raise per followed class; end
symbol initialised to zero. -/
def classHeaderEvents (cn : String) (vc : VramClass) : List SymEvent :=
  (match vc.fixedVram with
   | some fv => [.define (.vramClassStart cn) ("0x" ++ hex8 fv)]
   | none =>
     match vc.fixedSymbol with
     | some fs => [.define (.vramClassStart cn) fs]
     | none =>
       .define (.vramClassStart cn) "0x00000000"
         :: vc.followsClasses.map
             (fun oc => .maxSelf (.vramClassStart cn) (.vramClassEnd oc)))
    ++ [.define (.vramClassEnd cn) "0x00000000"]

/-- Interprets the assignment sequence of class `C`'s end symbol under a
valuation of the other symbols: a definition (the engine only ever writes
the literal zero initialisation) resets the value, a max-raise takes the
maximum with the operand's value. -/
def classEndStep (C : String) (ν : SymName → Nat) (acc : Nat) :
    SymEvent → Nat
  | .define n _ => if n == SymName.vramClassEnd C then 0 else acc
  | .maxSelf n op => if n == SymName.vramClassEnd C then max acc (ν op) else acc

def classEndValue (C : String) (ν : SymName → Nat) (t : List SymEvent) : Nat :=
  t.foldl (classEndStep C ν) 0

/-- An event that defines (not raises) class `C`'s start symbol. -/
def isStartDefine (C : String) : SymEvent → Bool
  | .define n _ => n == SymName.vramClassStart C
  | _ => false

/-- An event that defines (not raises) class `C`'s end symbol. -/
def isEndDefine (C : String) : SymEvent → Bool
  | .define n _ => n == SymName.vramClassEnd C
  | _ => false

/-- The emitted segments of a list that reference class `C`. -/
def refsIn (rs : RuntimeSettings) (C : String) (segs : List Segment) :
    List Segment :=
  segs.filter (fun seg =>
    rs.shouldEmitEntry seg.excludeIfAny seg.excludeIfAll seg.includeIfAny
        seg.includeIfAll
      && seg.vramClass == some C)

/-- The class-symbol event trace produced by a run of segments: nothing
when no emitted segment references the class; otherwise the header block
(only if the class was not yet emitted) followed by one end-raise per
referencing segment in document order. -/
def classTrace (C : String) (vc : VramClass) (refs : List Segment) :
    List SymEvent :=
  if refs.isEmpty then []
  else
    (if vc.emitted then [] else classHeaderEvents C vc)
      ++ refs.map (fun seg =>
          SymEvent.maxSelf (.vramClassEnd C) (.segmentVramEnd seg.name))

/-- The dependency-listing relation between a de-duplicated path list and
the reference trace: no duplicates, the same members, and ordered by first
occurrence in the trace. -/
def DepInv (files refs : List String) : Prop :=
  files.Nodup
    ∧ (∀ p, p ∈ files ↔ p ∈ refs)
    ∧ List.Pairwise (fun p q => posKey refs p < posKey refs q) files

/-- The dependency-exporter invariant of the writer state. -/
def Inv9 (st : Writer) : Prop :=
  DepInv st.filesPaths st.referencedPaths

/-- What one emission-core step may do to the writer: append only
non-class symbol events, preserve the dependency invariant, and leave the
class map and the mode flags unchanged. -/
def EmitRel (st st' : Writer) : Prop :=
  (∃ t, st'.buffer.events = st.buffer.events ++ t
      ∧ ∀ e ∈ t, e.name.isClass = false)
    ∧ (Inv9 st → Inv9 st')
    ∧ st'.vramClasses = st.vramClasses
    ∧ st'.singleSegment = st.singleSegment
    ∧ st'.referencePartialObjects = st.referencePartialObjects

/-- Fuelled rank certificate for a file tree: every section-order
redirection edge is rank-nonincreasing from source to destination, here and
in every group child (the fuel only needs to exceed the nesting depth). -/
def rankOkFileN (rank : String → Nat) : Nat → WFile → Bool
  | 0, _ => false
  | n + 1, f =>
    f.sectionOrder.all (fun kv => Nat.ble (rank kv.1) (rank kv.2))
      && f.files.all (fun c => rankOkFileN rank n c)

/-- Rank certificate for a segment: every subgroup edge strictly decreases
the rank from the owning section to each subgroup member. -/
def rankOkSeg (rank : String → Nat) (seg : Segment) : Bool :=
  seg.sectionsSubgroups.all (fun kv =>
    kv.2.all (fun o => Nat.blt (rank o) (rank kv.1)))

/-- A flat-directive step leaves everything the class and dependency
claims observe unchanged: the symbol-event trace, the dependency lists,
the class map and the mode flags (only text lines may be appended). -/
def FlatRel (st st' : Writer) : Prop :=
  st'.buffer.events = st.buffer.events
    ∧ st'.buffer.linkerSymbols = st.buffer.linkerSymbols
    ∧ st'.filesPaths = st.filesPaths
    ∧ st'.referencedPaths = st.referencedPaths
    ∧ st'.vramClasses = st.vramClasses
    ∧ st'.singleSegment = st.singleSegment

/-! # Concrete fixtures shared by witnesses and counterexamples -/

/-- A minimal settings record. -/
def settings0 : Settings :=
  { basePath := "build", sectionsAllowlist := [], sectionsAllowlistExtra := [],
    sectionsDenylist := [], discardWildcardSection := false,
    hardcodedGpValue := none, singleSegmentMode := false, dPath := none,
    targetPath := some "out.ld", symbolsHeaderPath := none,
    symbolsHeaderType := "u32", symbolsHeaderAsArray := true }

/-- A segment with no options set, to be customised by record update. -/
def baseSegment : Segment :=
  { name := "seg", fixedVram := none, fixedSymbol := none,
    followsSegment := none, vramClass := none, dir := "",
    allocSections := [], noloadSections := [], subalign := none,
    segmentStartAlign := none, segmentEndAlign := none,
    sectionStartAlign := none, sectionEndAlign := none,
    sectionsStartAlignment := [], sectionsEndAlignment := [],
    fillValue := none, wildcardSections := false, sectionsSubgroups := [],
    gpInfo := none, files := [], excludeIfAny := [], excludeIfAll := [],
    includeIfAny := [], includeIfAll := [] }

/-- An object-file descriptor with a given path and section-order map. -/
def objFile (p : String) (so : List (String × String)) : WFile :=
  .mk .object p "*" 0 "" "" so .absent "" [] [] [] [] []

/-- Runtime settings with no active tags and no version comment. -/
def rsNone : RuntimeSettings := ⟨[], false⟩

/-- A document holding the given segments and no other directives. -/
def docOf (segs : List Segment) : Document :=
  { settings := settings0, segments := segs, vramClasses := [],
    symbolAssignments := [], requiredSymbols := [], asserts := [],
    entry := none }

/-- A fresh writer over an empty document. -/
def writer0 : Writer := Writer.new (docOf []) rsNone


/-- `a` and `b` both occur in `lines` and the first occurrence of `a`
comes strictly before the first occurrence of `b`. -/
def orderedBefore (lines : List String) (a b : String) : Bool :=
  match lines.findIdx? (fun l => l == a), lines.findIdx? (fun l => l == b) with
  | some i, some j => decide (i < j)
  | _, _ => false

/-- The object file of the §8 redirection scenario: its `section_order`
sends `.rodata` into `.data`. -/
def c1File : WFile := objFile "code.o" [(".rodata", ".data")]

/-- The §8 scenario segment, parameterised by its alloc section list. -/
def c1Seg (alloc : List String) : Segment :=
  { baseSegment with
    name := "main"
    allocSections := alloc
    files := [c1File] }

/-- Script lines produced for the §8 scenario. -/
def c1Lines (alloc : List String) : List String :=
  match generate (docOf [c1Seg alloc]) rsNone 9 with
  | .ok st => st.buffer.lines
  | _ => []


/-- The address class shared by the class-reuse witnesses. -/
def c2Class : VramClass :=
  { name := "ramC", fixedVram := some 4096, fixedSymbol := none,
    followsClasses := [], emitted := false }

/-- First referencing segment of the class-reuse scenario. -/
def c2SegA : Segment :=
  { baseSegment with
    name := "segA"
    vramClass := some "ramC"
    allocSections := [".text"]
    files := [objFile "a.o" []] }

/-- Second referencing segment of the class-reuse scenario. -/
def c2SegB : Segment :=
  { baseSegment with
    name := "segB"
    vramClass := some "ramC"
    allocSections := [".text"]
    files := [objFile "b.o" []] }

/-- The class-reuse document: two segments referencing one class. -/
def c2Doc : Document :=
  { docOf [c2SegA, c2SegB] with vramClasses := [c2Class] }

/-- The writer produced by generating the class-reuse document. -/
def c2Run : Writer :=
  match generate c2Doc rsNone 9 with
  | .ok st => st
  | _ => writer0

/-- The writer produced by adding the first class-referencing segment. -/
def c7Run : Writer :=
  match addSegment c2Doc rsNone 9 c2SegA (Writer.new c2Doc rsNone) with
  | .ok st => st
  | _ => writer0

/-- The redirecting file of the acyclic-but-diverging scenario: its
`section_order` sends `secA` content into `secB`. -/
def c5File : WFile := objFile "x.o" [("secA", "secB")]

/-- The acyclic-but-diverging segment: the subgroup map has the single
edge `secA -> [secB]`, so no section reaches back to itself through
subgroup edges, and the starting section `secB` has no subgroup entry at
all. -/
def c5Seg : Segment :=
  { baseSegment with
    name := "m"
    allocSections := ["secA", "secB"]
    sectionsSubgroups := [("secA", ["secB"])]
    files := [c5File] }

/-- A plain object file with no redirections. -/
def c5CycFile : WFile := objFile "y.o" []

/-- A segment whose subgroup map sends a section directly back to itself. -/
def c5CycSeg : Segment :=
  { baseSegment with
    name := "c"
    allocSections := ["secC"]
    sectionsSubgroups := [("secC", ["secC"])]
    files := [c5CycFile] }

/-- A subgroup-free, redirection-free terminating instance. -/
def c5TermSeg : Segment :=
  { baseSegment with
    name := "t"
    allocSections := ["sec1"]
    files := [objFile "t.o" []] }

/-! # Claims about the file-descriptor validator -/

/-- C6: kind and path are resolved together as the first validation step:
an explicit Object/Archive kind requires a present, non-empty path (absent
path gives `MissingValue "path"`, empty path gives `EmptyValue "path"`); an
explicit Pad/LinkerOffset kind with any path present gives
`InvalidFieldCombo`; with no explicit kind, a present non-empty path is
required and the kind is inferred from the path's suffix table (a known
archive suffix infers Archive, otherwise Object). -/
theorem c6_kind_path_first_step :
    (∀ (ser : FileInfoSerial) (k : FileKind),
        (k = .object ∨ k = .archive) → ser.kind = .value k →
        ser.path = .absent →
        ser.unserialize = .error (.missingValue "path"))
    ∧ (∀ (ser : FileInfoSerial) (k : FileKind),
        (k = .object ∨ k = .archive) → ser.kind = .value k →
        ser.path = .value "" →
        ser.unserialize = .error (.emptyValue "path"))
    ∧ (∀ (ser : FileInfoSerial) (k : FileKind),
        (k = .pad ∨ k = .linkerOffset) → ser.kind = .value k →
        ser.path.hasValue = true →
        ser.unserialize =
          .error (.invalidFieldCombo "kind: pad or kind: linker_offset" "path"))
    ∧ (∀ (ser : FileInfoSerial),
        ser.kind = .absent → ser.path = .absent →
        ser.unserialize = .error (.missingValue "path"))
    ∧ (∀ (ser : FileInfoSerial),
        ser.kind = .absent → ser.path = .value "" →
        ser.unserialize = .error (.emptyValue "path"))
    ∧ (∀ (p : String), p ≠ "" →
        (FileInfoSerial.unserialize { FileInfoSerial.empty with path := .value p })
          = .ok ⟨p, FileKind.fromPath p, "*", 0, "", "", []⟩)
    ∧ (∀ (p : String), strEndsWith p ".a" = true → FileKind.fromPath p = .archive)
    ∧ (∀ (p : String), strEndsWith p ".a" = false → FileKind.fromPath p = .object) := by
  refine ⟨?_, ?_, ?_, ?_, ?_, ?_, ?_, ?_⟩
  · rintro ser k (rfl | rfl) hk hp <;>
      simp [FileInfoSerial.unserialize, AbsentNullable.get,
        AbsentNullable.getNonNullNoDefault, hk, hp, bind, Except.bind, pure,
        Except.pure, throw, throwThe, MonadExceptOf.throw]
  · rintro ser k (rfl | rfl) hk hp <;>
      simp [FileInfoSerial.unserialize, AbsentNullable.get,
        AbsentNullable.getNonNullNoDefault, hk, hp, bind, Except.bind, pure,
        Except.pure, throw, throwThe, MonadExceptOf.throw]
  · rintro ser k (rfl | rfl) hk hp <;>
      simp [FileInfoSerial.unserialize, AbsentNullable.get,
        AbsentNullable.getNonNullNoDefault, hk, hp, bind, Except.bind, pure,
        Except.pure, throw, throwThe, MonadExceptOf.throw]
  · intro ser hk hp
    simp [FileInfoSerial.unserialize, AbsentNullable.get,
      AbsentNullable.getNonNullNoDefault, hk, hp, bind, Except.bind, pure,
      Except.pure, throw, throwThe, MonadExceptOf.throw]
  · intro ser hk hp
    simp [FileInfoSerial.unserialize, AbsentNullable.get,
      AbsentNullable.getNonNullNoDefault, hk, hp, bind, Except.bind, pure,
      Except.pure, throw, throwThe, MonadExceptOf.throw]
  · intro p h
    cases hend : strEndsWith p ".a" <;>
      simp [FileInfoSerial.unserialize, FileInfoSerial.empty, AbsentNullable.get,
        AbsentNullable.getNonNullNoDefault, AbsentNullable.getNonNull,
        AbsentNullable.hasValue, FileKind.fromPath, hend, h, bind, Except.bind,
        pure, Except.pure, throw, throwThe, MonadExceptOf.throw]
  · intro p h
    simp [FileKind.fromPath, h]
  · intro p h
    simp [FileKind.fromPath, h]

/-- Witness for C6 at concrete inputs. -/
theorem c6_kind_path_first_step_witness :
    (FileInfoSerial.unserialize
        { FileInfoSerial.empty with kind := .value .object }
      = .error (.missingValue "path"))
    ∧ (FileInfoSerial.unserialize
        { FileInfoSerial.empty with kind := .value .archive, path := .value "" }
      = .error (.emptyValue "path"))
    ∧ (FileInfoSerial.unserialize
        { FileInfoSerial.empty with kind := .value .pad, path := .value "x.o" }
      = .error (.invalidFieldCombo "kind: pad or kind: linker_offset" "path"))
    ∧ (FileInfoSerial.unserialize FileInfoSerial.empty
      = .error (.missingValue "path"))
    ∧ (FileInfoSerial.unserialize
        { FileInfoSerial.empty with path := .value "lib.a" }
      = .ok ⟨"lib.a", .archive, "*", 0, "", "", []⟩)
    ∧ (FileInfoSerial.unserialize
        { FileInfoSerial.empty with path := .value "code.o" }
      = .ok ⟨"code.o", .object, "*", 0, "", "", []⟩) := by
  have h := c6_kind_path_first_step
  refine ⟨h.1 _ .object (Or.inl rfl) rfl rfl,
    h.2.1 _ .archive (Or.inr rfl) rfl rfl,
    h.2.2.1 _ .pad (Or.inl rfl) rfl (by decide),
    h.2.2.2.1 _ rfl rfl, ?_, ?_⟩
  · have h5 := h.2.2.2.2.2.1 "lib.a" (by decide)
    have ha : FileKind.fromPath "lib.a" = .archive :=
      h.2.2.2.2.2.2.1 "lib.a" (by decide)
    rw [h5, ha]
  · have h6 := h.2.2.2.2.2.1 "code.o" (by decide)
    have ho : FileKind.fromPath "code.o" = .object :=
      h.2.2.2.2.2.2.2 "code.o" (by decide)
    rw [h6, ho]

/-- C3: for every descriptor kind, populating a field forbidden for that
kind fails with `InvalidFieldCombo` naming exactly the pair of
mutually-exclusive identifiers the code reports, the checks running in the
fixed order kind/path, subfile, pad_amount, section, linker_offset_name,
section_order and aborting at the first violation (later fields are
arbitrary in each statement, so each error shown is the first one); and a
record populating all and only the kind's legal fields succeeds. -/
theorem c3_forbidden_field_combos :
    (∀ (p sv : String) (pa : AbsentNullable Nat) (se lo : AbsentNullable String)
        (so : AbsentNullable (List (String × String))), p ≠ "" →
        FileInfoSerial.unserialize ⟨.value p, .value .object, .value sv, pa, se, lo, so⟩
          = .error (.invalidFieldCombo "subfile" "non `kind: archive`"))
    ∧ (∀ (p : String) (pa : Nat) (se lo : AbsentNullable String)
        (so : AbsentNullable (List (String × String))), p ≠ "" →
        FileInfoSerial.unserialize ⟨.value p, .value .object, .absent, .value pa, se, lo, so⟩
          = .error (.invalidFieldCombo "pad_amount" "non `kind: pad`"))
    ∧ (∀ (p se : String) (lo : AbsentNullable String)
        (so : AbsentNullable (List (String × String))), p ≠ "" →
        FileInfoSerial.unserialize ⟨.value p, .value .object, .absent, .absent, .value se, lo, so⟩
          = .error (.invalidFieldCombo "section" "non `kind: pad or kind: linker_offset`"))
    ∧ (∀ (p lo : String) (so : AbsentNullable (List (String × String))), p ≠ "" →
        FileInfoSerial.unserialize ⟨.value p, .value .object, .absent, .absent, .absent, .value lo, so⟩
          = .error (.invalidFieldCombo "linker_offset_name" "non `kind: linker_offset`"))
    ∧ (∀ (p : String) (so : List (String × String)), p ≠ "" →
        FileInfoSerial.unserialize ⟨.value p, .value .object, .absent, .absent, .absent, .absent, .value so⟩
          = .ok ⟨p, .object, "*", 0, "", "", so⟩)
    ∧ (∀ (p sv : String) (pa : Nat) (se lo : AbsentNullable String)
        (so : AbsentNullable (List (String × String))), p ≠ "" →
        FileInfoSerial.unserialize ⟨.value p, .value .archive, .value sv, .value pa, se, lo, so⟩
          = .error (.invalidFieldCombo "pad_amount" "non `kind: pad`"))
    ∧ (∀ (p sv se : String) (lo : AbsentNullable String)
        (so : AbsentNullable (List (String × String))), p ≠ "" →
        FileInfoSerial.unserialize ⟨.value p, .value .archive, .value sv, .absent, .value se, lo, so⟩
          = .error (.invalidFieldCombo "section" "non `kind: pad or kind: linker_offset`"))
    ∧ (∀ (p sv lo : String) (so : AbsentNullable (List (String × String))), p ≠ "" →
        FileInfoSerial.unserialize ⟨.value p, .value .archive, .value sv, .absent, .absent, .value lo, so⟩
          = .error (.invalidFieldCombo "linker_offset_name" "non `kind: linker_offset`"))
    ∧ (∀ (p sv : String) (so : List (String × String)), p ≠ "" →
        FileInfoSerial.unserialize ⟨.value p, .value .archive, .value sv, .absent, .absent, .absent, .value so⟩
          = .ok ⟨p, .archive, sv, 0, "", "", so⟩)
    ∧ (∀ (pv : String) (sv : AbsentNullable String) (pa : AbsentNullable Nat)
        (se lo : AbsentNullable String) (so : AbsentNullable (List (String × String))),
        FileInfoSerial.unserialize ⟨.value pv, .value .pad, sv, pa, se, lo, so⟩
          = .error (.invalidFieldCombo "kind: pad or kind: linker_offset" "path"))
    ∧ (∀ (sv : String) (pa : AbsentNullable Nat) (se lo : AbsentNullable String)
        (so : AbsentNullable (List (String × String))),
        FileInfoSerial.unserialize ⟨.absent, .value .pad, .value sv, pa, se, lo, so⟩
          = .error (.invalidFieldCombo "subfile" "non `kind: archive`"))
    ∧ (∀ (pa : Nat) (se lo : String) (so : AbsentNullable (List (String × String))),
        FileInfoSerial.unserialize ⟨.absent, .value .pad, .absent, .value pa, .value se, .value lo, so⟩
          = .error (.invalidFieldCombo "linker_offset_name" "non `kind: linker_offset`"))
    ∧ (∀ (pa : Nat) (se : String) (so : List (String × String)),
        FileInfoSerial.unserialize ⟨.absent, .value .pad, .absent, .value pa, .value se, .absent, .value so⟩
          = .error (.invalidFieldCombo "section_order" "non `kind: object` or `kind: archive`"))
    ∧ (∀ (pa : Nat) (se : String),
        FileInfoSerial.unserialize ⟨.absent, .value .pad, .absent, .value pa, .value se, .absent, .absent⟩
          = .ok ⟨"", .pad, "*", pa, se, "", []⟩)
    ∧ (∀ (pv : String) (sv : AbsentNullable String) (pa : AbsentNullable Nat)
        (se lo : AbsentNullable String) (so : AbsentNullable (List (String × String))),
        FileInfoSerial.unserialize ⟨.value pv, .value .linkerOffset, sv, pa, se, lo, so⟩
          = .error (.invalidFieldCombo "kind: pad or kind: linker_offset" "path"))
    ∧ (∀ (sv : String) (pa : AbsentNullable Nat) (se lo : AbsentNullable String)
        (so : AbsentNullable (List (String × String))),
        FileInfoSerial.unserialize ⟨.absent, .value .linkerOffset, .value sv, pa, se, lo, so⟩
          = .error (.invalidFieldCombo "subfile" "non `kind: archive`"))
    ∧ (∀ (pa : Nat) (se lo : AbsentNullable String)
        (so : AbsentNullable (List (String × String))),
        FileInfoSerial.unserialize ⟨.absent, .value .linkerOffset, .absent, .value pa, se, lo, so⟩
          = .error (.invalidFieldCombo "pad_amount" "non `kind: pad`"))
    ∧ (∀ (se lo : String) (so : List (String × String)),
        FileInfoSerial.unserialize ⟨.absent, .value .linkerOffset, .absent, .absent, .value se, .value lo, .value so⟩
          = .error (.invalidFieldCombo "section_order" "non `kind: object` or `kind: archive`"))
    ∧ (∀ (se lo : String),
        FileInfoSerial.unserialize ⟨.absent, .value .linkerOffset, .absent, .absent, .value se, .value lo, .absent⟩
          = .ok ⟨"", .linkerOffset, "*", 0, se, lo, []⟩) := by
  refine ⟨?_, ?_, ?_, ?_, ?_, ?_, ?_, ?_, ?_, ?_, ?_, ?_, ?_, ?_, ?_, ?_, ?_,
    ?_, ?_⟩ <;> intros <;>
    simp_all [FileInfoSerial.unserialize, AbsentNullable.get,
      AbsentNullable.getNonNull, AbsentNullable.getNonNullNoDefault,
      AbsentNullable.hasValue, bind, Except.bind, pure, Except.pure, throw,
      throwThe, MonadExceptOf.throw]

/-- Witness for C3 at concrete inputs, one per kind and per check. -/
theorem c3_forbidden_field_combos_witness :
    (FileInfoSerial.unserialize ⟨.value "a.o", .value .object, .value "m", .value 1, .value ".x", .value "n", .value []⟩
      = .error (.invalidFieldCombo "subfile" "non `kind: archive`"))
    ∧ (FileInfoSerial.unserialize ⟨.value "a.o", .value .object, .absent, .value 1, .value ".x", .value "n", .value []⟩
      = .error (.invalidFieldCombo "pad_amount" "non `kind: pad`"))
    ∧ (FileInfoSerial.unserialize ⟨.value "a.o", .value .object, .absent, .absent, .value ".x", .value "n", .value []⟩
      = .error (.invalidFieldCombo "section" "non `kind: pad or kind: linker_offset`"))
    ∧ (FileInfoSerial.unserialize ⟨.value "a.o", .value .object, .absent, .absent, .absent, .value "n", .value []⟩
      = .error (.invalidFieldCombo "linker_offset_name" "non `kind: linker_offset`"))
    ∧ (FileInfoSerial.unserialize ⟨.value "a.o", .value .object, .absent, .absent, .absent, .absent, .value [(".d", ".r")]⟩
      = .ok ⟨"a.o", .object, "*", 0, "", "", [(".d", ".r")]⟩)
    ∧ (FileInfoSerial.unserialize ⟨.value "l.a", .value .archive, .value "m", .value 1, .value ".x", .value "n", .value []⟩
      = .error (.invalidFieldCombo "pad_amount" "non `kind: pad`"))
    ∧ (FileInfoSerial.unserialize ⟨.value "l.a", .value .archive, .value "m", .absent, .value ".x", .value "n", .value []⟩
      = .error (.invalidFieldCombo "section" "non `kind: pad or kind: linker_offset`"))
    ∧ (FileInfoSerial.unserialize ⟨.value "l.a", .value .archive, .value "m", .absent, .absent, .value "n", .value []⟩
      = .error (.invalidFieldCombo "linker_offset_name" "non `kind: linker_offset`"))
    ∧ (FileInfoSerial.unserialize ⟨.value "l.a", .value .archive, .value "m", .absent, .absent, .absent, .value []⟩
      = .ok ⟨"l.a", .archive, "m", 0, "", "", []⟩)
    ∧ (FileInfoSerial.unserialize ⟨.value "p", .value .pad, .value "m", .value 1, .value ".x", .value "n", .value []⟩
      = .error (.invalidFieldCombo "kind: pad or kind: linker_offset" "path"))
    ∧ (FileInfoSerial.unserialize ⟨.absent, .value .pad, .value "m", .value 1, .value ".x", .value "n", .value []⟩
      = .error (.invalidFieldCombo "subfile" "non `kind: archive`"))
    ∧ (FileInfoSerial.unserialize ⟨.absent, .value .pad, .absent, .value 1, .value ".x", .value "n", .value []⟩
      = .error (.invalidFieldCombo "linker_offset_name" "non `kind: linker_offset`"))
    ∧ (FileInfoSerial.unserialize ⟨.absent, .value .pad, .absent, .value 1, .value ".x", .absent, .value []⟩
      = .error (.invalidFieldCombo "section_order" "non `kind: object` or `kind: archive`"))
    ∧ (FileInfoSerial.unserialize ⟨.absent, .value .pad, .absent, .value 16, .value ".data", .absent, .absent⟩
      = .ok ⟨"", .pad, "*", 16, ".data", "", []⟩)
    ∧ (FileInfoSerial.unserialize ⟨.value "p", .value .linkerOffset, .value "m", .value 1, .value ".x", .value "n", .value []⟩
      = .error (.invalidFieldCombo "kind: pad or kind: linker_offset" "path"))
    ∧ (FileInfoSerial.unserialize ⟨.absent, .value .linkerOffset, .value "m", .value 1, .value ".x", .value "n", .value []⟩
      = .error (.invalidFieldCombo "subfile" "non `kind: archive`"))
    ∧ (FileInfoSerial.unserialize ⟨.absent, .value .linkerOffset, .absent, .value 1, .value ".x", .value "n", .value []⟩
      = .error (.invalidFieldCombo "pad_amount" "non `kind: pad`"))
    ∧ (FileInfoSerial.unserialize ⟨.absent, .value .linkerOffset, .absent, .absent, .value ".x", .value "n", .value []⟩
      = .error (.invalidFieldCombo "section_order" "non `kind: object` or `kind: archive`"))
    ∧ (FileInfoSerial.unserialize ⟨.absent, .value .linkerOffset, .absent, .absent, .value ".text", .value "off", .absent⟩
      = .ok ⟨"", .linkerOffset, "*", 0, ".text", "off", []⟩) := by
  obtain ⟨h1, h2, h3, h4, h5, h6, h7, h8, h9, h10, h11, h12, h13, h14, h15,
    h16, h17, h18, h19⟩ := c3_forbidden_field_combos
  exact ⟨h1 _ _ _ _ _ _ (by decide), h2 _ _ _ _ _ (by decide),
    h3 _ _ _ _ (by decide), h4 _ _ _ (by decide), h5 _ _ (by decide),
    h6 _ _ _ _ _ _ (by decide), h7 _ _ _ _ _ (by decide),
    h8 _ _ _ _ (by decide), h9 _ _ _ (by decide), h10 _ _ _ _ _ _,
    h11 _ _ _ _ _, h12 _ _ _ _, h13 _ _ _, h14 _ _, h15 _ _ _ _ _ _,
    h16 _ _ _ _ _, h17 _ _ _ _, h18 _ _ _, h19 _ _⟩

/-! # Claims about the emission engine -/

/-- C8: in single-segment mode, a document whose segment count differs from
one fails fast with a fatal assertion (`RunResult.fatal`, not a recoverable
`err`), and the state carried at the failure point is exactly the entry
state — nothing has been written to the buffer. -/
theorem c8_single_segment_mode_fatal (d : Document) (rs : RuntimeSettings)
    (fuel : Nat) (segments : List Segment) (st : Writer)
    (hmode : d.settings.singleSegmentMode = true)
    (hlen : segments.length ≠ 1) :
    addAllSegments d rs fuel segments st = .fatal st := by
  match segments with
  | [] => simp [addAllSegments, hmode]
  | [seg] => exact absurd rfl hlen
  | a :: b :: t => simp [addAllSegments, hmode]

/-- Witness for C8: two segments under single-segment mode. -/
theorem c8_single_segment_mode_fatal_witness :
    addAllSegments
      { docOf [] with settings := { settings0 with singleSegmentMode := true } }
      rsNone 9 [baseSegment, { baseSegment with name := "seg2" }] writer0
      = .fatal writer0 :=
  c8_single_segment_mode_fatal _ _ _ _ _ rfl (by decide)

/-- C10: every conditionally-included directive (segment, file, symbol
assignment, required symbol, assert entry) whose predicate evaluates to
false makes the corresponding add/emit operation return `Ok` with the
writer state — buffer, symbol registry and referenced-path set —
completely unchanged. -/
theorem c10_excluded_directive_is_noop :
    (∀ (d : Document) (rs : RuntimeSettings) (fuel : Nat) (seg : Segment)
        (st : Writer),
        rs.shouldEmitEntry seg.excludeIfAny seg.excludeIfAll seg.includeIfAny
          seg.includeIfAll = false →
        addSegment d rs fuel seg st = .ok st)
    ∧ (∀ (rs : RuntimeSettings)
        (recurse : WFile → String → String → Writer → RunResult) (f : WFile)
        (seg : Segment) (curr bp : String) (st : Writer),
        rs.shouldEmitEntry f.excludeIfAny f.excludeIfAll f.includeIfAny
          f.includeIfAll = false →
        emitFile rs recurse f seg curr bp st = .ok st)
    ∧ (∀ (rs : RuntimeSettings) (sa : SymbolAssignment) (st : Writer),
        rs.shouldEmitEntry sa.excludeIfAny sa.excludeIfAll sa.includeIfAny
          sa.includeIfAll = false →
        addSymbolAssignment rs sa st = .ok st)
    ∧ (∀ (rs : RuntimeSettings) (r : RequiredSymbol) (st : Writer),
        rs.shouldEmitEntry r.excludeIfAny r.excludeIfAll r.includeIfAny
          r.includeIfAll = false →
        addRequiredSymbol rs r st = .ok st)
    ∧ (∀ (rs : RuntimeSettings) (a : AssertEntry) (st : Writer),
        rs.shouldEmitEntry a.excludeIfAny a.excludeIfAll a.includeIfAny
          a.includeIfAll = false →
        addAssert rs a st = .ok st) := by
  refine ⟨?_, ?_, ?_, ?_, ?_⟩
  · intro d rs fuel seg st h
    simp [addSegment, h]
  · intro rs recurse f seg curr bp st h
    simp [emitFile, h]
  · intro rs sa st h
    simp [addSymbolAssignment, h]
  · intro rs r st h
    simp [addRequiredSymbol, h]
  · intro rs a st h
    simp [addAssert, h]

/-- Witness for C10: a directive excluded by tag "A" leaves a concrete
writer untouched under each of the five operations. -/
theorem c10_excluded_directive_is_noop_witness :
    (addSegment (docOf []) ⟨["A"], false⟩ 9
        { baseSegment with excludeIfAny := ["A"] } writer0 = .ok writer0)
    ∧ (emitFile ⟨["A"], false⟩ (fun _ _ _ _ => .diverge)
        (.mk .object "x.o" "*" 0 "" "" [] .absent "" [] ["A"] [] [] [])
        baseSegment ".text" "" writer0 = .ok writer0)
    ∧ (addSymbolAssignment ⟨["A"], false⟩
        ⟨"sym", "8", false, false, ["A"], [], [], []⟩ writer0 = .ok writer0)
    ∧ (addRequiredSymbol ⟨["A"], false⟩ ⟨"req", ["A"], [], [], []⟩ writer0
        = .ok writer0)
    ∧ (addAssert ⟨["A"], false⟩ ⟨"1", "msg", ["A"], [], [], []⟩ writer0
        = .ok writer0) := by
  obtain ⟨h1, h2, h3, h4, h5⟩ := c10_excluded_directive_is_noop
  exact ⟨h1 _ _ _ _ _ (by decide), h2 _ _ _ _ _ _ _ (by decide),
    h3 _ _ _ (by decide), h4 _ _ _ (by decide), h5 _ _ _ (by decide)⟩

/-- C4: the generation pass is a pure function of the validated document
and the runtime tag settings; two runs on equal inputs produce byte-equal
script, dependency and header text.  (In the embedding the one potential
nondeterminism source of the Rust code, the iteration order of the
`section_order` hash map, is part of the `Document` value itself, as it is
fixed per document instance.) -/
theorem c4_generation_deterministic (d₁ d₂ : Document)
    (rs₁ rs₂ : RuntimeSettings) (fuel : Nat) (hd : d₁ = d₂)
    (hrs : rs₁ = rs₂) :
    generateAll d₁ rs₁ fuel = generateAll d₂ rs₂ fuel := by
  subst hd
  subst hrs
  rfl

/-- Witness for C4 at a concrete document. -/
theorem c4_generation_deterministic_witness :
    generateAll (docOf [{ baseSegment with
        name := "main"
        allocSections := [".text"]
        files := [objFile "code.o" []] }]) rsNone 9
      = generateAll (docOf [{ baseSegment with
        name := "main"
        allocSections := [".text"]
        files := [objFile "code.o" []] }]) rsNone 9 :=
  c4_generation_deterministic _ _ _ _ 9 rfl rfl

/-! # Resolution lemmas for `sections_to_emit_here` (claim C1) -/

theorem mem_sectionsToEmitHere (so : List (String × String)) (curr : String)
    (sections : List String) (a : String) :
    a ∈ sectionsToEmitHere so curr sections ↔ a ∈ stehCands so curr :=
  (List.perm_insertionSort _ _).mem_iff

theorem mem_redirect (so : List (String × String)) (curr a : String) :
    a ∈ so.filterMap (fun kv => if kv.2 == curr then some kv.1 else none)
      ↔ (a, curr) ∈ so := by
  rw [List.mem_filterMap]
  constructor
  · rintro ⟨⟨k, v⟩, hmem, hif⟩
    by_cases hv : v = curr
    · simp only [hv, beq_self_eq_true, if_true, Option.some.injEq] at hif
      subst hif
      subst hv
      exact hmem
    · simp [hv] at hif
  · intro h
    exact ⟨(a, curr), h, by simp⟩

theorem keys_any_iff (so : List (String × String)) (curr : String) :
    so.any (fun kv => kv.1 == curr) = true ↔ ∃ v, (curr, v) ∈ so := by
  rw [List.any_eq_true]
  constructor
  · rintro ⟨⟨k, v⟩, hmem, hk⟩
    simp only [beq_iff_eq] at hk
    exact ⟨v, hk ▸ hmem⟩
  · rintro ⟨v, hmem⟩
    exact ⟨(curr, v), hmem, by simp⟩

theorem mem_stehCands (so : List (String × String)) (curr a : String) :
    a ∈ stehCands so curr ↔
      (so.any (fun kv => kv.1 == curr) = false ∧ a = curr) ∨ (a, curr) ∈ so := by
  unfold stehCands
  rw [List.mem_append, mem_redirect]
  cases h : so.any (fun kv => kv.1 == curr) <;> simp [h]

/-! Position-key lemmas for the canonical ordering -/

theorem posKey_head (b : String) (rest : List String) :
    posKey (b :: rest) b = 1 := by
  simp [posKey, List.findIdx?_cons]

theorem posKey_pos (l : List String) (b : String) (h : b ∈ l) :
    1 ≤ posKey l b := by
  unfold posKey
  cases hf : List.findIdx? (fun s => s == b) l with
  | none =>
    rw [List.findIdx?_eq_none_iff] at hf
    have := hf b h
    simp at this
  | some i => exact Nat.succ_le_succ (Nat.zero_le i)

theorem posKey_cons_of_mem (s b : String) (rest : List String) (hne : s ≠ b)
    (hb : b ∈ rest) : posKey (s :: rest) b = posKey rest b + 1 := by
  unfold posKey
  rw [List.findIdx?_cons]
  have hsb : (s == b) = false := by simp [hne]
  rw [hsb, if_neg (by simp), List.findIdx?_succ]
  cases hf : List.findIdx? (fun s => s == b) rest with
  | none =>
    exfalso
    rw [List.findIdx?_eq_none_iff] at hf
    have := hf b hb
    simp at this
  | some i => simp

theorem posKey_pairwise (sections : List String) (h : sections.Nodup) :
    List.Pairwise (fun a b => posKey sections a < posKey sections b)
      sections := by
  induction sections with
  | nil => simp
  | cons s rest ih =>
    rw [List.nodup_cons] at h
    refine List.Pairwise.cons ?_ ?_
    · intro b hb
      have hne : s ≠ b := fun e => h.1 (e ▸ hb)
      have h2 := posKey_cons_of_mem s b rest hne hb
      have h3 := posKey_pos rest b hb
      have h1 := posKey_head s rest
      omega
    · refine (ih h.2).imp_of_mem ?_
      intro a b ha hb hlt
      have hna : s ≠ a := fun e => h.1 (e ▸ ha)
      have hnb : s ≠ b := fun e => h.1 (e ▸ hb)
      rw [posKey_cons_of_mem s a rest hna ha,
        posKey_cons_of_mem s b rest hnb hb]
      omega

theorem posKey_inj_on (sections : List String) (h : sections.Nodup)
    (a b : String) (ha : a ∈ sections) (hb : b ∈ sections)
    (hk : posKey sections a = posKey sections b) : a = b := by
  by_contra hne
  have hp : List.Pairwise (fun a b => posKey sections a ≠ posKey sections b)
      sections :=
    (posKey_pairwise sections h).imp (fun hlt => Nat.ne_of_lt hlt)
  exact hp.forall (fun x y h' => h'.symm) ha hb hne hk

/-- Two lists sorted by a key that is injective on their elements and
related by a permutation are equal. -/
theorem sorted_inj_key_perm_eq (key : String → Nat) (l₁ l₂ : List String)
    (hperm : l₁.Perm l₂)
    (hs₁ : List.Pairwise (fun a b => key a ≤ key b) l₁)
    (hs₂ : List.Pairwise (fun a b => key a ≤ key b) l₂)
    (hn₁ : l₁.Nodup)
    (hinj : ∀ a ∈ l₁, ∀ b ∈ l₁, key a = key b → a = b) : l₁ = l₂ := by
  haveI : IsAntisymm String (fun a b => key a < key b) :=
    ⟨fun a b h1 h2 => absurd h1 (Nat.lt_asymm h2)⟩
  have hn₂ : l₂.Nodup := hperm.nodup_iff.mp hn₁
  have hstrict₁ : List.Pairwise (fun a b => key a < key b) l₁ := by
    refine (hs₁.and hn₁).imp_of_mem ?_
    intro a b ha hb hab
    exact lt_of_le_of_ne hab.1 (fun e => hab.2 (hinj a ha b hb e))
  have hstrict₂ : List.Pairwise (fun a b => key a < key b) l₂ := by
    refine (hs₂.and hn₂).imp_of_mem ?_
    intro a b ha hb hab
    refine lt_of_le_of_ne hab.1 (fun e => hab.2 ?_)
    exact hinj a (hperm.mem_iff.mpr ha) b (hperm.mem_iff.mpr hb) e
  exact List.eq_of_perm_of_sorted hperm hstrict₁ hstrict₂

theorem filterMap_redirect_eq_map_filter (so : List (String × String))
    (curr : String) :
    so.filterMap (fun kv => if kv.2 == curr then some kv.1 else none)
      = (so.filter (fun kv => kv.2 == curr)).map Prod.fst := by
  induction so with
  | nil => rfl
  | cons kv rest ih =>
    by_cases h : kv.2 = curr <;>
      simp [List.filterMap_cons, List.filter_cons, h] <;>
      simpa using ih

theorem stehCands_nodup (so : List (String × String)) (curr : String)
    (hkeys : (so.map Prod.fst).Nodup) : (stehCands so curr).Nodup := by
  have hnd : (so.filterMap
      (fun kv => if kv.2 == curr then some kv.1 else none)).Nodup := by
    rw [filterMap_redirect_eq_map_filter]
    exact ((List.filter_sublist so).map Prod.fst).nodup hkeys
  unfold stehCands
  cases h : so.any (fun kv => kv.1 == curr) with
  | true => simpa [h] using hnd
  | false =>
    simp only [h, Bool.false_eq_true, if_false, List.singleton_append,
      List.nodup_cons]
    refine ⟨fun hc => ?_, hnd⟩
    rw [mem_redirect] at hc
    have h2 : so.any (fun kv => kv.1 == curr) = true :=
      (keys_any_iff so curr).mpr ⟨curr, hc⟩
    rw [h] at h2
    exact Bool.false_ne_true h2

theorem sectionsToEmitHere_sorted (so : List (String × String))
    (curr : String) (sections : List String) :
    List.Pairwise
      (fun a b => posKey sections a ≤ posKey sections b)
      (sectionsToEmitHere so curr sections) := by
  haveI : IsTotal String (fun a b => posKey sections a ≤ posKey sections b) :=
    ⟨fun a b => Nat.le_total _ _⟩
  haveI : IsTrans String (fun a b => posKey sections a ≤ posKey sections b) :=
    ⟨fun a b c hab hbc => Nat.le_trans hab hbc⟩
  exact List.sorted_insertionSort _ _

/-- The canonical-order characterisation: when the redirection keys are
distinct and every candidate section occurs in the (duplicate-free)
canonical list, the resolved emission list is exactly the canonical list
filtered to the candidates — ordered by canonical position, independent of
the map's iteration order. -/
theorem sectionsToEmitHere_eq_filter (so : List (String × String))
    (curr : String) (sections : List String)
    (hsec : sections.Nodup) (hkeys : (so.map Prod.fst).Nodup)
    (hmem : ∀ a ∈ stehCands so curr, a ∈ sections) :
    sectionsToEmitHere so curr sections
      = sections.filter (fun s => decide (s ∈ stehCands so curr)) := by
  have hcnd : (stehCands so curr).Nodup := stehCands_nodup so curr hkeys
  have hperm₀ : (sectionsToEmitHere so curr sections).Perm (stehCands so curr) :=
    List.perm_insertionSort _ _
  have hfilnd : (sections.filter
      (fun s => decide (s ∈ stehCands so curr))).Nodup :=
    hsec.filter _
  have hpermF : (stehCands so curr).Perm
      (sections.filter (fun s => decide (s ∈ stehCands so curr))) := by
    refine List.perm_of_nodup_nodup_toFinset_eq hcnd hfilnd ?_
    ext a
    simp only [List.mem_toFinset, List.mem_filter, decide_eq_true_eq]
    exact ⟨fun ha => ⟨hmem a ha, ha⟩, fun ha => ha.2⟩
  refine sorted_inj_key_perm_eq (posKey sections) _ _ (hperm₀.trans hpermF)
    (sectionsToEmitHere_sorted so curr sections) ?_
    (hperm₀.nodup_iff.mpr hcnd) ?_
  · refine ((posKey_pairwise sections hsec).sublist
      (List.filter_sublist sections)).imp ?_
    exact fun hlt => Nat.le_of_lt hlt
  · intro a ha b hb hk
    have ha' : a ∈ sections := hmem a (hperm₀.mem_iff.mp ha)
    have hb' : b ∈ sections := hmem b (hperm₀.mem_iff.mp hb)
    exact posKey_inj_on sections hsec a b ha' hb' hk

/-- Any-predicate is invariant under permutation. -/
theorem perm_any_eq (l₁ l₂ : List (String × String)) (hp : l₁.Perm l₂)
    (f : String × String → Bool) : l₁.any f = l₂.any f := by
  cases h2 : l₂.any f with
  | false =>
    rw [List.any_eq_false] at h2 ⊢
    intro x hx
    exact h2 x (hp.mem_iff.mp hx)
  | true =>
    rw [List.any_eq_true] at h2 ⊢
    obtain ⟨x, hx, hfx⟩ := h2
    exact ⟨x, hp.mem_iff.mpr hx, hfx⟩

/-- C1 counterexample: in the literal §8 scenario (alloc_sections
`[".text", ".data"]`, map `.rodata → .data`) the emitted `.rodata` content
precedes the `.data` content even though `.rodata` does not precede
`.data` in alloc_sections (it is absent, so its `Option::None` sort key
orders first), refuting the claimed "only if"; and a self-mapping
`section_order` entry makes a key section emit under its own name,
refuting "if S is a key of the map, the file emits nothing under S". -/
theorem c1_counterexample :
    (orderedBefore (c1Lines [".text", ".data"])
        "        build/code.o(.rodata);" "        build/code.o(.data);" = true)
    ∧ (orderedBefore [".text", ".data"] ".rodata" ".data" = false)
    ∧ ".text" ∈ sectionsToEmitHere [(".text", ".text")] ".text" [".text"] := by
  refine ⟨by decide, by decide, by decide⟩

/-- C1 (amended): for a file with a non-empty `section_order`, (1) an
output section that is a key of the map and is not mapped to itself is
never emitted under its own name; (2) every source the map sends to the
current section is emitted there, as is the current section itself when it
is not a source; (3) when the redirection keys are distinct and every
rendered section occurs in the duplicate-free canonical list, the sections
emitted under the current section are exactly the canonical list filtered
to the candidates — ordered by canonical position and independent of the
map's iteration order (a source absent from the canonical list instead
sorts before every present one); (4) in the §8 scenario with
alloc_sections containing both `.rodata` and `.data`, the `.rodata`
content precedes the `.data` content exactly when `.rodata` precedes
`.data` in alloc_sections. -/
theorem c1_redirection_resolution :
    (∀ (so : List (String × String)) (curr : String) (sections : List String),
        so.any (fun kv => kv.1 == curr) = true → (curr, curr) ∉ so →
        curr ∉ sectionsToEmitHere so curr sections)
    ∧ (∀ (so : List (String × String)) (curr : String) (sections : List String)
        (k : String), (k, curr) ∈ so →
        k ∈ sectionsToEmitHere so curr sections)
    ∧ (∀ (so : List (String × String)) (curr : String) (sections : List String),
        so.any (fun kv => kv.1 == curr) = false →
        curr ∈ sectionsToEmitHere so curr sections)
    ∧ (∀ (so : List (String × String)) (curr : String) (sections : List String),
        sections.Nodup → (so.map Prod.fst).Nodup →
        (∀ a ∈ stehCands so curr, a ∈ sections) →
        sectionsToEmitHere so curr sections
          = sections.filter (fun s => decide (s ∈ stehCands so curr)))
    ∧ (∀ (so₁ so₂ : List (String × String)) (curr : String)
        (sections : List String), so₁.Perm so₂ →
        sections.Nodup → (so₁.map Prod.fst).Nodup →
        (∀ a ∈ stehCands so₁ curr, a ∈ sections) →
        sectionsToEmitHere so₁ curr sections
          = sectionsToEmitHere so₂ curr sections)
    ∧ (orderedBefore (c1Lines [".rodata", ".data"])
        "        build/code.o(.rodata);" "        build/code.o(.data);" = true)
    ∧ (orderedBefore (c1Lines [".data", ".rodata"])
        "        build/code.o(.data);" "        build/code.o(.rodata);" = true) := by
  have hmemiff : ∀ (so₁ so₂ : List (String × String)) (curr : String),
      so₁.Perm so₂ → ∀ a, a ∈ stehCands so₁ curr ↔ a ∈ stehCands so₂ curr := by
    intro so₁ so₂ curr hp a
    rw [mem_stehCands, mem_stehCands, perm_any_eq so₁ so₂ hp, hp.mem_iff]
  refine ⟨?_, ?_, ?_, ?_, ?_, by decide, by decide⟩
  · intro so curr sections h1 h2
    rw [mem_sectionsToEmitHere, mem_stehCands]
    rintro (⟨hf, _⟩ | hm)
    · rw [h1] at hf
      exact absurd hf (by simp)
    · exact h2 hm
  · intro so curr sections k hk
    rw [mem_sectionsToEmitHere, mem_stehCands]
    exact Or.inr hk
  · intro so curr sections h
    rw [mem_sectionsToEmitHere, mem_stehCands]
    exact Or.inl ⟨h, rfl⟩
  · intro so curr sections hsec hkeys hmem
    exact sectionsToEmitHere_eq_filter so curr sections hsec hkeys hmem
  · intro so₁ so₂ curr sections hp hsec hkeys hmem
    have hkeys₂ : (so₂.map Prod.fst).Nodup :=
      (hp.map Prod.fst).nodup_iff.mp hkeys
    have hmem₂ : ∀ a ∈ stehCands so₂ curr, a ∈ sections := fun a ha =>
      hmem a ((hmemiff so₁ so₂ curr hp a).mpr ha)
    rw [sectionsToEmitHere_eq_filter so₁ curr sections hsec hkeys hmem,
      sectionsToEmitHere_eq_filter so₂ curr sections hsec hkeys₂ hmem₂]
    refine List.filter_congr ?_
    intro a _
    exact decide_eq_decide.mpr (hmemiff so₁ so₂ curr hp a)

/-- Witness for C1 at concrete inputs. -/
theorem c1_redirection_resolution_witness :
    (".text" ∉ sectionsToEmitHere [(".text", ".data")] ".text" [".text", ".data"])
    ∧ (".rodata" ∈ sectionsToEmitHere [(".rodata", ".data")] ".data"
        [".rodata", ".data"])
    ∧ (".data" ∈ sectionsToEmitHere [(".rodata", ".data")] ".data"
        [".rodata", ".data"])
    ∧ (sectionsToEmitHere [(".rodata", ".data")] ".data" [".rodata", ".data"]
        = [".rodata", ".data"].filter
            (fun s => decide (s ∈ stehCands [(".rodata", ".data")] ".data")))
    ∧ (sectionsToEmitHere [(".a", ".z"), (".b", ".z")] ".z" [".a", ".b", ".z"]
        = sectionsToEmitHere [(".b", ".z"), (".a", ".z")] ".z"
            [".a", ".b", ".z"]) := by
  obtain ⟨h1, h2, h3, h4, h5, _, _⟩ := c1_redirection_resolution
  exact ⟨h1 _ _ _ (by decide) (by decide), h2 _ _ _ _ (by decide),
    h3 _ _ _ (by decide), h4 _ _ _ (by decide) (by decide) (by decide),
    h5 _ _ _ _ (by decide) (by decide) (by decide) (by decide)⟩

/-! # Event-trace lemmas for the script buffer -/

@[simp]
theorem events_writeln (b : ScriptBuffer) (s : String) :
    (b.writeln s).events = b.events := rfl

@[simp]
theorem events_writeEmptyLine (b : ScriptBuffer) :
    b.writeEmptyLine.events = b.events := rfl

@[simp]
theorem events_beginBlock (b : ScriptBuffer) :
    b.beginBlock.events = b.events := rfl

@[simp]
theorem events_endBlock (b : ScriptBuffer) :
    b.endBlock.events = b.events := rfl

@[simp]
theorem events_addLinkerSymbol (b : ScriptBuffer) (n : SymName) :
    (b.addLinkerSymbol n).events = b.events := by
  unfold ScriptBuffer.addLinkerSymbol
  split <;> rfl

@[simp]
theorem events_writeSymbol (b : ScriptBuffer) (n : SymName) (v : String) :
    (b.writeSymbol n v).events = b.events ++ [SymEvent.define n v] := rfl

@[simp]
theorem events_writeLinkerSymbol (b : ScriptBuffer) (n : SymName)
    (v : String) :
    (b.writeLinkerSymbol n v).events = b.events ++ [SymEvent.define n v] := by
  unfold ScriptBuffer.writeLinkerSymbol
  rw [events_writeSymbol, events_addLinkerSymbol]

@[simp]
theorem events_writeSymbolMaxSelf (b : ScriptBuffer) (n o : SymName) :
    (b.writeSymbolMaxSelf n o).events = b.events ++ [SymEvent.maxSelf n o] :=
  rfl

@[simp]
theorem events_alignSymbol (b : ScriptBuffer) (s : String) (n : Nat) :
    (b.alignSymbol s n).events = b.events := rfl

@[simp]
theorem events_writeSymbolAssignment (b : ScriptBuffer) (n v : String)
    (p h : Bool) : (b.writeSymbolAssignment n v p h).events = b.events := rfl

@[simp]
theorem events_writeRequiredSymbol (b : ScriptBuffer) (n : String) :
    (b.writeRequiredSymbol n).events = b.events := rfl

@[simp]
theorem events_writeAssert (b : ScriptBuffer) (c m : String) :
    (b.writeAssert c m).events = b.events := rfl

@[simp]
theorem events_writeSingleEntrySection (b : ScriptBuffer) (s v : String) :
    (b.writeSingleEntrySection s v).events = b.events := rfl

@[simp]
theorem events_finish (b : ScriptBuffer) : b.finish.events = b.events := rfl

@[simp]
theorem events_writeSymEndSize (b : ScriptBuffer) (s e z : SymName)
    (v : String) :
    (writeSymEndSize b s e z v).events
      = b.events ++ [SymEvent.define e v,
          SymEvent.define z ("ABSOLUTE(" ++ render e ++ " - " ++ render s ++ ")")] := by
  unfold writeSymEndSize
  rw [events_writeLinkerSymbol, events_writeLinkerSymbol, List.append_assoc]
  rfl

/-! # Further position-key lemmas (first-reference order) -/

theorem posKey_not_mem (l : List String) (q : String) (h : q ∉ l) :
    posKey l q = 0 := by
  unfold posKey
  have : List.findIdx? (fun s => s == q) l = none := by
    rw [List.findIdx?_eq_none_iff]
    intro x hx
    simp only [beq_eq_false_iff_ne, ne_eq]
    exact fun e => h (e ▸ hx)
  rw [this]

theorem posKey_append_of_mem (l l' : List String) (q : String) (h : q ∈ l) :
    posKey (l ++ l') q = posKey l q := by
  induction l with
  | nil => cases h
  | cons a rest ih =>
    by_cases ha : a = q
    · subst ha
      rw [List.cons_append, posKey_head, posKey_head]
    · have hq : q ∈ rest := by
        cases h with
        | head => exact absurd rfl ha
        | tail _ h => exact h
      rw [List.cons_append,
        posKey_cons_of_mem a q (rest ++ l') ha (List.mem_append_left l' hq),
        posKey_cons_of_mem a q rest ha hq, ih hq]

theorem posKey_le_length (l : List String) (q : String) (h : q ∈ l) :
    posKey l q ≤ l.length := by
  induction l with
  | nil => cases h
  | cons a rest ih =>
    by_cases ha : a = q
    · subst ha
      rw [posKey_head]
      simp
    · have hq : q ∈ rest := by
        cases h with
        | head => exact absurd rfl ha
        | tail _ h => exact h
      rw [posKey_cons_of_mem a q rest ha hq]
      have := ih hq
      simp only [List.length_cons]
      omega

theorem posKey_append_singleton (l : List String) (p : String) (h : p ∉ l) :
    posKey (l ++ [p]) p = l.length + 1 := by
  induction l with
  | nil => exact posKey_head p []
  | cons a rest ih =>
    have ha : a ≠ p := fun e => h (e ▸ List.mem_cons_self a rest)
    have hp : p ∉ rest := fun hp => h (List.mem_cons_of_mem a hp)
    rw [List.cons_append,
      posKey_cons_of_mem a p (rest ++ [p]) ha
        (List.mem_append_right rest (List.mem_singleton.mpr rfl)),
      ih hp]
    simp

/-! # The emission-core step relation -/

theorem emitRel_refl (st : Writer) : EmitRel st st :=
  ⟨⟨[], by simp, by simp⟩, id, rfl, rfl, rfl⟩

theorem emitRel_trans {a b c : Writer} (h₁ : EmitRel a b) (h₂ : EmitRel b c) :
    EmitRel a c := by
  obtain ⟨⟨t₁, he₁, hn₁⟩, hi₁, hv₁, hs₁, hr₁⟩ := h₁
  obtain ⟨⟨t₂, he₂, hn₂⟩, hi₂, hv₂, hs₂, hr₂⟩ := h₂
  refine ⟨⟨t₁ ++ t₂, ?_, ?_⟩, fun h => hi₂ (hi₁ h), hv₂.trans hv₁,
    hs₂.trans hs₁, hr₂.trans hr₁⟩
  · rw [he₂, he₁, List.append_assoc]
  · intro e he
    rcases List.mem_append.mp he with h | h
    · exact hn₁ e h
    · exact hn₂ e h

theorem emitRel_modBuf (st : Writer) (f : ScriptBuffer → ScriptBuffer)
    (h : ∃ t, (f st.buffer).events = st.buffer.events ++ t
        ∧ ∀ e ∈ t, e.name.isClass = false) :
    EmitRel st (st.modBuf f) :=
  ⟨h, fun hi => hi, rfl, rfl, rfl⟩

theorem runList_emitRel {α : Type} (step : α → Writer → RunResult)
    (l : List α)
    (hstep : ∀ x st st', step x st = .ok st' → EmitRel st st') :
    ∀ st st', runList step l st = .ok st' → EmitRel st st' := by
  induction l with
  | nil =>
    intro st st' h
    simp only [runList, RunResult.ok.injEq] at h
    subst h
    exact emitRel_refl st
  | cons x xs ih =>
    intro st st' h
    simp only [runList] at h
    cases hs : step x st with
    | ok st₁ =>
      rw [hs] at h
      exact emitRel_trans (hstep x st st₁ hs) (ih st₁ st' h)
    | err e => rw [hs] at h; exact absurd h (by simp)
    | fatal s => rw [hs] at h; exact absurd h (by simp)
    | diverge => rw [hs] at h; exact absurd h (by simp)

/-- Registering one referenced path preserves the dependency relation:
the trace gains the path at the end, the de-duplicated list gains it only
if new, and first-occurrence positions of old entries are unchanged. -/
theorem depInv_insert (files refs : List String) (path : String)
    (h : DepInv files refs) :
    DepInv (if files.contains path then files else files ++ [path])
      (refs ++ [path]) := by
  obtain ⟨hnd, hmem, hpair⟩ := h
  have hstable : ∀ q ∈ files,
      posKey (refs ++ [path]) q = posKey refs q :=
    fun q hq => posKey_append_of_mem _ _ q ((hmem q).mp hq)
  by_cases hc : path ∈ files
  · have hcb : files.contains path = true := by simpa using hc
    rw [hcb]
    simp only [if_true]
    refine ⟨hnd, ?_, ?_⟩
    · intro q
      rw [hmem q, List.mem_append]
      constructor
      · exact Or.inl
      · rintro (hq | hq)
        · exact hq
        · rw [List.mem_singleton] at hq
          exact hq ▸ (hmem path).mp hc
    · refine hpair.imp_of_mem ?_
      intro a b ha hb hlt
      rw [hstable a ha, hstable b hb]
      exact hlt
  · have hcb : files.contains path = false := by simpa using hc
    have hnp : path ∉ refs := fun hp => hc ((hmem path).mpr hp)
    rw [hcb]
    simp only [Bool.false_eq_true, if_false]
    refine ⟨?_, ?_, ?_⟩
    · rw [List.nodup_append]
      exact ⟨hnd, List.nodup_singleton path, by simpa using fun hp => hc hp⟩
    · intro q
      simp [List.mem_append, hmem q]
    · rw [List.pairwise_append]
      refine ⟨?_, List.pairwise_singleton _ _, ?_⟩
      · refine hpair.imp_of_mem ?_
        intro a b ha hb hlt
        rw [hstable a ha, hstable b hb]
        exact hlt
      · intro a ha b hb
        rw [List.mem_singleton] at hb
        subst hb
        rw [hstable a ha, posKey_append_singleton _ _ hnp]
        have := posKey_le_length refs a ((hmem a).mp ha)
        omega

/-- `emit_file` is one emission-core step, provided the group-recursion
callback is. -/
theorem emitFile_emitRel (rs : RuntimeSettings)
    (recurse : WFile → String → String → Writer → RunResult) (f : WFile)
    (seg : Segment) (curr bp : String)
    (hrec : ∀ child sect bp' s s',
      recurse child sect bp' s = .ok s' → EmitRel s s') :
    ∀ st st', emitFile rs recurse f seg curr bp st = .ok st' →
      EmitRel st st' := by
  intro st st' h
  obtain ⟨k, p, sf, pa, se, lo, so, ks, dr, fs, e1, e2, i1, i2⟩ := f
  unfold emitFile at h
  by_cases hB : rs.shouldEmitEntry
      (WFile.mk k p sf pa se lo so ks dr fs e1 e2 i1 i2).excludeIfAny
      (WFile.mk k p sf pa se lo so ks dr fs e1 e2 i1 i2).excludeIfAll
      (WFile.mk k p sf pa se lo so ks dr fs e1 e2 i1 i2).includeIfAny
      (WFile.mk k p sf pa se lo so ks dr fs e1 e2 i1 i2).includeIfAll
  · rw [hB] at h
    simp only [Bool.not_true, Bool.false_eq_true, if_false] at h
    cases k with
    | object =>
      simp only [WFile.kind] at h
      rw [RunResult.ok.injEq] at h
      subst h
      exact ⟨⟨[], by simp [Writer.modBuf], by simp⟩,
        fun hi => depInv_insert _ _ _ hi, rfl, rfl, rfl⟩
    | archive =>
      simp only [WFile.kind] at h
      rw [RunResult.ok.injEq] at h
      subst h
      exact ⟨⟨[], by simp [Writer.modBuf], by simp⟩,
        fun hi => depInv_insert _ _ _ hi, rfl, rfl, rfl⟩
    | pad =>
      simp only [WFile.kind, WFile.sectionF] at h
      split at h <;>
        · rw [RunResult.ok.injEq] at h
          subst h
          first
          | exact emitRel_modBuf _ _ ⟨[], by simp, by simp⟩
          | exact emitRel_refl st
    | linkerOffset =>
      simp only [WFile.kind, WFile.sectionF] at h
      split at h
      · rw [RunResult.ok.injEq] at h
        subst h
        refine emitRel_modBuf _ _ ⟨[.define (.linkerOffset lo) "."], ?_, ?_⟩ <;>
          simp [WFile.linkerOffsetName, SymName.isClass, SymEvent.name]
      · rw [RunResult.ok.injEq] at h
        subst h
        exact emitRel_refl st
    | group =>
      simp only [WFile.kind, WFile.files, WFile.dir] at h
      refine runList_emitRel _ _ ?_ st st' h
      intro child s₁ s₂ hcall
      exact hrec child _ _ s₁ s₂ hcall
  · rw [eq_false_of_ne_true hB] at h
    simp only [Bool.not_false, if_true, RunResult.ok.injEq] at h
    subst h
    exact emitRel_refl st

/-- `emit_section_for_file` is an emission-core step at every fuel. -/
theorem esff_emitRel (rs : RuntimeSettings) :
    ∀ (fuel : Nat) (f : WFile) (seg : Segment) (curr : String)
      (sections : List String) (bp : String) (st st' : Writer),
      emitSectionForFile rs fuel f seg curr sections bp st = .ok st' →
      EmitRel st st' := by
  intro fuel
  induction fuel with
  | zero =>
    intro f seg curr sections bp st st' h
    exact absurd h (by simp [emitSectionForFile])
  | succ fuel ih =>
    intro f seg curr sections bp st st' h
    simp only [emitSectionForFile] at h
    have hstep : ∀ (k : String) (s₁ s₂ : Writer),
        (match emitFile rs
            (fun child sect bp' st' =>
              emitSectionForFile rs fuel child seg sect sections bp' st')
            f seg k bp s₁ with
          | .ok st'' =>
            if !st''.referencePartialObjects then
              match (seg.sectionsSubgroups).lookup k with
              | some others =>
                runList (fun o stI =>
                  emitSectionForFile rs fuel f seg o sections bp stI)
                  others st''
              | none => .ok st''
            else .ok st''
          | r => r) = .ok s₂ → EmitRel s₁ s₂ := by
      intro k s₁ s₂ hk
      cases he : emitFile rs
          (fun child sect bp' st' =>
            emitSectionForFile rs fuel child seg sect sections bp' st')
          f seg k bp s₁ with
      | ok s₃ =>
        rw [he] at hk
        have hk' : (if !s₃.referencePartialObjects then
            match (seg.sectionsSubgroups).lookup k with
            | some others =>
              runList (fun o stI =>
                emitSectionForFile rs fuel f seg o sections bp stI) others s₃
            | none => .ok s₃
          else .ok s₃) = .ok s₂ := hk
        have h₁ : EmitRel s₁ s₃ :=
          emitFile_emitRel rs _ f seg k bp
            (fun child sect bp' s s' hc => ih child seg sect sections bp' s s' hc)
            s₁ s₃ he
        refine emitRel_trans h₁ ?_
        by_cases hrp : s₃.referencePartialObjects
        · rw [hrp] at hk'
          simp only [Bool.not_true, Bool.false_eq_true, if_false,
            RunResult.ok.injEq] at hk'
          subst hk'
          exact emitRel_refl s₃
        · rw [eq_false_of_ne_true hrp] at hk'
          simp only [Bool.not_false, if_true] at hk'
          cases hl : (seg.sectionsSubgroups).lookup k with
          | some others =>
            rw [hl] at hk'
            exact runList_emitRel _ _
              (fun o s s' hc => ih f seg o sections bp s s' hc) s₃ s₂ hk'
          | none =>
            rw [hl] at hk'
            rw [RunResult.ok.injEq] at hk'
            subst hk'
            exact emitRel_refl s₃
      | err e => rw [he] at hk; exact absurd hk (by simp)
      | fatal s => rw [he] at hk; exact absurd hk (by simp)
      | diverge => rw [he] at hk; exact absurd hk (by simp)
    by_cases hso : f.sectionOrder.isEmpty
    · rw [hso] at h
      simp only [Bool.not_true, Bool.false_eq_true, if_false] at h
      exact hstep curr st st' h
    · rw [eq_false_of_ne_true hso] at h
      simp only [Bool.not_false, if_true] at h
      exact runList_emitRel _ _ hstep st st' h

/-- `emit_section` is an emission-core step. -/
theorem emitSection_emitRel (d : Document) (rs : RuntimeSettings)
    (fuel : Nat) (seg : Segment) (curr : String) (sections : List String)
    (st st' : Writer) (h : emitSection d rs fuel seg curr sections st = .ok st') :
    EmitRel st st' := by
  unfold emitSection at h
  exact runList_emitRel _ _
    (fun f s s' hc => esff_emitRel rs fuel f seg curr sections _ s s' hc)
    st st' h

/-! # Emission-step lemmas for the per-segment writers -/

theorem writeSectionsKindStart_emitRel (seg : Segment) (noload : Bool)
    (st : Writer) : EmitRel st (writeSectionsKindStart seg noload st) := by
  unfold writeSectionsKindStart
  split
  · refine emitRel_modBuf _ _ ⟨[.define (.segmentVramStart
      (seg.name ++ "_" ++ (if noload then "noload" else "alloc"))) "."],
      ?_, ?_⟩ <;> simp [SymName.isClass, SymEvent.name]
  · exact emitRel_refl st

theorem writeSectionsKindEnd_emitRel (seg : Segment) (noload : Bool)
    (st : Writer) : EmitRel st (writeSectionsKindEnd seg noload st) := by
  unfold writeSectionsKindEnd
  split
  · apply emitRel_modBuf
    refine ⟨[.define (.segmentVramEnd
        (seg.name ++ "_" ++ (if noload then "noload" else "alloc"))) ".",
      .define (.segmentVramSize
        (seg.name ++ "_" ++ (if noload then "noload" else "alloc")))
        ("ABSOLUTE(" ++ render (.segmentVramEnd
            (seg.name ++ "_" ++ (if noload then "noload" else "alloc")))
          ++ " - " ++ render (.segmentVramStart
            (seg.name ++ "_" ++ (if noload then "noload" else "alloc"))) ++ ")")],
      ?_, ?_⟩
    · rw [events_writeSymEndSize, events_writeEmptyLine]
    · simp [SymName.isClass, SymEvent.name]
  · exact emitRel_refl st

theorem writeSectionSymbolStart_emitRel (rs : RuntimeSettings)
    (seg : Segment) (curr : String) (st : Writer) :
    EmitRel st (writeSectionSymbolStart rs seg curr st) := by
  unfold writeSectionSymbolStart
  split
  · apply emitRel_modBuf
    refine ⟨[.define (.segmentSectionStart seg.name curr) "."], ?_, ?_⟩
    · cases seg.sectionStartAlign <;>
        cases (seg.sectionsStartAlignment).lookup curr <;>
        cases seg.gpInfo <;>
        simp <;> split <;> simp
    · simp [SymName.isClass, SymEvent.name]
  · exact emitRel_refl st

theorem writeSectionSymbolEnd_emitRel (seg : Segment) (curr : String)
    (st : Writer) : EmitRel st (writeSectionSymbolEnd seg curr st) := by
  unfold writeSectionSymbolEnd
  split
  · apply emitRel_modBuf
    refine ⟨[.define (.segmentSectionEnd seg.name curr) ".",
      .define (.segmentSectionSize seg.name curr)
        ("ABSOLUTE(" ++ render (.segmentSectionEnd seg.name curr) ++ " - "
          ++ render (.segmentSectionStart seg.name curr) ++ ")")], ?_, ?_⟩
    · cases seg.sectionEndAlign <;>
        cases (seg.sectionsEndAlignment).lookup curr <;>
        simp
    · simp [SymName.isClass, SymEvent.name]
  · exact emitRel_refl st

theorem writeSegmentStart_emitRel (seg : Segment) (noload : Bool)
    (st : Writer) : EmitRel st (writeSegmentStart seg noload st) := by
  unfold writeSegmentStart
  refine emitRel_trans (writeSectionsKindStart_emitRel seg noload st) ?_
  apply emitRel_modBuf
  exact ⟨[], by simp, by simp⟩

theorem writeSegmentEnd_emitRel (seg : Segment) (noload : Bool)
    (st : Writer) : EmitRel st (writeSegmentEnd seg noload st) := by
  unfold writeSegmentEnd
  refine emitRel_trans (emitRel_modBuf st ScriptBuffer.endBlock ⟨[], by simp, by simp⟩) ?_
  exact writeSectionsKindEnd_emitRel seg noload _

theorem modBuf_emptyLine_emitRel (st : Writer) :
    EmitRel st (st.modBuf ScriptBuffer.writeEmptyLine) :=
  emitRel_modBuf st _ ⟨[], by simp, by simp⟩

theorem writeSegmentStep_emitRel (d : Document) (rs : RuntimeSettings)
    (fuel : Nat) (seg : Segment) (sections : List String) :
    ∀ (p : Nat × String) (s₁ s₂ : Writer),
      writeSegmentStep d rs fuel seg sections p s₁ = .ok s₂ →
      EmitRel s₁ s₂ := by
  intro p s₁ s₂ hk
  unfold writeSegmentStep at hk
  cases he : emitSection d rs fuel seg p.2 sections
      (writeSectionSymbolStart rs seg p.2 s₁) with
  | ok s₃ =>
    rw [he] at hk
    have hk' : RunResult.ok (if p.1 + 1 < sections.length then
        (writeSectionSymbolEnd seg p.2 s₃).modBuf ScriptBuffer.writeEmptyLine
      else writeSectionSymbolEnd seg p.2 s₃) = .ok s₂ := hk
    rw [RunResult.ok.injEq] at hk'
    subst hk'
    refine emitRel_trans (writeSectionSymbolStart_emitRel rs seg p.2 s₁) ?_
    refine emitRel_trans (emitSection_emitRel d rs fuel seg p.2 sections _ _ he) ?_
    refine emitRel_trans (writeSectionSymbolEnd_emitRel seg p.2 s₃) ?_
    split
    · exact modBuf_emptyLine_emitRel _
    · exact emitRel_refl _
  | err e => rw [he] at hk; exact absurd hk (by simp)
  | fatal s => rw [he] at hk; exact absurd hk (by simp)
  | diverge => rw [he] at hk; exact absurd hk (by simp)

theorem writeSegment_emitRel (d : Document) (rs : RuntimeSettings)
    (fuel : Nat) (seg : Segment) (sections : List String) (noload : Bool)
    (st st' : Writer)
    (h : writeSegment d rs fuel seg sections noload st = .ok st') :
    EmitRel st st' := by
  unfold writeSegment at h
  set st₁ := writeSegmentStart seg noload st with hst₁
  have h₁ : EmitRel st
      (match seg.fillValue with
        | some f => st₁.modBuf (fun b => b.writeln ("FILL(0x" ++ hex8 f ++ ");"))
        | none => st₁) := by
    refine emitRel_trans (writeSegmentStart_emitRel seg noload st) ?_
    cases seg.fillValue with
    | some f => exact emitRel_modBuf st₁ _ ⟨[], by simp, by simp⟩
    | none => exact emitRel_refl st₁
  have h2 : (runList (writeSegmentStep d rs fuel seg sections) sections.enum
      (match seg.fillValue with
        | some f => st₁.modBuf (fun b => b.writeln ("FILL(0x" ++ hex8 f ++ ");"))
        | none => st₁)).andThen
      (fun s => .ok (writeSegmentEnd seg noload s)) = .ok st' := h
  cases hr : runList (writeSegmentStep d rs fuel seg sections) sections.enum
      (match seg.fillValue with
        | some f => st₁.modBuf (fun b => b.writeln ("FILL(0x" ++ hex8 f ++ ");"))
        | none => st₁) with
  | ok s₃ =>
    rw [hr] at h2
    have h' : RunResult.ok (writeSegmentEnd seg noload s₃) = .ok st' := h2
    rw [RunResult.ok.injEq] at h'
    subst h'
    exact emitRel_trans h₁
      (emitRel_trans
        (runList_emitRel _ _ (writeSegmentStep_emitRel d rs fuel seg sections)
          _ s₃ hr)
        (writeSegmentEnd_emitRel seg noload s₃))
  | err e => rw [hr] at h2; exact absurd h2 (by simp [RunResult.andThen])
  | fatal s => rw [hr] at h2; exact absurd h2 (by simp [RunResult.andThen])
  | diverge => rw [hr] at h2; exact absurd h2 (by simp [RunResult.andThen])

theorem andThen_ok_elim (r : RunResult) (f : Writer → RunResult)
    (st' : Writer) (h : r.andThen f = .ok st') :
    ∃ s, r = .ok s ∧ f s = .ok st' := by
  cases r with
  | ok s => exact ⟨s, rfl, h⟩
  | err e => exact absurd h (by simp [RunResult.andThen])
  | fatal s => exact absurd h (by simp [RunResult.andThen])
  | diverge => exact absurd h (by simp [RunResult.andThen])

/-- What `add_segment`'s body (everything after the class header) does:
it appends only non-class events except for a single final raise of the
owning class's end symbol to the segment's vram end, preserves the
dependency invariant, and leaves the class map and mode flags unchanged. -/
theorem addSegmentBody_spec (d : Document) (rs : RuntimeSettings)
    (fuel : Nat) (seg : Segment) (st st' : Writer)
    (h : addSegmentBody d rs fuel seg st = .ok st') :
    (∃ t₁, st'.buffer.events = st.buffer.events ++ t₁
        ++ (match seg.vramClass with
            | some cn =>
              [SymEvent.maxSelf (.vramClassEnd cn) (.segmentVramEnd seg.name)]
            | none => [])
      ∧ ∀ e ∈ t₁, e.name.isClass = false)
    ∧ (Inv9 st → Inv9 st')
    ∧ st'.vramClasses = st.vramClasses
    ∧ st'.singleSegment = st.singleSegment
    ∧ st'.referencePartialObjects = st.referencePartialObjects := by
  unfold addSegmentBody at h
  obtain ⟨sA, hA, hf⟩ := andThen_ok_elim _ _ _ h
  obtain ⟨sB, hB, hg⟩ := andThen_ok_elim _ _ _ hf
  have hEq := RunResult.ok.inj hg
  subst hEq
  have hrelA : EmitRel st
      (Writer.mk
        (ScriptBuffer.writeLinkerSymbol
          (ScriptBuffer.writeLinkerSymbol
            (match seg.segmentStartAlign with
              | some a => (st.buffer.alignSymbol "__romPos" a).alignSymbol "." a
              | none => st.buffer)
            (SymName.segmentRomStart seg.name) "__romPos")
          (SymName.segmentVramStart seg.name) ("ADDR(." ++ seg.name ++ ")"))
        st.filesPaths st.referencedPaths st.vramClasses st.singleSegment
        st.referencePartialObjects st.emitSectionsKindSymbols
        st.emitSectionSymbols) := by
    refine ⟨⟨[.define (.segmentRomStart seg.name) "__romPos",
      .define (.segmentVramStart seg.name) ("ADDR(." ++ seg.name ++ ")")],
      ?_, ?_⟩, fun hi => hi, rfl, rfl, rfl⟩
    · cases seg.segmentStartAlign <;> simp
    · simp [SymName.isClass, SymEvent.name]
  have hrel₁ : EmitRel st sA :=
    emitRel_trans hrelA
      (writeSegment_emitRel d rs fuel seg seg.allocSections false _ sA hA)
  have hrel₂ : EmitRel st sB :=
    emitRel_trans hrel₁
      (emitRel_trans (modBuf_emptyLine_emitRel sA)
        (writeSegment_emitRel d rs fuel seg seg.noloadSections true _ sB hB))
  obtain ⟨⟨u, hu, hnu⟩, hi, hv, hs, hr⟩ := hrel₂
  refine ⟨⟨u ++ [.define (.segmentVramEnd seg.name) ".",
    .define (.segmentVramSize seg.name)
      ("ABSOLUTE(" ++ render (.segmentVramEnd seg.name) ++ " - "
        ++ render (.segmentVramStart seg.name) ++ ")"),
    .define (.segmentRomEnd seg.name) "__romPos",
    .define (.segmentRomSize seg.name)
      ("ABSOLUTE(" ++ render (.segmentRomEnd seg.name) ++ " - "
        ++ render (.segmentRomStart seg.name) ++ ")")], ?_, ?_⟩,
    hi, hv, hs, hr⟩
  · show (ScriptBuffer.writeEmptyLine _).events = _
    cases seg.segmentEndAlign <;> cases seg.vramClass <;>
      simp [hu, events_writeSymEndSize]
  · intro e he
    rcases List.mem_append.mp he with h' | h'
    · exact hnu e h'
    · simp only [List.mem_cons, List.mem_singleton, List.not_mem_nil,
        or_false] at h'
      rcases h' with rfl | rfl | rfl | rfl <;>
        simp [SymName.isClass, SymEvent.name]

/-! # Class-map and class-event lemmas -/

theorem vc_set_emitted_idem (vc : VramClass) (h : vc.emitted = true) :
    { vc with emitted := true } = vc := by
  cases vc
  simp_all

theorem beq_comm_false (a b : String) (h : (a == b) = false) :
    (b == a) = false := by
  simp only [beq_eq_false_iff_ne, ne_eq] at h ⊢
  exact fun e => h e.symm

theorem beq_comm_true (a b : String) (h : (a == b) = true) :
    (b == a) = true := by
  simp only [beq_iff_eq] at h ⊢
  exact h.symm

theorem lookup_setClassEmitted_self (m : List (String × VramClass))
    (cn : String) (vc : VramClass) (h : m.lookup cn = some vc) :
    (setClassEmitted m cn).lookup cn = some { vc with emitted := true } := by
  induction m with
  | nil => simp [List.lookup] at h
  | cons kv t ih =>
    obtain ⟨k, v⟩ := kv
    unfold setClassEmitted at ih ⊢
    rw [List.map_cons]
    cases hk : (k == cn) with
    | true =>
      have hk' := beq_comm_true k cn hk
      rw [List.lookup, hk'] at h
      simp only [Option.some.injEq] at h
      subst h
      simp only [hk, if_true]
      rw [List.lookup, hk']
    | false =>
      have hk' := beq_comm_false k cn hk
      rw [List.lookup, hk'] at h
      simp only [hk, Bool.false_eq_true, if_false]
      rw [List.lookup, hk']
      exact ih h

theorem lookup_setClassEmitted_ne (m : List (String × VramClass))
    (cn C : String) (h : cn ≠ C) :
    (setClassEmitted m cn).lookup C = m.lookup C := by
  induction m with
  | nil => simp [setClassEmitted]
  | cons kv t ih =>
    obtain ⟨k, v⟩ := kv
    unfold setClassEmitted at ih ⊢
    rw [List.map_cons]
    cases hk : (k == cn) with
    | true =>
      have hCk : (C == k) = false := by
        rw [beq_iff_eq] at hk
        subst hk
        simp only [beq_eq_false_iff_ne, ne_eq]
        exact fun e => h e.symm
      simp only [hk, if_true]
      rw [List.lookup, List.lookup, hCk]
      exact ih
    | false =>
      simp only [hk, Bool.false_eq_true, if_false]
      rw [List.lookup, List.lookup]
      cases hc : (C == k) with
      | true => rfl
      | false => exact ih

theorem classFilter_append (C : String) (a b : List SymEvent) :
    classFilter C (a ++ b) = classFilter C a ++ classFilter C b :=
  List.filter_append _ _

theorem classPred_false_of_nonclass (C : String) (e : SymEvent)
    (h : e.name.isClass = false) :
    (e.name == SymName.vramClassStart C
      || e.name == SymName.vramClassEnd C) = false := by
  cases hn : e.name <;> simp_all [SymName.isClass]

theorem classFilter_of_nonclass (C : String) (t : List SymEvent)
    (h : ∀ e ∈ t, e.name.isClass = false) : classFilter C t = [] := by
  unfold classFilter
  rw [List.filter_eq_nil_iff]
  intro e he
  rw [classPred_false_of_nonclass C e (h e he)]
  simp

theorem classFilter_header_self (C : String) (vc : VramClass) :
    classFilter C (classHeaderEvents C vc) = classHeaderEvents C vc := by
  unfold classFilter
  rw [List.filter_eq_self]
  intro e he
  unfold classHeaderEvents at he
  rcases List.mem_append.mp he with h | h
  · cases hv : vc.fixedVram with
    | some fv =>
      rw [hv] at h
      rw [List.mem_singleton] at h
      subst h
      simp [SymEvent.name]
    | none =>
      rw [hv] at h
      cases hs : vc.fixedSymbol with
      | some fs =>
        rw [hs] at h
        rw [List.mem_singleton] at h
        subst h
        simp [SymEvent.name]
      | none =>
        rw [hs] at h
        rcases List.mem_cons.mp h with h | h
        · subst h
          simp [SymEvent.name]
        · obtain ⟨oc, _, rfl⟩ := List.mem_map.mp h
          simp [SymEvent.name]
  · rw [List.mem_singleton] at h
    subst h
    simp [SymEvent.name]

theorem classFilter_header_ne (C cn : String) (vc : VramClass)
    (h : cn ≠ C) : classFilter C (classHeaderEvents cn vc) = [] := by
  unfold classFilter
  rw [List.filter_eq_nil_iff]
  intro e he
  unfold classHeaderEvents at he
  have hne : ∀ n : SymName,
      (n = SymName.vramClassStart cn ∨ n = SymName.vramClassEnd cn) →
      (n == SymName.vramClassStart C || n == SymName.vramClassEnd C) = false := by
    rintro n (rfl | rfl) <;> simp [h]
  rcases List.mem_append.mp he with h' | h'
  · cases hv : vc.fixedVram with
    | some fv =>
      rw [hv] at h'
      rw [List.mem_singleton] at h'
      subst h'
      simp [SymEvent.name, hne _ (Or.inl rfl)]
    | none =>
      rw [hv] at h'
      cases hs : vc.fixedSymbol with
      | some fs =>
        rw [hs] at h'
        rw [List.mem_singleton] at h'
        subst h'
        simp [SymEvent.name, hne _ (Or.inl rfl)]
      | none =>
        rw [hs] at h'
        rcases List.mem_cons.mp h' with h' | h'
        · subst h'
          simp [SymEvent.name, hne _ (Or.inl rfl)]
        · obtain ⟨oc, _, rfl⟩ := List.mem_map.mp h'
          simp [SymEvent.name, hne _ (Or.inl rfl)]
  · rw [List.mem_singleton] at h'
    subst h'
    simp [SymEvent.name, hne _ (Or.inr rfl)]

theorem classFilter_maxSelf (C cn : String) (seg : String) :
    classFilter C [SymEvent.maxSelf (.vramClassEnd cn) (.segmentVramEnd seg)]
      = if cn = C then
          [SymEvent.maxSelf (.vramClassEnd cn) (.segmentVramEnd seg)]
        else [] := by
  by_cases h : cn = C
  · subst h
    simp [classFilter, SymEvent.name]
  · simp [classFilter, SymEvent.name, h]

theorem events_foldl_maxSelf (cn : String) (l : List String) :
    ∀ b : ScriptBuffer,
      (l.foldl (fun b' oc =>
        b'.writeSymbolMaxSelf (.vramClassStart cn) (.vramClassEnd oc)) b).events
      = b.events ++ l.map
          (fun oc => SymEvent.maxSelf (.vramClassStart cn) (.vramClassEnd oc)) := by
  induction l with
  | nil => intro b; simp
  | cons a rest ih =>
    intro b
    rw [List.foldl_cons, ih, events_writeSymbolMaxSelf, List.map_cons,
      List.append_assoc]
    rfl

/-- The class header block appends exactly `classHeaderEvents`, marks the
class emitted and changes nothing else. -/
theorem emitVramClassHeader_spec (cn : String) (vc : VramClass)
    (st : Writer) :
    (emitVramClassHeader cn vc st).buffer.events
        = st.buffer.events ++ classHeaderEvents cn vc
      ∧ (emitVramClassHeader cn vc st).vramClasses
        = setClassEmitted st.vramClasses cn
      ∧ (emitVramClassHeader cn vc st).filesPaths = st.filesPaths
      ∧ (emitVramClassHeader cn vc st).referencedPaths = st.referencedPaths
      ∧ (emitVramClassHeader cn vc st).singleSegment = st.singleSegment
      ∧ (emitVramClassHeader cn vc st).referencePartialObjects
        = st.referencePartialObjects := by
  refine ⟨?_, rfl, rfl, rfl, rfl, rfl⟩
  unfold emitVramClassHeader classHeaderEvents
  cases vc.fixedVram with
  | some fv => simp
  | none =>
    cases vc.fixedSymbol with
    | some fs => simp
    | none =>
      simp [events_foldl_maxSelf]

/-- The effect of one `add_segment` call on one address class `C`: if the
segment is emitted and references `C`, the class becomes (or stays)
emitted and the appended class events are the header block (only on first
reference) followed by one end raise; otherwise the class's map entry and
its event trace are untouched. -/
theorem addSegment_classStep (d : Document) (rs : RuntimeSettings)
    (fuel : Nat) (seg : Segment) (C : String) (st st' : Writer)
    (h : addSegment d rs fuel seg st = .ok st')
    (hss : st.singleSegment = false) :
    st'.singleSegment = false
    ∧ (Inv9 st → Inv9 st')
    ∧ ∀ vc, (st.vramClasses).lookup C = some vc →
        (if rs.shouldEmitEntry seg.excludeIfAny seg.excludeIfAll
              seg.includeIfAny seg.includeIfAll
            && (seg.vramClass == some C) then
          (st'.vramClasses).lookup C = some { vc with emitted := true }
            ∧ ∃ t, st'.buffer.events = st.buffer.events ++ t
                ∧ classFilter C t
                  = (if vc.emitted then [] else classHeaderEvents C vc)
                    ++ [SymEvent.maxSelf (.vramClassEnd C)
                        (.segmentVramEnd seg.name)]
        else
          (st'.vramClasses).lookup C = (st.vramClasses).lookup C
            ∧ ∃ t, st'.buffer.events = st.buffer.events ++ t
                ∧ classFilter C t = []) := by
  unfold addSegment at h
  by_cases hB : rs.shouldEmitEntry seg.excludeIfAny seg.excludeIfAll
      seg.includeIfAny seg.includeIfAll
  · rw [hB] at h
    simp only [Bool.not_true, Bool.false_eq_true, if_false] at h
    rw [hss] at h
    simp only [Bool.false_eq_true, if_false] at h
    cases hvc : seg.vramClass with
    | none =>
      rw [hvc] at h
      have h' : addSegmentBody d rs fuel seg st = .ok st' := h
      obtain ⟨⟨t₁, ht, hnt⟩, hi, hv, hs, _⟩ := addSegmentBody_spec d rs fuel seg st st' h'
      rw [hvc] at ht
      refine ⟨hs.trans hss, hi, ?_⟩
      intro vc hlkC
      rw [hB]
      simp only [Bool.true_and]
      have : ((none : Option String) == some C) = false := rfl
      rw [this]
      simp only [Bool.false_eq_true, if_false]
      refine ⟨by rw [hv], t₁ ++ [], by simpa using ht, ?_⟩
      simp [classFilter_of_nonclass C t₁ hnt]
    | some cn =>
      rw [hvc] at h
      have h2 : (match List.lookup cn st.vramClasses with
          | none => RunResult.err (.missingVramClassForSegment seg.name cn)
          | some vc =>
            if vc.emitted = true then RunResult.ok st
            else RunResult.ok (emitVramClassHeader cn vc st)).andThen
          (addSegmentBody d rs fuel seg) = RunResult.ok st' := h
      clear h
      cases hlk : (st.vramClasses).lookup cn with
      | none =>
        rw [hlk] at h2
        exact absurd h2 (by simp [RunResult.andThen])
      | some vcn =>
        rw [hlk] at h2
        have h3 : (if vcn.emitted = true then RunResult.ok st
            else RunResult.ok (emitVramClassHeader cn vcn st)).andThen
            (addSegmentBody d rs fuel seg) = RunResult.ok st' := h2
        clear h2
        cases hem : vcn.emitted with
        | true =>
          rw [hem] at h3
          simp only [if_true] at h3
          have h' : addSegmentBody d rs fuel seg st = .ok st' := h3
          obtain ⟨⟨t₁, ht, hnt⟩, hi, hv, hs, _⟩ :=
            addSegmentBody_spec d rs fuel seg st st' h'
          try rw [hvc] at ht
          refine ⟨hs.trans hss, hi, ?_⟩
          intro vc hlkC
          rw [hB]
          simp only [Bool.true_and]
          by_cases hcC : cn = C
          · rw [hcC] at hlk ht
            have hv2 : vcn = vc := Option.some.inj ((hlk.symm).trans hlkC)
            rw [show ((some cn : Option String) == some C) = true by
              simp [hcC]]
            simp only [if_true]
            refine ⟨?_, t₁ ++ [SymEvent.maxSelf (.vramClassEnd C)
              (.segmentVramEnd seg.name)], ?_, ?_⟩
            · rw [hv, hlkC, vc_set_emitted_idem vc (hv2 ▸ hem)]
            · rw [ht, List.append_assoc]
            · rw [classFilter_append, classFilter_of_nonclass C t₁ hnt,
                classFilter_maxSelf]
              simp [hv2 ▸ hem]
          · rw [show ((some cn : Option String) == some C) = false by
              simp [hcC]]
            simp only [Bool.false_eq_true, if_false]
            refine ⟨by rw [hv],
              t₁ ++ [SymEvent.maxSelf (.vramClassEnd cn)
                (.segmentVramEnd seg.name)], by rw [ht, List.append_assoc], ?_⟩
            rw [classFilter_append, classFilter_of_nonclass C t₁ hnt,
              classFilter_maxSelf]
            simp [hcC]
        | false =>
          rw [hem] at h3
          simp only [Bool.false_eq_true, if_false] at h3
          have h' : addSegmentBody d rs fuel seg
              (emitVramClassHeader cn vcn st) = .ok st' := h3
          obtain ⟨⟨t₁, ht, hnt⟩, hi, hv, hs, _⟩ :=
            addSegmentBody_spec d rs fuel seg _ st' h'
          try rw [hvc] at ht
          obtain ⟨hde, hdv, hdf, hdr, hds, _⟩ :=
            emitVramClassHeader_spec cn vcn st
          refine ⟨hs.trans (hds.trans hss), ?_, ?_⟩
          · intro hinv
            refine hi ?_
            unfold Inv9
            rw [hdf, hdr]
            exact hinv
          · intro vc hlkC
            rw [hB]
            simp only [Bool.true_and]
            by_cases hcC : cn = C
            · rw [hcC] at hlk ht hde hdv hv
              have hv2 : vcn = vc := Option.some.inj ((hlk.symm).trans hlkC)
              rw [show ((some cn : Option String) == some C) = true by
                simp [hcC]]
              simp only [if_true]
              refine ⟨?_,
                classHeaderEvents C vcn ++ (t₁
                  ++ [SymEvent.maxSelf (.vramClassEnd C)
                    (.segmentVramEnd seg.name)]), ?_, ?_⟩
              · rw [hv, hdv]
                have hlks := lookup_setClassEmitted_self st.vramClasses C vcn hlk
                rw [hv2] at hlks
                exact hlks
              · rw [ht, hde, List.append_assoc, List.append_assoc]
              · rw [classFilter_append, classFilter_append,
                  classFilter_header_self,
                  classFilter_of_nonclass C t₁ hnt,
                  classFilter_maxSelf]
                simp [hv2, hv2 ▸ hem]
            · rw [show ((some cn : Option String) == some C) = false by
                simp [hcC]]
              simp only [Bool.false_eq_true, if_false]
              refine ⟨?_,
                classHeaderEvents cn vcn ++ (t₁
                  ++ [SymEvent.maxSelf (.vramClassEnd cn)
                    (.segmentVramEnd seg.name)]), ?_, ?_⟩
              · rw [hv, hdv]
                exact lookup_setClassEmitted_ne _ _ _ hcC
              · rw [ht, hde, List.append_assoc, List.append_assoc]
              · rw [classFilter_append, classFilter_append,
                  classFilter_header_ne C cn vcn hcC,
                  classFilter_of_nonclass C t₁ hnt,
                  classFilter_maxSelf]
                simp [hcC]
  · rw [eq_false_of_ne_true hB] at h
    simp only [Bool.not_false, if_true, RunResult.ok.injEq] at h
    subst h
    refine ⟨hss, fun hi => hi, ?_⟩
    intro vc hlkC
    rw [eq_false_of_ne_true hB]
    simp only [Bool.false_and, Bool.false_eq_true, if_false]
    exact ⟨by trivial, [], by simp, by trivial⟩


/-- Per-class effect of running a list of segments through `add_segment`:
the class is flipped to emitted exactly when some emitted segment
references it, and the class-symbol events appended are the class trace of
the referencing segments. -/
theorem runSegments_classTrace (d : Document) (rs : RuntimeSettings)
    (fuel : Nat) (C : String) :
    ∀ (segs : List Segment) (vc : VramClass) (st st' : Writer),
      runList (fun seg st0 => addSegment d rs fuel seg st0) segs st
          = .ok st' →
      st.singleSegment = false →
      (st.vramClasses).lookup C = some vc →
      st'.singleSegment = false
        ∧ (Inv9 st → Inv9 st')
        ∧ (st'.vramClasses).lookup C
            = some (if (refsIn rs C segs).isEmpty then vc
                else { vc with emitted := true })
        ∧ ∃ t, st'.buffer.events = st.buffer.events ++ t
            ∧ classFilter C t = classTrace C vc (refsIn rs C segs) := by
  intro segs
  induction segs with
  | nil =>
    intro vc st st' h hss hlk
    have h' : RunResult.ok st = RunResult.ok st' := h
    cases h'
    refine ⟨hss, fun hi => hi, ?_, [], by simp, ?_⟩
    · simpa [refsIn] using hlk
    · simp [refsIn, classTrace, classFilter]
  | cons seg rest ih =>
    intro vc st st' h hss hlk
    simp only [runList] at h
    cases hstep : addSegment d rs fuel seg st with
    | ok st1 =>
      rw [hstep] at h
      have h0 : runList (fun seg st0 => addSegment d rs fuel seg st0) rest st1
          = RunResult.ok st' := h
      obtain ⟨hss1, hinv1, hcond⟩ :=
        addSegment_classStep d rs fuel seg C st st1 hstep hss
      have hcond := hcond vc hlk
      by_cases hb : (rs.shouldEmitEntry seg.excludeIfAny seg.excludeIfAll
          seg.includeIfAny seg.includeIfAll
            && (seg.vramClass == some C)) = true
      · rw [hb] at hcond
        simp only [if_true] at hcond
        obtain ⟨hlk1, t₁, ht1, hcf1⟩ := hcond
        obtain ⟨hss', hinv', hlk', t₂, ht2, hcf2⟩ :=
          ih { vc with emitted := true } st1 st' h0 hss1 hlk1
        have hrc : refsIn rs C (seg :: rest) = seg :: refsIn rs C rest := by
          simp [refsIn, List.filter_cons, hb]
        refine ⟨hss', fun hi => hinv' (hinv1 hi), ?_, t₁ ++ t₂,
          by rw [ht2, ht1, List.append_assoc], ?_⟩
        · rw [hrc]
          simp only [List.isEmpty_cons, Bool.false_eq_true, if_false]
          rw [hlk']
          cases hre : (refsIn rs C rest).isEmpty
          · rfl
          · rfl
        · rw [classFilter_append, hcf1, hcf2, hrc]
          cases hre : (refsIn rs C rest).isEmpty with
          | true =>
            have : refsIn rs C rest = [] := by
              cases hl : refsIn rs C rest with
              | nil => rfl
              | cons a l => rw [hl] at hre; simp at hre
            rw [this]
            simp [classTrace]
          | false =>
            simp [classTrace, hre, List.append_assoc]
      · have hb' := eq_false_of_ne_true hb
        rw [hb'] at hcond
        simp only [Bool.false_eq_true, if_false] at hcond
        obtain ⟨hlk1, t₁, ht1, hcf1⟩ := hcond
        obtain ⟨hss', hinv', hlk', t₂, ht2, hcf2⟩ :=
          ih vc st1 st' h0 hss1 (hlk1.trans hlk)
        have hrc : refsIn rs C (seg :: rest) = refsIn rs C rest := by
          simp [refsIn, List.filter_cons, hb']
        refine ⟨hss', fun hi => hinv' (hinv1 hi), by rw [hrc]; exact hlk',
          t₁ ++ t₂, by rw [ht2, ht1, List.append_assoc], ?_⟩
        rw [classFilter_append, hcf1, hcf2, hrc]
        simp
    | err e => rw [hstep] at h; cases h
    | fatal s => rw [hstep] at h; cases h
    | diverge => rw [hstep] at h; cases h

/-- `begin_sections` writes no symbols and keeps all registries. -/
theorem beginSections_frame (d : Document) (st : Writer) :
    (beginSections d st).buffer.events = st.buffer.events
      ∧ (beginSections d st).vramClasses = st.vramClasses
      ∧ (beginSections d st).singleSegment = st.singleSegment
      ∧ (beginSections d st).filesPaths = st.filesPaths
      ∧ (beginSections d st).referencedPaths = st.referencedPaths := by
  unfold beginSections
  cases d.settings.hardcodedGpValue <;>
    simp [Writer.modBuf, ScriptBuffer.writeln, ScriptBuffer.beginBlock,
      ScriptBuffer.writeEmptyLine]

/-- The allowlist placeholder fold writes no symbol events. -/
theorem events_singleEntryFold (l : List String) :
    ∀ b : ScriptBuffer,
      (l.foldl (fun b' s => b'.writeSingleEntrySection s "0") b).events
        = b.events := by
  induction l with
  | nil => intro b; rfl
  | cons x xs ih =>
    intro b
    simp only [List.foldl_cons]
    rw [ih, events_writeSingleEntrySection]

/-- The denylist fold writes no symbol events. -/
theorem events_denyFold (l : List String) :
    ∀ b : ScriptBuffer,
      (l.foldl (fun b' s => b'.writeln ("*(" ++ s ++ ");")) b).events
        = b.events := by
  induction l with
  | nil => intro b; rfl
  | cons x xs ih =>
    intro b
    simp only [List.foldl_cons]
    rw [ih, events_writeln]

/-- The class-size fold appends only non-class symbol events. -/
theorem events_vramClassSizesFold (m : List (String × VramClass)) :
    ∀ acc : ScriptBuffer × Bool,
      ∃ t, (vramClassSizesFold m acc).1.events = acc.1.events ++ t
        ∧ ∀ e ∈ t, e.name.isClass = false := by
  induction m with
  | nil => intro acc; exact ⟨[], by simp [vramClassSizesFold], by simp⟩
  | cons kv rest ih =>
    intro acc
    have hstep : vramClassSizesFold (kv :: rest) acc
        = vramClassSizesFold rest
            (if kv.2.emitted then
              (acc.1.writeLinkerSymbol (.vramClassSize kv.1)
                (render (.vramClassEnd kv.1) ++ " - "
                  ++ render (.vramClassStart kv.1)),
                true)
            else acc) := rfl
    cases hem : kv.2.emitted
    · rw [hstep, hem]
      simp only [Bool.false_eq_true, if_false]
      exact ih acc
    · rw [hstep, hem]
      simp only [if_true]
      obtain ⟨t, ht, hnt⟩ := ih
        ((acc.1.writeLinkerSymbol (.vramClassSize kv.1)
            (render (.vramClassEnd kv.1) ++ " - "
              ++ render (.vramClassStart kv.1)),
          true))
      refine ⟨SymEvent.define (.vramClassSize kv.1)
          (render (.vramClassEnd kv.1) ++ " - "
            ++ render (.vramClassStart kv.1)) :: t, ?_, ?_⟩
      · rw [ht, events_writeLinkerSymbol]
        simp
      · intro e he
        rcases List.mem_cons.mp he with rfl | he'
        · rfl
        · exact hnt e he'

/-- The allowlist step writes no symbol events. -/
theorem events_singleEntryStep (acc : ScriptBuffer × Bool)
    (l : List String) :
    (singleEntryStep acc l).1.events = acc.1.events := by
  unfold singleEntryStep
  cases hl : l.isEmpty
  · simp only [Bool.not_false, if_true]
    cases hf : acc.2 <;>
      simp [events_singleEntryFold, ScriptBuffer.writeEmptyLine]
  · simp

/-- The discard block writes no symbol events. -/
theorem events_discardStep (d : Document) (acc : ScriptBuffer × Bool) :
    (discardStep d acc).events = acc.1.events := by
  unfold discardStep
  cases hw : (d.settings.discardWildcardSection
      || !d.settings.sectionsDenylist.isEmpty)
  · simp
  · simp only [if_true]
    cases hW : d.settings.discardWildcardSection <;>
      cases hf : acc.2 <;>
        simp [events_denyFold, events_writeln, events_beginBlock,
          events_endBlock, events_writeEmptyLine, hW]

/-- `end_sections` appends only non-class symbol events and keeps the
dependency lists, the class map and the mode flags. -/
theorem endSections_spec (d : Document) (st : Writer) :
    (∃ t, (endSections d st).buffer.events = st.buffer.events ++ t
        ∧ ∀ e ∈ t, e.name.isClass = false)
      ∧ (endSections d st).filesPaths = st.filesPaths
      ∧ (endSections d st).referencedPaths = st.referencedPaths
      ∧ (endSections d st).vramClasses = st.vramClasses
      ∧ (endSections d st).singleSegment = st.singleSegment
      ∧ (endSections d st).referencePartialObjects
          = st.referencePartialObjects := by
  refine ⟨?_, rfl, rfl, rfl, rfl, rfl⟩
  obtain ⟨t, ht, hnt⟩ :=
    events_vramClassSizesFold st.vramClasses (st.buffer, false)
  refine ⟨t, ?_, hnt⟩
  show ((discardStep d
      (singleEntryStep
        (singleEntryStep (vramClassSizesFold st.vramClasses (st.buffer, false))
          d.settings.sectionsAllowlist)
        d.settings.sectionsAllowlistExtra)).endBlock).finish.events
    = st.buffer.events ++ t
  rw [events_finish, events_endBlock, events_discardStep,
    events_singleEntryStep, events_singleEntryStep]
  exact ht

/-- Writing only text lines is a flat step. -/
theorem flatRel_modBuf_writeEmptyLine (st : Writer) :
    FlatRel st (st.modBuf ScriptBuffer.writeEmptyLine) := by
  refine ⟨rfl, rfl, rfl, rfl, rfl, rfl⟩

/-- Flat steps compose. -/
theorem flatRel_trans {a b c : Writer} (h1 : FlatRel a b)
    (h2 : FlatRel b c) : FlatRel a c := by
  obtain ⟨e1, s1, f1, r1, v1, g1⟩ := h1
  obtain ⟨e2, s2, f2, r2, v2, g2⟩ := h2
  exact ⟨e2.trans e1, s2.trans s1, f2.trans f1, r2.trans r1, v2.trans v1,
    g2.trans g1⟩

/-- A list run of flat steps is flat. -/
theorem runList_flat {α : Type} (step : α → Writer → RunResult)
    (hstep : ∀ x st st', step x st = .ok st' → FlatRel st st') :
    ∀ (l : List α) (st st' : Writer),
      runList step l st = .ok st' → FlatRel st st' := by
  intro l
  induction l with
  | nil =>
    intro st st' h
    have h' : RunResult.ok st = RunResult.ok st' := h
    cases h'
    exact ⟨rfl, rfl, rfl, rfl, rfl, rfl⟩
  | cons x xs ih =>
    intro st st' h
    simp only [runList] at h
    cases hx : step x st with
    | ok st1 =>
      rw [hx] at h
      exact flatRel_trans (hstep x st st1 hx) (ih st1 st' h)
    | err e => rw [hx] at h; cases h
    | fatal s => rw [hx] at h; cases h
    | diverge => rw [hx] at h; cases h

/-- `add_symbol_assignment` is flat. -/
theorem addSymbolAssignment_flat (rs : RuntimeSettings)
    (sa : SymbolAssignment) (st st' : Writer)
    (h : addSymbolAssignment rs sa st = .ok st') : FlatRel st st' := by
  unfold addSymbolAssignment at h
  by_cases hB : rs.shouldEmitEntry sa.excludeIfAny sa.excludeIfAll
      sa.includeIfAny sa.includeIfAll
  · rw [hB] at h
    simp only [Bool.not_true, Bool.false_eq_true, if_false,
      RunResult.ok.injEq] at h
    subst h
    exact ⟨events_writeSymbolAssignment st.buffer sa.name sa.value sa.provide
        sa.hidden, rfl, rfl, rfl, rfl, rfl⟩
  · rw [eq_false_of_ne_true hB] at h
    simp only [Bool.not_false, if_true, RunResult.ok.injEq] at h
    subst h
    exact ⟨rfl, rfl, rfl, rfl, rfl, rfl⟩

/-- `add_required_symbol` is flat. -/
theorem addRequiredSymbol_flat (rs : RuntimeSettings) (r : RequiredSymbol)
    (st st' : Writer) (h : addRequiredSymbol rs r st = .ok st') :
    FlatRel st st' := by
  unfold addRequiredSymbol at h
  by_cases hB : rs.shouldEmitEntry r.excludeIfAny r.excludeIfAll
      r.includeIfAny r.includeIfAll
  · rw [hB] at h
    simp only [Bool.not_true, Bool.false_eq_true, if_false,
      RunResult.ok.injEq] at h
    subst h
    exact ⟨events_writeRequiredSymbol st.buffer r.name, rfl, rfl, rfl, rfl,
      rfl⟩
  · rw [eq_false_of_ne_true hB] at h
    simp only [Bool.not_false, if_true, RunResult.ok.injEq] at h
    subst h
    exact ⟨rfl, rfl, rfl, rfl, rfl, rfl⟩

/-- `add_assert` is flat. -/
theorem addAssert_flat (rs : RuntimeSettings) (a : AssertEntry)
    (st st' : Writer) (h : addAssert rs a st = .ok st') : FlatRel st st' := by
  unfold addAssert at h
  by_cases hB : rs.shouldEmitEntry a.excludeIfAny a.excludeIfAll
      a.includeIfAny a.includeIfAll
  · rw [hB] at h
    simp only [Bool.not_true, Bool.false_eq_true, if_false,
      RunResult.ok.injEq] at h
    subst h
    exact ⟨events_writeAssert st.buffer a.check a.errorMessage, rfl, rfl, rfl,
      rfl, rfl⟩
  · rw [eq_false_of_ne_true hB] at h
    simp only [Bool.not_false, if_true, RunResult.ok.injEq] at h
    subst h
    exact ⟨rfl, rfl, rfl, rfl, rfl, rfl⟩

/-- `add_all_symbol_assignments` is flat. -/
theorem addAllSymbolAssignments_flat (rs : RuntimeSettings)
    (sas : List SymbolAssignment) (st st' : Writer)
    (h : addAllSymbolAssignments rs sas st = .ok st') : FlatRel st st' := by
  unfold addAllSymbolAssignments at h
  by_cases he : sas.isEmpty
  · rw [he] at h
    simp only [if_true, RunResult.ok.injEq] at h
    subst h
    exact ⟨rfl, rfl, rfl, rfl, rfl, rfl⟩
  · rw [eq_false_of_ne_true he] at h
    simp only [Bool.false_eq_true, if_false] at h
    by_cases hb : st.buffer.isEmpty
    · rw [hb] at h
      simp only [Bool.not_true, Bool.false_eq_true, if_false] at h
      exact runList_flat _ (fun sa => addSymbolAssignment_flat rs sa) sas
        st st' h
    · rw [eq_false_of_ne_true hb] at h
      simp only [Bool.not_false, if_true] at h
      exact flatRel_trans (flatRel_modBuf_writeEmptyLine st)
        (runList_flat _ (fun sa => addSymbolAssignment_flat rs sa) sas _ st' h)

/-- `add_all_required_symbols` is flat. -/
theorem addAllRequiredSymbols_flat (rs : RuntimeSettings)
    (reqs : List RequiredSymbol) (st st' : Writer)
    (h : addAllRequiredSymbols rs reqs st = .ok st') : FlatRel st st' := by
  unfold addAllRequiredSymbols at h
  by_cases he : reqs.isEmpty
  · rw [he] at h
    simp only [if_true, RunResult.ok.injEq] at h
    subst h
    exact ⟨rfl, rfl, rfl, rfl, rfl, rfl⟩
  · rw [eq_false_of_ne_true he] at h
    simp only [Bool.false_eq_true, if_false] at h
    by_cases hb : st.buffer.isEmpty
    · rw [hb] at h
      simp only [Bool.not_true, Bool.false_eq_true, if_false] at h
      exact runList_flat _ (fun r => addRequiredSymbol_flat rs r) reqs
        st st' h
    · rw [eq_false_of_ne_true hb] at h
      simp only [Bool.not_false, if_true] at h
      exact flatRel_trans (flatRel_modBuf_writeEmptyLine st)
        (runList_flat _ (fun r => addRequiredSymbol_flat rs r) reqs _ st' h)

/-- `add_all_asserts` is flat. -/
theorem addAllAsserts_flat (rs : RuntimeSettings)
    (asserts : List AssertEntry) (st st' : Writer)
    (h : addAllAsserts rs asserts st = .ok st') : FlatRel st st' := by
  unfold addAllAsserts at h
  by_cases he : asserts.isEmpty
  · rw [he] at h
    simp only [if_true, RunResult.ok.injEq] at h
    subst h
    exact ⟨rfl, rfl, rfl, rfl, rfl, rfl⟩
  · rw [eq_false_of_ne_true he] at h
    simp only [Bool.false_eq_true, if_false] at h
    by_cases hb : st.buffer.isEmpty
    · rw [hb] at h
      simp only [Bool.not_true, Bool.false_eq_true, if_false] at h
      exact runList_flat _ (fun a => addAssert_flat rs a) asserts st st' h
    · rw [eq_false_of_ne_true hb] at h
      simp only [Bool.not_false, if_true] at h
      exact flatRel_trans (flatRel_modBuf_writeEmptyLine st)
        (runList_flat _ (fun a => addAssert_flat rs a) asserts _ st' h)

/-- `add_entry` is flat. -/
theorem addEntry_flat (e : String) (st : Writer) :
    FlatRel st (addEntry e st) := by
  unfold addEntry
  cases hb : st.buffer.isEmpty <;>
    exact ⟨rfl, rfl, rfl, rfl, rfl, rfl⟩

/-- Counting events that a filter keeps is unchanged by the filter. -/
theorem countP_filter_of_imp (p q : SymEvent → Bool)
    (h : ∀ e, p e = true → q e = true) (t : List SymEvent) :
    (t.filter q).countP p = t.countP p := by
  rw [List.countP_filter]
  refine List.countP_congr (fun e _ => ?_)
  cases hp : p e
  · simp
  · simp [h e hp]

/-- A start-symbol definition survives the class filter. -/
theorem isStartDefine_imp_classPred (C : String) (e : SymEvent)
    (h : isStartDefine C e = true) :
    (e.name == SymName.vramClassStart C
      || e.name == SymName.vramClassEnd C) = true := by
  cases e with
  | define n v =>
    simp only [isStartDefine] at h
    simp [SymEvent.name, h]
  | maxSelf n o => simp [isStartDefine] at h

/-- An end-symbol definition survives the class filter. -/
theorem isEndDefine_imp_classPred (C : String) (e : SymEvent)
    (h : isEndDefine C e = true) :
    (e.name == SymName.vramClassStart C
      || e.name == SymName.vramClassEnd C) = true := by
  cases e with
  | define n v =>
    simp only [isEndDefine] at h
    simp [SymEvent.name, h]
  | maxSelf n o => simp [isEndDefine] at h

/-- The header block defines the start symbol exactly once. -/
theorem countP_startDefine_header (C : String) (vc : VramClass) :
    (classHeaderEvents C vc).countP (isStartDefine C) = 1 := by
  unfold classHeaderEvents
  cases hv : vc.fixedVram with
  | some fv =>
    simp [List.countP_cons, List.countP_append, isStartDefine, isEndDefine]
  | none =>
    cases hs : vc.fixedSymbol with
    | some fs =>
      simp [List.countP_cons, List.countP_append, isStartDefine, isEndDefine]
    | none =>
      simp only [List.countP_append, List.countP_cons, List.countP_map]
      have hmap : (vc.followsClasses).countP
          ((isStartDefine C) ∘ fun oc =>
            SymEvent.maxSelf (.vramClassStart C) (.vramClassEnd oc)) = 0 := by
        refine List.countP_eq_zero.mpr (fun oc _ => ?_)
        simp [isStartDefine]
      simp [isStartDefine, hmap]

/-- The header block defines the end symbol exactly once. -/
theorem countP_endDefine_header (C : String) (vc : VramClass) :
    (classHeaderEvents C vc).countP (isEndDefine C) = 1 := by
  unfold classHeaderEvents
  cases hv : vc.fixedVram with
  | some fv =>
    simp [List.countP_cons, List.countP_append, isEndDefine]
  | none =>
    cases hs : vc.fixedSymbol with
    | some fs =>
      simp [List.countP_cons, List.countP_append, isEndDefine]
    | none =>
      simp only [List.countP_append, List.countP_cons, List.countP_map]
      have hmap : (vc.followsClasses).countP
          ((isEndDefine C) ∘ fun oc =>
            SymEvent.maxSelf (.vramClassStart C) (.vramClassEnd oc)) = 0 := by
        refine List.countP_eq_zero.mpr (fun oc _ => ?_)
        simp [isEndDefine]
      simp [isEndDefine, hmap]

/-- The per-segment raises define neither class symbol. -/
theorem countP_define_raises (C : String) (p : SymEvent → Bool)
    (hp : ∀ n o, p (SymEvent.maxSelf n o) = false) (refs : List Segment) :
    (refs.map (fun seg =>
        SymEvent.maxSelf (.vramClassEnd C) (.segmentVramEnd seg.name))).countP
      p = 0 := by
  refine List.countP_eq_zero.mpr (fun e he => ?_)
  obtain ⟨seg, _, rfl⟩ := List.mem_map.mp he
  simp [hp]

/-- Events kept by the class filter are the only ones the end-symbol fold
reads. -/
theorem foldl_classEndStep_filter (C : String) (ν : SymName → Nat) :
    ∀ (t : List SymEvent) (acc : Nat),
      (classFilter C t).foldl (classEndStep C ν) acc
        = t.foldl (classEndStep C ν) acc := by
  intro t
  induction t with
  | nil => intro acc; rfl
  | cons e t ih =>
    intro acc
    unfold classFilter
    rw [List.filter_cons]
    cases hq : (e.name == SymName.vramClassStart C
        || e.name == SymName.vramClassEnd C)
    · simp only [Bool.false_eq_true, if_false]
      have hnoop : classEndStep C ν acc e = acc := by
        have hne : (e.name == SymName.vramClassEnd C) = false := by
          cases h1 : (e.name == SymName.vramClassEnd C)
          · rfl
          · rw [h1] at hq; simp at hq
        cases e with
        | define n v =>
          simp only [SymEvent.name] at hne
          simp [classEndStep, hne]
        | maxSelf n o =>
          simp only [SymEvent.name] at hne
          simp [classEndStep, hne]
      have := ih acc
      unfold classFilter at this
      rw [List.foldl_cons, hnoop, this]
    · simp only [if_true]
      rw [List.foldl_cons, List.foldl_cons]
      have := ih (classEndStep C ν acc e)
      unfold classFilter at this
      rw [this]

/-- The header block leaves the end-symbol value at zero. -/
theorem foldl_classEndStep_header (C : String) (ν : SymName → Nat)
    (vc : VramClass) (acc : Nat) :
    (classHeaderEvents C vc).foldl (classEndStep C ν) acc = 0 := by
  unfold classHeaderEvents
  have hfol : ∀ (l : List String) (a : Nat),
      (l.map (fun oc =>
        SymEvent.maxSelf (.vramClassStart C) (.vramClassEnd oc))).foldl
          (classEndStep C ν) a = a := by
    intro l
    induction l with
    | nil => intro a; rfl
    | cons x xs ih =>
      intro a
      simp only [List.map_cons, List.foldl_cons]
      rw [show classEndStep C ν a
          (SymEvent.maxSelf (.vramClassStart C) (.vramClassEnd x)) = a by
        simp [classEndStep]]
      exact ih a
  cases hv : vc.fixedVram with
  | some fv => simp [classEndStep]
  | none =>
    cases hs : vc.fixedSymbol with
    | some fs => simp [classEndStep]
    | none =>
      simp only [List.foldl_append, List.foldl_cons]
      rw [show classEndStep C ν acc
          (SymEvent.define (.vramClassStart C) "0x00000000") = acc by
        simp [classEndStep]]
      rw [hfol]
      simp [classEndStep]

/-- The raises accumulate the running maximum of the referenced ends. -/
theorem foldl_classEndStep_raises (C : String) (ν : SymName → Nat) :
    ∀ (refs : List Segment) (acc : Nat),
      (refs.map (fun seg =>
          SymEvent.maxSelf (.vramClassEnd C)
            (.segmentVramEnd seg.name))).foldl (classEndStep C ν) acc
        = (refs.map (fun seg => ν (.segmentVramEnd seg.name))).foldl max acc := by
  intro refs
  induction refs with
  | nil => intro acc; rfl
  | cons seg rest ih =>
    intro acc
    simp only [List.map_cons, List.foldl_cons]
    rw [show classEndStep C ν acc
        (SymEvent.maxSelf (.vramClassEnd C) (.segmentVramEnd seg.name))
          = max acc (ν (.segmentVramEnd seg.name)) by
      simp [classEndStep]]
    exact ih _

/-- The initial accumulator bounds below a running-maximum fold. -/
theorem foldl_max_init (l : List Nat) :
    ∀ a : Nat, a ≤ l.foldl max a := by
  induction l with
  | nil => intro a; exact Nat.le_refl a
  | cons y ys ih =>
    intro a
    rw [List.foldl_cons]
    exact Nat.le_trans (Nat.le_max_left a y) (ih _)

/-- Every element bounds below a running-maximum fold. -/
theorem foldl_max_le (l : List Nat) :
    ∀ (a : Nat) (x : Nat), x ∈ l → x ≤ l.foldl max a := by
  induction l with
  | nil => intro a x hx; cases hx
  | cons y ys ih =>
    intro a x hx
    rw [List.foldl_cons]
    rcases List.mem_cons.mp hx with rfl | hx'
    · exact Nat.le_trans (Nat.le_max_right a x) (foldl_max_init ys (max a x))
    · exact ih (max a y) x hx'

/-- A running-maximum fold yields the start value or a list element. -/
theorem foldl_max_mem (l : List Nat) :
    ∀ a : Nat, l.foldl max a = a ∨ l.foldl max a ∈ l := by
  induction l with
  | nil => intro a; exact Or.inl rfl
  | cons y ys ih =>
    intro a
    rw [List.foldl_cons]
    rcases ih (max a y) with h | h
    · rcases Nat.le_total a y with hay | hya
      · right
        rw [h, Nat.max_eq_right hay]
        exact List.mem_cons_self y ys
      · left
        rw [h, Nat.max_eq_left hya]
    · right
      exact List.mem_cons_of_mem y h

/-- The class-symbol trace of a whole normal-mode generation run: the
events concerning class `C` are exactly the class trace of the emitted
segments that reference `C`. -/
theorem generate_classTrace (d : Document) (rs : RuntimeSettings)
    (fuel : Nat) (C : String) (vc : VramClass) (st' : Writer)
    (hmode : d.settings.singleSegmentMode = false)
    (hlk : ((Writer.new d rs).vramClasses).lookup C = some vc)
    (hgen : generate d rs fuel = .ok st') :
    ∃ t, st'.buffer.events = (Writer.new d rs).buffer.events ++ t
      ∧ classFilter C t = classTrace C vc (refsIn rs C d.segments) := by
  unfold generate at hgen
  obtain ⟨s1, h1, hrest⟩ := andThen_ok_elim _ _ _ hgen
  unfold addAllSegments at h1
  rw [hmode] at h1
  simp only [Bool.false_eq_true, if_false] at h1
  obtain ⟨s2, h2, h3⟩ := andThen_ok_elim _ _ _ h1
  simp only [RunResult.ok.injEq] at h3
  obtain ⟨hbe, hbv, hbs, _, _⟩ := beginSections_frame d (Writer.new d rs)
  have hss0 : (beginSections d (Writer.new d rs)).singleSegment = false := by
    rw [hbs]; rfl
  have hlk0 : ((beginSections d (Writer.new d rs)).vramClasses).lookup C
      = some vc := by rw [hbv]; exact hlk
  obtain ⟨hss2, hinv2, hlk2, tseg, hts, hcf⟩ :=
    runSegments_classTrace d rs fuel C d.segments vc _ s2 h2 hss0 hlk0
  obtain ⟨⟨tend, hte, hnte⟩, _, _, _, _, _⟩ := endSections_spec d s2
  have hs1ev : s1.buffer.events
      = (Writer.new d rs).buffer.events ++ (tseg ++ tend) := by
    rw [← h3, hte, hts, hbe, List.append_assoc]
  obtain ⟨s3, hA, hrest2⟩ := andThen_ok_elim _ _ _ hrest
  obtain ⟨s4, hB, hrest3⟩ := andThen_ok_elim _ _ _ hrest2
  obtain ⟨s5, hC2, hrest4⟩ := andThen_ok_elim _ _ _ hrest3
  have hflat : FlatRel s1 st' := by
    refine flatRel_trans (addAllSymbolAssignments_flat rs _ s1 s3 hA)
      (flatRel_trans (addAllRequiredSymbols_flat rs _ s3 s4 hB)
        (flatRel_trans (addAllAsserts_flat rs _ s4 s5 hC2) ?_))
    cases he : d.entry with
    | some e =>
      rw [he] at hrest4
      simp only [RunResult.ok.injEq] at hrest4
      rw [← hrest4]
      exact addEntry_flat e s5
    | none =>
      rw [he] at hrest4
      simp only [RunResult.ok.injEq] at hrest4
      rw [← hrest4]
      exact ⟨rfl, rfl, rfl, rfl, rfl, rfl⟩
  refine ⟨tseg ++ tend, ?_, ?_⟩
  · rw [hflat.1, hs1ev]
  · rw [classFilter_append, hcf, classFilter_of_nonclass C tend hnte,
      List.append_nil]

/-- C2: in normal multi-segment mode each address class's start and end
symbols are written exactly once across the whole script — as the header
block contributed at the first emitted referencing segment — and every
referencing segment appends one raise of the class end symbol to its vram
end, so under any valuation of the segment end symbols the class end
symbol's final value is an upper bound of, and attained at, the referencing
segments' end addresses. -/
theorem c2_address_class_once_and_max (d : Document) (rs : RuntimeSettings)
    (fuel : Nat) (C : String) (vc : VramClass) (st' : Writer)
    (hmode : d.settings.singleSegmentMode = false)
    (hlk : ((Writer.new d rs).vramClasses).lookup C = some vc)
    (hvem : vc.emitted = false)
    (hgen : generate d rs fuel = .ok st') :
    ∃ t, st'.buffer.events = (Writer.new d rs).buffer.events ++ t
      ∧ (refsIn rs C d.segments = [] → classFilter C t = [])
      ∧ (refsIn rs C d.segments ≠ [] →
          classFilter C t
            = classHeaderEvents C vc
              ++ (refsIn rs C d.segments).map (fun seg =>
                  SymEvent.maxSelf (.vramClassEnd C)
                    (.segmentVramEnd seg.name)))
      ∧ t.countP (isStartDefine C)
          = (if (refsIn rs C d.segments).isEmpty then 0 else 1)
      ∧ t.countP (isEndDefine C)
          = (if (refsIn rs C d.segments).isEmpty then 0 else 1)
      ∧ ∀ ν : SymName → Nat,
          (∀ seg ∈ refsIn rs C d.segments,
            ν (.segmentVramEnd seg.name) ≤ classEndValue C ν t)
          ∧ (refsIn rs C d.segments ≠ [] →
              ∃ seg ∈ refsIn rs C d.segments,
                classEndValue C ν t = ν (.segmentVramEnd seg.name)) := by
  obtain ⟨t, ht, hcf⟩ := generate_classTrace d rs fuel C vc st' hmode hlk hgen
  have hcs : (classFilter C t).countP (isStartDefine C)
      = t.countP (isStartDefine C) :=
    countP_filter_of_imp (isStartDefine C) _ (isStartDefine_imp_classPred C) t
  have hce : (classFilter C t).countP (isEndDefine C)
      = t.countP (isEndDefine C) :=
    countP_filter_of_imp (isEndDefine C) _ (isEndDefine_imp_classPred C) t
  have hval : ∀ ν : SymName → Nat,
      classEndValue C ν t = (classFilter C t).foldl (classEndStep C ν) 0 :=
    fun ν => (foldl_classEndStep_filter C ν t 0).symm
  cases hre : refsIn rs C d.segments with
  | nil =>
    rw [hre] at hcf
    have hcf0 : classFilter C t = [] := by rw [hcf]; rfl
    refine ⟨t, ht, fun _ => hcf0, fun hne => absurd rfl hne, ?_, ?_, ?_⟩
    · rw [← hcs, hcf0]; simp
    · rw [← hce, hcf0]; simp
    · intro ν
      exact ⟨fun seg hseg => absurd hseg (List.not_mem_nil seg),
        fun hne => absurd rfl hne⟩
  | cons seg0 rest =>
    rw [hre] at hcf
    have hcfA : classFilter C t
        = classHeaderEvents C vc
          ++ (seg0 :: rest).map (fun seg =>
              SymEvent.maxSelf (.vramClassEnd C)
                (.segmentVramEnd seg.name)) := by
      rw [hcf]
      simp [classTrace, hvem]
    refine ⟨t, ht, fun h0 => absurd h0 (by simp), fun _ => hcfA, ?_, ?_, ?_⟩
    · rw [← hcs, hcfA, List.countP_append, countP_startDefine_header,
        countP_define_raises C (isStartDefine C) (fun n o => rfl)
          (seg0 :: rest)]
      simp
    · rw [← hce, hcfA, List.countP_append, countP_endDefine_header,
        countP_define_raises C (isEndDefine C) (fun n o => rfl)
          (seg0 :: rest)]
      simp
    · intro ν
      have hv2 : classEndValue C ν t
          = ((seg0 :: rest).map (fun seg =>
              ν (.segmentVramEnd seg.name))).foldl max 0 := by
        rw [hval ν, hcfA, List.foldl_append, foldl_classEndStep_header,
          foldl_classEndStep_raises]
      constructor
      · intro seg hseg
        rw [hv2]
        exact foldl_max_le _ 0 _ (List.mem_map_of_mem _ hseg)
      · intro _
        rcases foldl_max_mem ((seg0 :: rest).map (fun seg =>
            ν (.segmentVramEnd seg.name))) 0 with h0 | hmem
        · refine ⟨seg0, List.mem_cons_self seg0 rest, ?_⟩
          have hle : ν (.segmentVramEnd seg0.name)
              ≤ ((seg0 :: rest).map (fun seg =>
                  ν (.segmentVramEnd seg.name))).foldl max 0 :=
            foldl_max_le _ 0 _
              (List.mem_map_of_mem _ (List.mem_cons_self seg0 rest))
          rw [hv2, h0]
          rw [h0] at hle
          exact (Nat.le_zero.mp hle).symm
        · rw [hv2]
          obtain ⟨seg, hseg, hv⟩ := List.mem_map.mp hmem
          exact ⟨seg, hseg, hv.symm⟩

theorem c2_address_class_once_and_max_witness :
    c2Doc.settings.singleSegmentMode = false
    ∧ ((Writer.new c2Doc rsNone).vramClasses).lookup "ramC" = some c2Class
    ∧ c2Class.emitted = false
    ∧ generate c2Doc rsNone 9 = .ok c2Run
    ∧ ∃ t, c2Run.buffer.events
          = (Writer.new c2Doc rsNone).buffer.events ++ t
        ∧ (refsIn rsNone "ramC" c2Doc.segments = []
            → classFilter "ramC" t = [])
        ∧ (refsIn rsNone "ramC" c2Doc.segments ≠ [] →
            classFilter "ramC" t
              = classHeaderEvents "ramC" c2Class
                ++ (refsIn rsNone "ramC" c2Doc.segments).map (fun seg =>
                    SymEvent.maxSelf (.vramClassEnd "ramC")
                      (.segmentVramEnd seg.name)))
        ∧ t.countP (isStartDefine "ramC")
            = (if (refsIn rsNone "ramC" c2Doc.segments).isEmpty then 0 else 1)
        ∧ t.countP (isEndDefine "ramC")
            = (if (refsIn rsNone "ramC" c2Doc.segments).isEmpty then 0 else 1)
        ∧ ∀ ν : SymName → Nat,
            (∀ seg ∈ refsIn rsNone "ramC" c2Doc.segments,
              ν (.segmentVramEnd seg.name) ≤ classEndValue "ramC" ν t)
            ∧ (refsIn rsNone "ramC" c2Doc.segments ≠ [] →
                ∃ seg ∈ refsIn rsNone "ramC" c2Doc.segments,
                  classEndValue "ramC" ν t
                    = ν (.segmentVramEnd seg.name)) :=
  ⟨rfl, rfl, rfl, rfl,
    c2_address_class_once_and_max c2Doc rsNone 9 "ramC" c2Class c2Run rfl
      rfl rfl rfl⟩

/-- C7: when the first referencing segment emits an address class, the
emitted header block assigns the start symbol the fixed address if given,
else the anchor symbol's text if given, else literal zero followed by one
raise per followed class, and initialises the end symbol to zero. -/
theorem c7_class_header_content (d : Document) (rs : RuntimeSettings)
    (fuel : Nat) (seg : Segment) (cn : String) (vc : VramClass)
    (st st' : Writer)
    (hvc : seg.vramClass = some cn)
    (hlk : (st.vramClasses).lookup cn = some vc)
    (hvem : vc.emitted = false)
    (hB : rs.shouldEmitEntry seg.excludeIfAny seg.excludeIfAll
        seg.includeIfAny seg.includeIfAll = true)
    (hss : st.singleSegment = false)
    (h : addSegment d rs fuel seg st = .ok st') :
    (∃ t, st'.buffer.events
        = st.buffer.events ++ classHeaderEvents cn vc ++ t)
    ∧ (∀ fv, vc.fixedVram = some fv →
        classHeaderEvents cn vc
          = [.define (.vramClassStart cn) ("0x" ++ hex8 fv),
             .define (.vramClassEnd cn) "0x00000000"])
    ∧ (∀ fs, vc.fixedVram = none → vc.fixedSymbol = some fs →
        classHeaderEvents cn vc
          = [.define (.vramClassStart cn) fs,
             .define (.vramClassEnd cn) "0x00000000"])
    ∧ (vc.fixedVram = none → vc.fixedSymbol = none →
        classHeaderEvents cn vc
          = .define (.vramClassStart cn) "0x00000000"
              :: vc.followsClasses.map (fun oc =>
                  SymEvent.maxSelf (.vramClassStart cn) (.vramClassEnd oc))
                ++ [.define (.vramClassEnd cn) "0x00000000"]) := by
  unfold addSegment at h
  rw [hB] at h
  simp only [Bool.not_true, Bool.false_eq_true, if_false] at h
  rw [hss] at h
  simp only [Bool.false_eq_true, if_false] at h
  rw [hvc] at h
  have h2 : (match List.lookup cn st.vramClasses with
      | none => RunResult.err (.missingVramClassForSegment seg.name cn)
      | some vc =>
        if vc.emitted = true then RunResult.ok st
        else RunResult.ok (emitVramClassHeader cn vc st)).andThen
      (addSegmentBody d rs fuel seg) = RunResult.ok st' := h
  clear h
  rw [hlk] at h2
  have h3 : (if vc.emitted = true then RunResult.ok st
      else RunResult.ok (emitVramClassHeader cn vc st)).andThen
      (addSegmentBody d rs fuel seg) = RunResult.ok st' := h2
  clear h2
  rw [hvem] at h3
  simp only [Bool.false_eq_true, if_false] at h3
  have h' : addSegmentBody d rs fuel seg
      (emitVramClassHeader cn vc st) = .ok st' := h3
  obtain ⟨⟨t₁, ht, hnt⟩, _, _, _, _⟩ :=
    addSegmentBody_spec d rs fuel seg _ st' h'
  obtain ⟨hde, _, _, _, _, _⟩ := emitVramClassHeader_spec cn vc st
  try rw [hvc] at ht
  refine ⟨⟨t₁ ++ [SymEvent.maxSelf (.vramClassEnd cn)
      (.segmentVramEnd seg.name)], ?_⟩, ?_, ?_, ?_⟩
  · rw [ht, hde, List.append_assoc, List.append_assoc]
  · intro fv hfv
    simp [classHeaderEvents, hfv]
  · intro fs h1 hfs
    simp [classHeaderEvents, h1, hfs]
  · intro h1 h2
    simp [classHeaderEvents, h1, h2]

theorem c7_class_header_content_witness :
    c2SegA.vramClass = some "ramC"
    ∧ ((Writer.new c2Doc rsNone).vramClasses).lookup "ramC" = some c2Class
    ∧ c2Class.emitted = false
    ∧ rsNone.shouldEmitEntry c2SegA.excludeIfAny c2SegA.excludeIfAll
        c2SegA.includeIfAny c2SegA.includeIfAll = true
    ∧ (Writer.new c2Doc rsNone).singleSegment = false
    ∧ addSegment c2Doc rsNone 9 c2SegA (Writer.new c2Doc rsNone)
        = .ok c7Run
    ∧ ((∃ t, c7Run.buffer.events
          = (Writer.new c2Doc rsNone).buffer.events
            ++ classHeaderEvents "ramC" c2Class ++ t)
      ∧ (∀ fv, c2Class.fixedVram = some fv →
          classHeaderEvents "ramC" c2Class
            = [.define (.vramClassStart "ramC") ("0x" ++ hex8 fv),
               .define (.vramClassEnd "ramC") "0x00000000"])
      ∧ (∀ fs, c2Class.fixedVram = none → c2Class.fixedSymbol = some fs →
          classHeaderEvents "ramC" c2Class
            = [.define (.vramClassStart "ramC") fs,
               .define (.vramClassEnd "ramC") "0x00000000"])
      ∧ (c2Class.fixedVram = none → c2Class.fixedSymbol = none →
          classHeaderEvents "ramC" c2Class
            = .define (.vramClassStart "ramC") "0x00000000"
                :: c2Class.followsClasses.map (fun oc =>
                    SymEvent.maxSelf (.vramClassStart "ramC")
                      (.vramClassEnd oc))
                  ++ [.define (.vramClassEnd "ramC") "0x00000000"])) :=
  ⟨rfl, rfl, rfl, rfl, rfl, rfl,
    c7_class_header_content c2Doc rsNone 9 c2SegA "ramC" c2Class
      (Writer.new c2Doc rsNone) c7Run rfl rfl rfl rfl rfl rfl⟩

/-- Opening one single-mode output section is an emission-core step. -/
theorem writeSingleSectionOpen_emitRel (rs : RuntimeSettings)
    (seg : Segment) (noload : Bool) (curr : String) (st : Writer) :
    EmitRel st (writeSingleSectionOpen rs seg noload curr st) := by
  unfold writeSingleSectionOpen
  cases seg.fillValue with
  | some f =>
    refine emitRel_trans (writeSectionSymbolStart_emitRel rs seg curr st) ?_
    refine emitRel_trans (emitRel_modBuf _ (fun b =>
        (b.writeln (singleSectionLine seg noload curr)).beginBlock)
      ⟨[], by simp [events_beginBlock, events_writeln], by simp⟩) ?_
    exact emitRel_modBuf _ (fun b => b.writeln ("FILL(0x" ++ hex8 f ++ ");"))
      ⟨[], by simp [events_writeln], by simp⟩
  | none =>
    refine emitRel_trans (writeSectionSymbolStart_emitRel rs seg curr st) ?_
    exact emitRel_modBuf _ (fun b =>
        (b.writeln (singleSectionLine seg noload curr)).beginBlock)
      ⟨[], by simp [events_beginBlock, events_writeln], by simp⟩

/-- A per-section single-mode iteration is an emission-core step. -/
theorem writeSingleStep_emitRel (d : Document) (rs : RuntimeSettings)
    (fuel : Nat) (seg : Segment) (sections : List String) (noload : Bool) :
    ∀ (p : Nat × String) (s₁ s₂ : Writer),
      writeSingleStep d rs fuel seg sections noload p s₁ = .ok s₂ →
      EmitRel s₁ s₂ := by
  intro p s₁ s₂ hk
  unfold writeSingleStep at hk
  cases he : emitSection d rs fuel seg p.2 sections
      (writeSingleSectionOpen rs seg noload p.2 s₁) with
  | ok s₃ =>
    rw [he] at hk
    have hk' : RunResult.ok (if p.1 + 1 < sections.length then
        (writeSectionSymbolEnd seg p.2
          (s₃.modBuf ScriptBuffer.endBlock)).modBuf
            ScriptBuffer.writeEmptyLine
      else writeSectionSymbolEnd seg p.2 (s₃.modBuf ScriptBuffer.endBlock))
        = .ok s₂ := hk
    rw [RunResult.ok.injEq] at hk'
    subst hk'
    refine emitRel_trans (writeSingleSectionOpen_emitRel rs seg noload p.2 s₁)
      ?_
    refine emitRel_trans
      (emitSection_emitRel d rs fuel seg p.2 sections _ _ he) ?_
    refine emitRel_trans
      (emitRel_modBuf s₃ ScriptBuffer.endBlock
        ⟨[], by simp [events_endBlock], by simp⟩) ?_
    refine emitRel_trans (writeSectionSymbolEnd_emitRel seg p.2 _) ?_
    split
    · exact modBuf_emptyLine_emitRel _
    · exact emitRel_refl _
  | err e => rw [he] at hk; exact absurd hk (by simp)
  | fatal s => rw [he] at hk; exact absurd hk (by simp)
  | diverge => rw [he] at hk; exact absurd hk (by simp)

/-- `write_single_segment` is an emission-core step. -/
theorem writeSingleSegment_emitRel (d : Document) (rs : RuntimeSettings)
    (fuel : Nat) (seg : Segment) (sections : List String) (noload : Bool)
    (st st' : Writer)
    (h : writeSingleSegment d rs fuel seg sections noload st = .ok st') :
    EmitRel st st' := by
  unfold writeSingleSegment at h
  obtain ⟨s2, h2, h3⟩ := andThen_ok_elim _ _ _ h
  simp only [RunResult.ok.injEq] at h3
  refine emitRel_trans (writeSectionsKindStart_emitRel seg noload st) ?_
  refine emitRel_trans (runList_emitRel _ sections.enum
    (writeSingleStep_emitRel d rs fuel seg sections noload) _ s2 h2) ?_
  rw [← h3]
  exact writeSectionsKindEnd_emitRel seg noload s2

/-- `add_segment` preserves the dependency invariant on every ok run. -/
theorem addSegment_inv9 (d : Document) (rs : RuntimeSettings) (fuel : Nat)
    (seg : Segment) (st st' : Writer)
    (h : addSegment d rs fuel seg st = .ok st') : Inv9 st → Inv9 st' := by
  unfold addSegment at h
  by_cases hB : rs.shouldEmitEntry seg.excludeIfAny seg.excludeIfAll
      seg.includeIfAny seg.includeIfAll
  · rw [hB] at h
    simp only [Bool.not_true, Bool.false_eq_true, if_false] at h
    cases hss : st.singleSegment
    · rw [hss] at h
      simp only [Bool.false_eq_true, if_false] at h
      cases hvc : seg.vramClass with
      | none =>
        rw [hvc] at h
        have h' : addSegmentBody d rs fuel seg st = .ok st' := h
        exact (addSegmentBody_spec d rs fuel seg st st' h').2.1
      | some cn =>
        rw [hvc] at h
        have h2 : (match List.lookup cn st.vramClasses with
            | none => RunResult.err (.missingVramClassForSegment seg.name cn)
            | some vc =>
              if vc.emitted = true then RunResult.ok st
              else RunResult.ok (emitVramClassHeader cn vc st)).andThen
            (addSegmentBody d rs fuel seg) = RunResult.ok st' := h
        clear h
        cases hlk : (st.vramClasses).lookup cn with
        | none =>
          rw [hlk] at h2
          exact absurd h2 (by simp [RunResult.andThen])
        | some vcn =>
          rw [hlk] at h2
          have h3 : (if vcn.emitted = true then RunResult.ok st
              else RunResult.ok (emitVramClassHeader cn vcn st)).andThen
              (addSegmentBody d rs fuel seg) = RunResult.ok st' := h2
          clear h2
          cases hem : vcn.emitted with
          | true =>
            rw [hem] at h3
            simp only [if_true] at h3
            have h' : addSegmentBody d rs fuel seg st = .ok st' := h3
            exact (addSegmentBody_spec d rs fuel seg st st' h').2.1
          | false =>
            rw [hem] at h3
            simp only [Bool.false_eq_true, if_false] at h3
            have h' : addSegmentBody d rs fuel seg
                (emitVramClassHeader cn vcn st) = .ok st' := h3
            intro hinv
            refine (addSegmentBody_spec d rs fuel seg _ st' h').2.1 ?_
            obtain ⟨_, _, hdf, hdr, _, _⟩ :=
              emitVramClassHeader_spec cn vcn st
            unfold Inv9
            rw [hdf, hdr]
            exact hinv
    · rw [hss] at h
      simp only [if_true] at h
      cases h
  · rw [eq_false_of_ne_true hB] at h
    simp only [Bool.not_false, if_true, RunResult.ok.injEq] at h
    subst h
    exact fun hi => hi

/-- A list run of invariant-preserving steps preserves the invariant. -/
theorem runList_inv9 {α : Type} (step : α → Writer → RunResult)
    (hstep : ∀ x st st', step x st = .ok st' → Inv9 st → Inv9 st') :
    ∀ (l : List α) (st st' : Writer),
      runList step l st = .ok st' → Inv9 st → Inv9 st' := by
  intro l
  induction l with
  | nil =>
    intro st st' h
    have h' : RunResult.ok st = RunResult.ok st' := h
    cases h'
    exact fun hi => hi
  | cons x xs ih =>
    intro st st' h
    simp only [runList] at h
    cases hx : step x st with
    | ok st1 =>
      rw [hx] at h
      exact fun hi => ih st1 st' h (hstep x st st1 hx hi)
    | err e => rw [hx] at h; cases h
    | fatal s => rw [hx] at h; cases h
    | diverge => rw [hx] at h; cases h

/-- `add_single_segment` preserves the dependency invariant. -/
theorem addSingleSegment_inv9 (d : Document) (rs : RuntimeSettings)
    (fuel : Nat) (seg : Segment) (st st' : Writer)
    (h : addSingleSegment d rs fuel seg st = .ok st') :
    Inv9 st → Inv9 st' := by
  unfold addSingleSegment at h
  cases hss : st.singleSegment
  · rw [hss] at h
    simp only [Bool.false_eq_true, if_false] at h
    obtain ⟨s2, h2, h3⟩ := andThen_ok_elim _ _ _ h
    obtain ⟨s3, h4, h5⟩ := andThen_ok_elim _ _ _ h3
    simp only [RunResult.ok.injEq] at h5
    intro hinv
    have hinv2 : Inv9 s2 :=
      (writeSingleSegment_emitRel d rs fuel seg seg.allocSections false
        _ s2 h2).2.1 hinv
    have hinv3 : Inv9 s3 :=
      (writeSingleSegment_emitRel d rs fuel seg seg.noloadSections true
        _ s3 h4).2.1 hinv2
    rw [← h5]
    obtain ⟨_, hf, hr, _, _, _⟩ :=
      endSections_spec d (s3.modBuf ScriptBuffer.writeEmptyLine)
    unfold Inv9
    rw [hf, hr]
    exact hinv3
  · rw [hss] at h
    simp only [if_true] at h
    cases h

/-- The whole generation pass establishes the dependency invariant. -/
theorem generate_inv9 (d : Document) (rs : RuntimeSettings) (fuel : Nat)
    (st' : Writer) (hgen : generate d rs fuel = .ok st') : Inv9 st' := by
  unfold generate at hgen
  obtain ⟨s1, h1, hrest⟩ := andThen_ok_elim _ _ _ hgen
  have hinv0 : Inv9 (Writer.new d rs) :=
    ⟨List.nodup_nil, fun p => Iff.rfl, List.Pairwise.nil⟩
  have hinv1 : Inv9 s1 := by
    unfold addAllSegments at h1
    cases hmode : d.settings.singleSegmentMode
    · rw [hmode] at h1
      simp only [Bool.false_eq_true, if_false] at h1
      obtain ⟨s2, h2, h3⟩ := andThen_ok_elim _ _ _ h1
      simp only [RunResult.ok.injEq] at h3
      have hinvB : Inv9 (beginSections d (Writer.new d rs)) := by
        obtain ⟨_, _, _, hf, hr⟩ := beginSections_frame d (Writer.new d rs)
        unfold Inv9
        rw [hf, hr]
        exact hinv0
      have hinv2 : Inv9 s2 :=
        runList_inv9 _ (fun seg => addSegment_inv9 d rs fuel seg)
          d.segments _ s2 h2 hinvB
      rw [← h3]
      obtain ⟨_, hf, hr, _, _, _⟩ := endSections_spec d s2
      unfold Inv9
      rw [hf, hr]
      exact hinv2
    · rw [hmode] at h1
      simp only [if_true] at h1
      cases hsegs : d.segments with
      | nil => rw [hsegs] at h1; cases h1
      | cons seg rest =>
        cases rest with
        | nil =>
          rw [hsegs] at h1
          exact addSingleSegment_inv9 d rs fuel seg _ s1 h1 hinv0
        | cons seg2 rest2 => rw [hsegs] at h1; cases h1
  obtain ⟨s3, hA, hrest2⟩ := andThen_ok_elim _ _ _ hrest
  obtain ⟨s4, hB, hrest3⟩ := andThen_ok_elim _ _ _ hrest2
  obtain ⟨s5, hC2, hrest4⟩ := andThen_ok_elim _ _ _ hrest3
  have hflat : FlatRel s1 st' := by
    refine flatRel_trans (addAllSymbolAssignments_flat rs _ s1 s3 hA)
      (flatRel_trans (addAllRequiredSymbols_flat rs _ s3 s4 hB)
        (flatRel_trans (addAllAsserts_flat rs _ s4 s5 hC2) ?_))
    cases he : d.entry with
    | some e =>
      rw [he] at hrest4
      simp only [RunResult.ok.injEq] at hrest4
      rw [← hrest4]
      exact addEntry_flat e s5
    | none =>
      rw [he] at hrest4
      simp only [RunResult.ok.injEq] at hrest4
      rw [← hrest4]
      exact ⟨rfl, rfl, rfl, rfl, rfl, rfl⟩
  unfold Inv9
  rw [hflat.2.2.1, hflat.2.2.2.1]
  exact hinv1

/-- C9: the dependency listing's prerequisite list is exactly the set of
Object/Archive paths referenced while emitting the script — each exactly
once, ordered by first reference — and the exported text is one rule for
the target naming all of them followed by one dependency-free rule per
path. -/
theorem c9_dependency_listing (d : Document) (rs : RuntimeSettings)
    (fuel : Nat) (st' : Writer)
    (hgen : generate d rs fuel = .ok st') :
    st'.filesPaths.Nodup
    ∧ (∀ p, p ∈ st'.filesPaths ↔ p ∈ st'.referencedPaths)
    ∧ List.Pairwise (fun p q =>
        posKey st'.referencedPaths p < posKey st'.referencedPaths q)
        st'.filesPaths
    ∧ ∀ target, exportDependenciesFile rs st' target
        = (if rs.emitVersionComment then
            "# Generated by slinky " ++ versionString ++ "\n\n"
          else "")
          ++ target ++ ":"
          ++ String.join (st'.filesPaths.map (fun p => " \\\n    " ++ p))
          ++ "\n\n"
          ++ String.join (st'.filesPaths.map (fun p => p ++ ":\n")) := by
  obtain ⟨hnd, hmem, hord⟩ := generate_inv9 d rs fuel st' hgen
  exact ⟨hnd, hmem, hord, fun target => rfl⟩

theorem c9_dependency_listing_witness :
    generate c2Doc rsNone 9 = .ok c2Run
    ∧ (c2Run.filesPaths.Nodup
      ∧ (∀ p, p ∈ c2Run.filesPaths ↔ p ∈ c2Run.referencedPaths)
      ∧ List.Pairwise (fun p q =>
          posKey c2Run.referencedPaths p < posKey c2Run.referencedPaths q)
          c2Run.filesPaths
      ∧ ∀ target, exportDependenciesFile rsNone c2Run target
          = (if rsNone.emitVersionComment then
              "# Generated by slinky " ++ versionString ++ "\n\n"
            else "")
            ++ target ++ ":"
            ++ String.join (c2Run.filesPaths.map (fun p => " \\\n    " ++ p))
            ++ "\n\n"
            ++ String.join (c2Run.filesPaths.map (fun p => p ++ ":\n")))
    ∧ c2Run.filesPaths = ["build/a.o", "build/b.o"] :=
  ⟨rfl, c9_dependency_listing c2Doc rsNone 9 c2Run rfl, rfl⟩

/-- One unfolding of the fuelled recursion at positive fuel. -/
theorem esff_succ (rs : RuntimeSettings) (fuel : Nat) (f : WFile)
    (seg : Segment) (curr : String) (sections : List String) (bp : String)
    (st : Writer) :
    emitSectionForFile rs (fuel + 1) f seg curr sections bp st
      = (if !f.sectionOrder.isEmpty then
          runList (fun k st' =>
            match emitFile rs
                (fun child sect bp' s' =>
                  emitSectionForFile rs fuel child seg sect sections bp' s')
                f seg k bp st' with
            | .ok st'' =>
              if !st''.referencePartialObjects then
                match (seg.sectionsSubgroups).lookup k with
                | some others =>
                  runList (fun o stI =>
                    emitSectionForFile rs fuel f seg o sections bp stI)
                    others st''
                | none => .ok st''
              else .ok st''
            | r => r) (sectionsToEmitHere f.sectionOrder curr sections) st
        else
          match emitFile rs
              (fun child sect bp' s' =>
                emitSectionForFile rs fuel child seg sect sections bp' s')
              f seg curr bp st with
          | .ok st' =>
            if !st'.referencePartialObjects then
              match (seg.sectionsSubgroups).lookup curr with
              | some others =>
                runList (fun o stI =>
                  emitSectionForFile rs fuel f seg o sections bp stI)
                  others st'
              | none => .ok st'
            else .ok st'
          | r => r) := rfl

/-- A run over a list whose head step diverges, diverges. -/
theorem runList_cons_diverge {α : Type} (step : α → Writer → RunResult)
    (x : α) (xs : List α) (st : Writer) (h : step x st = .diverge) :
    runList step (x :: xs) st = .diverge := by
  simp only [runList]
  rw [h]

/-- A run over steps that never diverge does not diverge. -/
theorem runList_ne_diverge {α : Type} (step : α → Writer → RunResult) :
    ∀ (l : List α) (st : Writer),
      (∀ x ∈ l, ∀ s, step x s ≠ .diverge) →
      runList step l st ≠ .diverge := by
  intro l
  induction l with
  | nil => intro st _ hcon; cases hcon
  | cons x xs ih =>
    intro st h
    simp only [runList]
    cases hx : step x st with
    | ok st1 => exact ih st1 (fun y hy => h y (List.mem_cons_of_mem x hy))
    | err e => intro hcon; cases hcon
    | fatal s => intro hcon; cases hcon
    | diverge => exact absurd hx (h x (List.mem_cons_self x xs) st)

/-- A successful association-list lookup exhibits a member. -/
theorem lookup_pair_mem {β : Type} (l : List (String × β)) (k : String)
    (v : β) (h : l.lookup k = some v) : (k, v) ∈ l := by
  induction l with
  | nil => simp [List.lookup] at h
  | cons kv t ih =>
    rw [List.lookup] at h
    cases hk : (k == kv.1) with
    | true =>
      rw [hk] at h
      simp only [Option.some.injEq] at h
      have hk' : k = kv.1 := by simpa using hk
      have hkv : (k, v) = kv := by
        cases kv
        simp_all
      rw [hkv]
      exact List.mem_cons_self _ _
    | false =>
      rw [hk] at h
      exact List.mem_cons_of_mem kv (ih h)

/-- A group child is structurally smaller than its parent descriptor. -/
theorem sizeOf_lt_of_mem_files (f : WFile) (c : WFile) (h : c ∈ f.files) :
    sizeOf c < sizeOf f := by
  cases f with
  | mk k p sf pa se lo so ks dr fs e1 e2 i1 i2 =>
    have h' : c ∈ fs := h
    have h1 := List.sizeOf_lt_of_mem h'
    simp only [WFile.mk.sizeOf_spec]
    omega

/-- The rank certificate bounds every redirection edge. -/
theorem rankOkFileN_so (rank : String → Nat) (n : Nat) (f : WFile)
    (h : rankOkFileN rank (n + 1) f = true) (a b : String)
    (hab : (a, b) ∈ f.sectionOrder) : rank a ≤ rank b := by
  unfold rankOkFileN at h
  rw [Bool.and_eq_true] at h
  have h2 := List.all_eq_true.mp h.1 (a, b) hab
  exact Nat.le_of_ble_eq_true h2

/-- The rank certificate descends to group children. -/
theorem rankOkFileN_child (rank : String → Nat) (n : Nat) (f : WFile)
    (h : rankOkFileN rank (n + 1) f = true) (c : WFile) (hc : c ∈ f.files) :
    rankOkFileN rank n c = true := by
  unfold rankOkFileN at h
  rw [Bool.and_eq_true] at h
  exact List.all_eq_true.mp h.2 c hc

/-- The segment certificate strictly decreases along subgroup edges. -/
theorem rankOkSeg_edge (rank : String → Nat) (seg : Segment)
    (h : rankOkSeg rank seg = true) (k : String) (os : List String)
    (o : String) (hk : (k, os) ∈ seg.sectionsSubgroups) (ho : o ∈ os) :
    rank o < rank k := by
  unfold rankOkSeg at h
  have h1 := List.all_eq_true.mp h (k, os) hk
  have h2 := List.all_eq_true.mp h1 o ho
  simpa [Nat.blt_eq] using h2

/-- `emit_file` cannot diverge when the recursion callback cannot. -/
theorem emitFile_ne_diverge (rs : RuntimeSettings)
    (recurse : WFile → String → String → Writer → RunResult)
    (f : WFile) (seg : Segment) (curr bp : String) (st : Writer)
    (h : ∀ child ∈ f.files, ∀ bp' s, recurse child curr bp' s ≠ .diverge) :
    emitFile rs recurse f seg curr bp st ≠ .diverge := by
  unfold emitFile
  cases hB : (rs.shouldEmitEntry f.excludeIfAny f.excludeIfAll
      f.includeIfAny f.includeIfAll)
  · intro hcon; cases hcon
  · simp only [Bool.not_true, Bool.false_eq_true, if_false]
    cases hk : f.kind with
    | object => intro hcon; cases hcon
    | archive => intro hcon; cases hcon
    | pad =>
      intro hcon
      by_cases hc : f.sectionF = curr <;> simp [hc] at hcon
    | linkerOffset =>
      intro hcon
      by_cases hc : f.sectionF = curr <;> simp [hc] at hcon
    | group =>
      exact runList_ne_diverge _ f.files st
        (fun child hc s => h child hc (pathJoin bp f.dir) s)

/-- Sections emitted under `curr` never exceed its rank when every
redirection edge is rank-nonincreasing. -/
theorem rank_le_of_mem_steh (rank : String → Nat)
    (so : List (String × String)) (curr : String) (sections : List String)
    (k : String) (hk : k ∈ sectionsToEmitHere so curr sections)
    (hso : ∀ a b, (a, b) ∈ so → rank a ≤ rank b) : rank k ≤ rank curr := by
  rw [mem_sectionsToEmitHere, mem_stehCands] at hk
  rcases hk with ⟨_, rfl⟩ | hk
  · exact Nat.le_refl _
  · exact hso k curr hk

/-- Rank-certified fuel bound: with rank-nonincreasing redirections,
strictly rank-decreasing subgroup edges and enough fuel for the measure
`rank · size`, the recursion cannot exhaust its fuel. -/
theorem esff_terminates (rs : RuntimeSettings) (rank : String → Nat)
    (seg : Segment) (sections : List String)
    (hseg : rankOkSeg rank seg = true) :
    ∀ (fuel : Nat) (f : WFile) (N D : Nat) (curr bp : String) (st : Writer),
      rankOkFileN rank N f = true →
      sizeOf f ≤ N →
      sizeOf f ≤ D →
      rank curr * (D + 1) + sizeOf f < fuel →
      emitSectionForFile rs fuel f seg curr sections bp st ≠ .diverge := by
  intro fuel
  induction fuel with
  | zero => intro f N D curr bp st _ _ _ hm; omega
  | succ fuel ih =>
    intro f N D curr bp st hok hN hD hm
    obtain ⟨n, rfl⟩ : ∃ n, N = n + 1 := by
      cases N with
      | zero =>
        rw [show rankOkFileN rank 0 f = false from rfl] at hok
        cases hok
      | succ n => exact ⟨n, rfl⟩
    have hchild : ∀ (k : String), rank k ≤ rank curr →
        ∀ child ∈ f.files, ∀ bp' s,
          emitSectionForFile rs fuel child seg k sections bp' s
            ≠ .diverge := by
      intro k hcr child hc bp' s
      have hsz := sizeOf_lt_of_mem_files f child hc
      refine ih child n D k bp' s (rankOkFileN_child rank n f hok child hc)
        (by omega) (by omega) ?_
      have h1 : rank k * (D + 1) ≤ rank curr * (D + 1) :=
        Nat.mul_le_mul_right _ hcr
      omega
    have hsub : ∀ (k : String), rank k ≤ rank curr →
        ∀ os, (seg.sectionsSubgroups).lookup k = some os →
        ∀ o ∈ os, ∀ s,
          emitSectionForFile rs fuel f seg o sections bp s ≠ .diverge := by
      intro k hkr os hlk o ho s
      have hedge := rankOkSeg_edge rank seg hseg k os o
        (lookup_pair_mem _ _ _ hlk) ho
      refine ih f (n + 1) D o bp s hok hN hD ?_
      have h1 : (rank o + 1) * (D + 1) ≤ rank curr * (D + 1) :=
        Nat.mul_le_mul_right _ (by omega)
      have h2 : rank o * (D + 1) + (D + 1) ≤ rank curr * (D + 1) := by
        calc rank o * (D + 1) + (D + 1) = (rank o + 1) * (D + 1) := by ring
          _ ≤ rank curr * (D + 1) := h1
      omega
    rw [esff_succ]
    cases hso : f.sectionOrder.isEmpty with
    | false =>
      simp only [Bool.not_false, if_true]
      refine runList_ne_diverge _ _ st ?_
      intro k hkmem s
      have hkr : rank k ≤ rank curr :=
        rank_le_of_mem_steh rank f.sectionOrder curr sections k hkmem
          (fun a b hab => rankOkFileN_so rank n f hok a b hab)
      cases he : emitFile rs
          (fun child sect bp' s' =>
            emitSectionForFile rs fuel child seg sect sections bp' s')
          f seg k bp s with
      | ok stB =>
        try rw [he]
        show (if !stB.referencePartialObjects then
            match (seg.sectionsSubgroups).lookup k with
            | some others =>
              runList (fun o stI =>
                emitSectionForFile rs fuel f seg o sections bp stI)
                others stB
            | none => .ok stB
          else .ok stB) ≠ .diverge
        cases hrpo : stB.referencePartialObjects with
        | true =>
          simp only [Bool.not_true, Bool.false_eq_true, if_false]
          exact fun hcon => RunResult.noConfusion hcon
        | false =>
          simp only [Bool.not_false, if_true]
          cases hlk : (seg.sectionsSubgroups).lookup k with
          | none => exact fun hcon => RunResult.noConfusion hcon
          | some others =>
            exact runList_ne_diverge _ others stB
              (fun o ho s2 => hsub k hkr others hlk o ho s2)
      | err e => exact fun hcon => RunResult.noConfusion hcon
      | fatal s2 => exact fun hcon => RunResult.noConfusion hcon
      | diverge =>
        exact absurd he
          (emitFile_ne_diverge rs _ f seg k bp s (hchild k hkr))
    | true =>
      simp only [Bool.not_true, Bool.false_eq_true, if_false]
      cases he : emitFile rs
          (fun child sect bp' s' =>
            emitSectionForFile rs fuel child seg sect sections bp' s')
          f seg curr bp st with
      | ok stB =>
        try rw [he]
        show (if !stB.referencePartialObjects then
            match (seg.sectionsSubgroups).lookup curr with
            | some others =>
              runList (fun o stI =>
                emitSectionForFile rs fuel f seg o sections bp stI)
                others stB
            | none => .ok stB
          else .ok stB) ≠ .diverge
        cases hrpo : stB.referencePartialObjects with
        | true =>
          simp only [Bool.not_true, Bool.false_eq_true, if_false]
          exact fun hcon => RunResult.noConfusion hcon
        | false =>
          simp only [Bool.not_false, if_true]
          cases hlk : (seg.sectionsSubgroups).lookup curr with
          | none => exact fun hcon => RunResult.noConfusion hcon
          | some others =>
            exact runList_ne_diverge _ others stB
              (fun o ho s2 =>
                hsub curr (Nat.le_refl _) others hlk o ho s2)
      | err e => exact fun hcon => RunResult.noConfusion hcon
      | fatal s2 => exact fun hcon => RunResult.noConfusion hcon
      | diverge =>
        exact absurd he
          (emitFile_ne_diverge rs _ f seg curr bp st
            (hchild curr (Nat.le_refl _)))

/-- Emitting an Object descriptor always succeeds and never flips the
partial-objects mode. -/
theorem emitFile_object_ok (rs : RuntimeSettings)
    (recurse : WFile → String → String → Writer → RunResult)
    (f : WFile) (seg : Segment) (curr bp : String) (st : Writer)
    (hk : f.kind = .object) :
    ∃ st', emitFile rs recurse f seg curr bp st = .ok st'
      ∧ st'.referencePartialObjects = st.referencePartialObjects := by
  unfold emitFile
  cases hB : (rs.shouldEmitEntry f.excludeIfAny f.excludeIfAll
      f.includeIfAny f.includeIfAll)
  · exact ⟨st, by simp, rfl⟩
  · simp only [Bool.not_true, Bool.false_eq_true, if_false]
    rw [hk]
    exact ⟨_, rfl, rfl⟩

/-- A direct subgroup self-edge recurses indefinitely: the embedding
exhausts any fuel. -/
theorem esffCycleDiverges :
    ∀ (fuel : Nat) (st : Writer), st.referencePartialObjects = false →
      emitSectionForFile rsNone fuel c5CycFile c5CycSeg "secC" [] "bp" st
        = .diverge := by
  intro fuel
  induction fuel with
  | zero => intro st _; rfl
  | succ n ih =>
    intro st hrpo
    show (match emitFile rsNone
        (fun child sect bp' s' =>
          emitSectionForFile rsNone n child c5CycSeg sect [] bp' s')
        c5CycFile c5CycSeg "secC" "bp" st with
      | .ok st' =>
        if !st'.referencePartialObjects then
          match (c5CycSeg.sectionsSubgroups).lookup "secC" with
          | some others =>
            runList (fun o stI =>
              emitSectionForFile rsNone n c5CycFile c5CycSeg o [] "bp" stI)
              others st'
          | none => .ok st'
        else .ok st'
      | r => r) = .diverge
    obtain ⟨stA, hef, hrpoA⟩ := emitFile_object_ok rsNone
      (fun child sect bp' s' =>
        emitSectionForFile rsNone n child c5CycSeg sect [] bp' s')
      c5CycFile c5CycSeg "secC" "bp" st rfl
    rw [hef]
    show (if !stA.referencePartialObjects then
        match (c5CycSeg.sectionsSubgroups).lookup "secC" with
        | some others =>
          runList (fun o stI =>
            emitSectionForFile rsNone n c5CycFile c5CycSeg o [] "bp" stI)
            others stA
        | none => .ok stA
      else .ok stA) = .diverge
    rw [hrpoA, hrpo]
    show (runList (fun o stI =>
        emitSectionForFile rsNone n c5CycFile c5CycSeg o [] "bp" stI)
        ["secC"] stA) = .diverge
    exact runList_cons_diverge _ "secC" [] stA (ih stA (hrpoA.trans hrpo))

/-- The acyclic-from-the-start scenario also recurses indefinitely: the
redirection map re-injects the subgroup owner `secA` under `secB`, whose
subgroup edge leads back to `secB`. -/
theorem esffRedirectDiverges :
    ∀ (fuel : Nat) (st : Writer), st.referencePartialObjects = false →
      emitSectionForFile rsNone fuel c5File c5Seg "secB" ["secA", "secB"]
        "bp" st = .diverge := by
  intro fuel
  induction fuel with
  | zero => intro st _; rfl
  | succ n ih =>
    intro st hrpo
    show (runList (fun k st' =>
        match emitFile rsNone
            (fun child sect bp' s' =>
              emitSectionForFile rsNone n child c5Seg sect ["secA", "secB"]
                bp' s')
            c5File c5Seg k "bp" st' with
        | .ok st'' =>
          if !st''.referencePartialObjects then
            match (c5Seg.sectionsSubgroups).lookup k with
            | some others =>
              runList (fun o stI =>
                emitSectionForFile rsNone n c5File c5Seg o ["secA", "secB"]
                  "bp" stI) others st''
            | none => .ok st''
          else .ok st''
        | r => r)
      (sectionsToEmitHere c5File.sectionOrder "secB" ["secA", "secB"]) st)
      = .diverge
    have hks : sectionsToEmitHere c5File.sectionOrder "secB" ["secA", "secB"]
        = ["secA", "secB"] := by decide
    rw [hks]
    refine runList_cons_diverge _ "secA" ["secB"] st ?_
    show (match emitFile rsNone
        (fun child sect bp' s' =>
          emitSectionForFile rsNone n child c5Seg sect ["secA", "secB"]
            bp' s')
        c5File c5Seg "secA" "bp" st with
      | .ok st'' =>
        if !st''.referencePartialObjects then
          match (c5Seg.sectionsSubgroups).lookup "secA" with
          | some others =>
            runList (fun o stI =>
              emitSectionForFile rsNone n c5File c5Seg o ["secA", "secB"]
                "bp" stI) others st''
          | none => .ok st''
        else .ok st''
      | r => r) = .diverge
    obtain ⟨stA, hef, hrpoA⟩ := emitFile_object_ok rsNone
      (fun child sect bp' s' =>
        emitSectionForFile rsNone n child c5Seg sect ["secA", "secB"] bp' s')
      c5File c5Seg "secA" "bp" st rfl
    rw [hef]
    show (if !stA.referencePartialObjects then
        match (c5Seg.sectionsSubgroups).lookup "secA" with
        | some others =>
          runList (fun o stI =>
            emitSectionForFile rsNone n c5File c5Seg o ["secA", "secB"]
              "bp" stI) others stA
        | none => .ok stA
      else .ok stA) = .diverge
    rw [hrpoA, hrpo]
    show (runList (fun o stI =>
        emitSectionForFile rsNone n c5File c5Seg o ["secA", "secB"] "bp" stI)
        ["secB"] stA) = .diverge
    exact runList_cons_diverge _ "secB" [] stA (ih stA (hrpoA.trans hrpo))

/-- C5 (amended): the recursive emission has no cycle guard or depth
limit.  It cannot exhaust any sufficient fuel whenever a rank certificate
exists — redirection edges rank-nonincreasing, subgroup edges strictly
rank-decreasing, i.e. acyclicity of the combined redirection/subgroup walk
rather than of the subgroup map alone — and a subgroup configuration that
maps a section back to its own originating section recurses indefinitely
(the fuelled embedding diverges at every fuel). -/
theorem c5_recursion_termination_and_divergence :
    (∀ (rs : RuntimeSettings) (rank : String → Nat) (seg : Segment)
        (sections : List String) (fuel : Nat) (f : WFile) (N D : Nat)
        (curr bp : String) (st : Writer),
        rankOkSeg rank seg = true →
        rankOkFileN rank N f = true →
        sizeOf f ≤ N → sizeOf f ≤ D →
        rank curr * (D + 1) + sizeOf f < fuel →
        emitSectionForFile rs fuel f seg curr sections bp st ≠ .diverge)
    ∧ (∀ (fuel : Nat) (st : Writer), st.referencePartialObjects = false →
        emitSectionForFile rsNone fuel c5CycFile c5CycSeg "secC" [] "bp" st
          = .diverge) :=
  ⟨fun rs rank seg sections fuel f N D curr bp st hseg hok hN hD hm =>
    esff_terminates rs rank seg sections hseg fuel f N D curr bp st hok hN
      hD hm,
  esffCycleDiverges⟩

/-- C5 counterexample: a subgroup map that is acyclic — its only edge is
`secA -> secB`, no section reaches back to itself, and the starting
section `secB` owns no subgroup edge at all — whose emission from `secB`
nonetheless exhausts every fuel, because the file's redirection
`secA -> secB` re-emits `secA` under `secB` and `secA`'s subgroup edge
leads back to `secB`. -/
theorem c5_counterexample :
    c5Seg.sectionsSubgroups = [("secA", ["secB"])]
    ∧ List.lookup "secB" c5Seg.sectionsSubgroups = none
    ∧ ("secA" ∈ (["secB"] : List String) → False)
    ∧ (∀ (fuel : Nat) (st : Writer), st.referencePartialObjects = false →
        emitSectionForFile rsNone fuel c5File c5Seg "secB" ["secA", "secB"]
          "bp" st = .diverge)
    ∧ emitSectionForFile rsNone 50 c5File c5Seg "secB" ["secA", "secB"]
        "bp" writer0 = .diverge :=
  ⟨rfl, rfl, by decide, esffRedirectDiverges,
    esffRedirectDiverges 50 writer0 rfl⟩

theorem c5_recursion_termination_and_divergence_witness :
    rankOkSeg (fun _ => 0) c5TermSeg = true
    ∧ rankOkFileN (fun _ => 0) 1000000 (objFile "t.o" []) = true
    ∧ sizeOf (objFile "t.o" []) ≤ 1000000
    ∧ (fun _ => (0 : Nat)) "sec1" * (1000000 + 1)
        + sizeOf (objFile "t.o" []) < 1000001
    ∧ emitSectionForFile rsNone 1000001 (objFile "t.o" []) c5TermSeg "sec1"
        ["sec1"] "bp" writer0 ≠ .diverge
    ∧ writer0.referencePartialObjects = false
    ∧ emitSectionForFile rsNone 3 c5CycFile c5CycSeg "secC" [] "bp" writer0
        = .diverge :=
  ⟨by decide, by decide, by decide, by decide,
    c5_recursion_termination_and_divergence.1 rsNone (fun _ => 0) c5TermSeg
      ["sec1"] 1000001 (objFile "t.o" []) 1000000 1000000 "sec1" "bp"
      writer0 (by decide) (by decide) (by decide) (by decide) (by decide),
    rfl,
    c5_recursion_termination_and_divergence.2 3 writer0 rfl⟩
